import Mathlib

/-!
Server inventory: bulk import and reconciliation.

A shallow embedding of the import and validation code of `src/src/App.jsx`
(`isValidIPv4`, `todayISO`, `normalizeHeader`, `pickFromOptions`, `toISODate`,
`validate`, `upsertServer`, `HEADER_ALIASES`, `rowToRecord`, `onImportExcel`)
and theorems about it.

Modelling conventions.

* A JavaScript string is a Lean `String`, that is a sequence of Unicode scalar
  values; the relational operators `<` and `>` of JavaScript compare UTF-16
  code units, which `jsLt` reproduces by encoding both sides.
* What the JavaScript runtime supplies and the repository does not define is a
  field of `Platform`: `String.prototype.toLowerCase`,
  `String.prototype.localeCompare` and the three getters of `new Date()` that
  `todayISO` reads.  Theorems quantify over every platform.
* A spreadsheet cell that is not text is represented by what the code observes
  of it: `String(v)`, `XLSX.SSF.parse_date_code(v)`, `v.toISOString()`.
* A JavaScript object or `Map` with string keys is an association list in
  insertion order (`JsMap`).  The lookup `HEADER_ALIASES[nk]` also reads the
  properties inherited from `Object.prototype` (`lookupAlias`).
* React state is passed explicitly: `onImportExcel` takes the current
  `servers` and returns the next `servers` together with the toast it shows.
-/

namespace ServerInventory

/-! ## Strings -/

/-- White space and line terminators of ECMAScript: the characters stripped by
`String.prototype.trim` and matched by `\s`. -/
def isJsWhiteSpace (c : Char) : Bool :=
  let n := c.toNat
  n == 0x09 || n == 0x0A || n == 0x0B || n == 0x0C || n == 0x0D || n == 0x20 ||
  n == 0xA0 || n == 0x1680 || (decide (0x2000 ≤ n) && decide (n ≤ 0x200A)) ||
  n == 0x2028 || n == 0x2029 || n == 0x202F || n == 0x205F || n == 0x3000 ||
  n == 0xFEFF

/-- `String.prototype.trim` on a list of characters. -/
def trimChars (s : List Char) : List Char :=
  ((s.dropWhile isJsWhiteSpace).reverse.dropWhile isJsWhiteSpace).reverse

/-- `String.prototype.trim`. -/
def jsTrim (s : String) : String := ⟨trimChars s.data⟩

/-- The UTF-16 code units of one character. -/
def utf16Units (c : Char) : List Nat :=
  if c.toNat < 0x10000 then [c.toNat]
  else [0xD800 + (c.toNat - 0x10000) / 0x400, 0xDC00 + (c.toNat - 0x10000) % 0x400]

/-- The UTF-16 code units of a list of characters. -/
def codeUnitsOf : List Char → List Nat
  | [] => []
  | c :: s => utf16Units c ++ codeUnitsOf s

/-- The UTF-16 code units of a string. -/
def codeUnits (s : String) : List Nat := codeUnitsOf s.data

/-- Strict lexicographic order on sequences of code units. -/
def lexLt : List Nat → List Nat → Bool
  | _, [] => false
  | [], _ :: _ => true
  | a :: as, b :: bs => decide (a < b) || (a == b && lexLt as bs)

/-- The JavaScript comparison `a < b` of two strings (by UTF-16 code unit). -/
def jsLt (a b : String) : Bool := lexLt (codeUnits a) (codeUnits b)

/-- The JavaScript comparison `a > b` of two strings. -/
def jsGt (a b : String) : Bool := jsLt b a

/-- `String(n)` for a natural number: its decimal digits. -/
def natToString (n : Nat) : String := ⟨Nat.toDigits 10 n⟩

/-- `String(n)` for an integer. -/
def intToString : Int → String
  | Int.ofNat n => natToString n
  | Int.negSucc n => "-" ++ natToString (n + 1)

/-- `s.padStart(2, "0")`. -/
def padStart2 (s : String) : String :=
  ⟨List.replicate (2 - (codeUnits s).length) '0' ++ s.data⟩

/-- `s.slice(0, 10)`; it is applied to strings whose first ten code units are
ASCII, where code units and characters coincide. -/
def slice10 (s : String) : String := ⟨s.data.take 10⟩

/-! ## Regular expressions -/

/-- The fragment of regular expressions the source uses for tests: character
classes, sequence and alternation. -/
inductive RE where
  | eps : RE
  | cls (p : Char → Bool) : RE
  | seq (a b : RE) : RE
  | alt (a b : RE) : RE

/-- Backtracking matcher: `r.run s k` holds when some way of matching `r` at
the start of `s` leaves a rest accepted by `k`. -/
def RE.run : RE → List Char → (List Char → Bool) → Bool
  | RE.eps, s, k => k s
  | RE.cls _, [], _ => false
  | RE.cls p, c :: s, k => p c && k s
  | RE.seq a b, s, k => RE.run a s (fun t => RE.run b t k)
  | RE.alt a b, s, k => RE.run a s k || RE.run b s k

/-- `/^r$/.test(s)`. -/
def RE.testFull (r : RE) (s : String) : Bool := r.run s.data List.isEmpty

/-- `/^r/.test(s)`. -/
def RE.testStart (r : RE) (s : String) : Bool := r.run s.data (fun _ => true)

/-- The class of one character. -/
def RE.chr (c : Char) : RE := RE.cls (fun x => x == c)

/-- The class `[lo-hi]`. -/
def RE.range (lo hi : Char) : RE := RE.cls (fun x => decide (lo.toNat ≤ x.toNat) && decide (x.toNat ≤ hi.toNat))

/-- The class `\d`. -/
def RE.digit : RE := RE.range '0' '9'

/-- The optional `r?`. -/
def RE.opt (r : RE) : RE := RE.alt r RE.eps

/-- The class `[\/\-]`. -/
def RE.dateSep : RE := RE.cls (fun x => x == '/' || x == '-')

/-- The group `(25[0-5]|2[0-4]\d|1\d\d|[1-9]?\d)`. -/
def reOctet : RE :=
  RE.alt (RE.seq (RE.chr '2') (RE.seq (RE.chr '5') (RE.range '0' '5')))
    (RE.alt (RE.seq (RE.chr '2') (RE.seq (RE.range '0' '4') RE.digit))
      (RE.alt (RE.seq (RE.chr '1') (RE.seq RE.digit RE.digit))
        (RE.seq (RE.opt (RE.range '1' '9')) RE.digit)))

/-- The group `(\.(25[0-5]|2[0-4]\d|1\d\d|[1-9]?\d))`. -/
def reDotOctet : RE := RE.seq (RE.chr '.') reOctet

/-- The body of the regular expression of `isValidIPv4`: an octet followed by
three dotted octets. -/
def reIPv4 : RE := RE.seq reOctet (RE.seq reDotOctet (RE.seq reDotOctet reDotOctet))

/-- The quantified `\d{1,2}`. -/
def reDigits12 : RE := RE.seq RE.digit (RE.opt RE.digit)

/-- The quantified `\d{4}`. -/
def reDigits4 : RE := RE.seq RE.digit (RE.seq RE.digit (RE.seq RE.digit RE.digit))

/-- The body of `/^(\d{1,2})[\/\-](\d{1,2})[\/\-](\d{4})$/`. -/
def reDayFirst : RE :=
  RE.seq reDigits12 (RE.seq RE.dateSep (RE.seq reDigits12 (RE.seq RE.dateSep reDigits4)))

/-- The body of `/^(\d{4})[\/\-](\d{1,2})[\/\-](\d{1,2})$/`. -/
def reYearFirst : RE :=
  RE.seq reDigits4 (RE.seq RE.dateSep (RE.seq reDigits12 (RE.seq RE.dateSep reDigits12)))

/-- The body of `/^\d{4}-\d{2}-\d{2}/`. -/
def reIsoStart : RE :=
  RE.seq reDigits4 (RE.seq (RE.chr '-') (RE.seq RE.digit (RE.seq RE.digit
    (RE.seq (RE.chr '-') (RE.seq RE.digit RE.digit)))))

/-- The pieces of a string between the separators `/` and `-`.  For a string
matched by `reDayFirst` or `reYearFirst` these are its three capture groups,
because the groups hold digits only. -/
def splitDate : List Char → List (List Char)
  | [] => [[]]
  | c :: s =>
    if c == '/' || c == '-' then [] :: splitDate s
    else match splitDate s with
      | [] => [[c]]
      | g :: gs => (c :: g) :: gs

/-! ## The platform -/

/-- What the JavaScript runtime supplies to the code. -/
structure Platform where
  /-- `String.prototype.toLowerCase`. -/
  toLowerCase : String → String
  /-- `String.prototype.localeCompare`: negative, zero or positive. -/
  localeCompare : String → String → Int
  /-- `new Date().getFullYear()`. -/
  fullYear : Int
  /-- `new Date().getMonth()`, counted from zero. -/
  month : Nat
  /-- `new Date().getDate()`. -/
  date : Nat

/-- The comparator `localeCompare` is consistent, as `Array.prototype.sort`
requires of a comparator: any two strings are comparable and the order is
transitive. -/
def Platform.Consistent (P : Platform) : Prop :=
  (∀ a b, P.localeCompare a b ≤ 0 ∨ P.localeCompare b a ≤ 0) ∧
  (∀ a b c, P.localeCompare a b ≤ 0 → P.localeCompare b c ≤ 0 → P.localeCompare a c ≤ 0)

/-- The function `isValidIPv4` of the source. -/
def isValidIPv4 (ip : String) : Bool := reIPv4.testFull (jsTrim ip)

/-- The function `todayISO` of the source. -/
def todayISO (P : Platform) : String :=
  let yyyy := P.fullYear
  let mm := padStart2 (natToString (P.month + 1))
  let dd := padStart2 (natToString P.date)
  intToString yyyy ++ "-" ++ mm ++ "-" ++ dd

/-- The function `normalizeHeader` of the source: both `replace` calls delete
every character of a class, the first `[\s\-_]`, the second `[^\w]`. -/
def normalizeHeader (P : Platform) (h : String) : String :=
  let lowered := P.toLowerCase (jsTrim h)
  let step1 := lowered.data.filter (fun c => !(isJsWhiteSpace c || c == '-' || c == '_'))
  let isWord := fun (c : Char) =>
    (decide ('a'.toNat ≤ c.toNat) && decide (c.toNat ≤ 'z'.toNat)) ||
    (decide ('A'.toNat ≤ c.toNat) && decide (c.toNat ≤ 'Z'.toNat)) ||
    (decide ('0'.toNat ≤ c.toNat) && decide (c.toNat ≤ '9'.toNat)) || c == '_'
  ⟨step1.filter isWord⟩

/-- The function `pickFromOptions` of the source, on a string value. -/
def pickFromOptions (P : Platform) (value : String) (options : List String) (fallback : String) :
    String :=
  let s := jsTrim value
  if s = "" then fallback
  else
    match options.find? (fun x => P.toLowerCase x == P.toLowerCase s) with
    | some hit => if hit = "" then fallback else hit
    | none => fallback

/-! ## Cells and dates -/

/-- The fields `y`, `m`, `d` of the object returned by `XLSX.SSF.parse_date_code`. -/
structure DateCode where
  y : Nat
  m : Nat
  d : Nat
  deriving DecidableEq, Repr

/-- A cell value as `sheet_to_json` hands it to the code, with the values
`null` and `undefined` that `toISODate` also accepts.  A number is given by its
text `String(v)` and by `XLSX.SSF.parse_date_code(v)` (`none` for `null`); a
valid `Date` by `v.toISOString()` and `String(v)`. -/
inductive Cell where
  | text (s : String) : Cell
  | number (str : String) (dateCode : Option DateCode) : Cell
  | date (iso : String) (str : String) : Cell
  | invalidDate : Cell
  | null : Cell
  | undefined : Cell
  deriving DecidableEq, Repr

/-- The conversion `String(v ?? "")`. -/
def Cell.toText : Cell → String
  | Cell.text s => s
  | Cell.number str _ => str
  | Cell.date _ str => str
  | Cell.invalidDate => "Invalid Date"
  | Cell.null => ""
  | Cell.undefined => ""

/-- The tail of `toISODate`, from `const s = String(val).trim()` on, given
`String(val)`. -/
def toISODateText (str : String) : String :=
  let s := jsTrim str
  if reDayFirst.testFull s then
    match splitDate s.data with
    | [g1, g2, g3] => (⟨g3⟩ : String) ++ "-" ++ padStart2 ⟨g2⟩ ++ "-" ++ padStart2 ⟨g1⟩
    | _ => s
  else if reYearFirst.testFull s then
    match splitDate s.data with
    | [g1, g2, g3] => (⟨g1⟩ : String) ++ "-" ++ padStart2 ⟨g2⟩ ++ "-" ++ padStart2 ⟨g3⟩
    | _ => s
  else if reIsoStart.testStart s then slice10 s
  else s

/-- The function `toISODate` of the source. -/
def toISODate : Cell → String
  | Cell.null => ""
  | Cell.undefined => ""
  | Cell.text s => if s = "" then "" else toISODateText s
  | Cell.date iso _ => slice10 iso
  | Cell.invalidDate => toISODateText "Invalid Date"
  | Cell.number str dateCode =>
    match dateCode with
    | some d =>
      if d.y ≠ 0 ∧ d.m ≠ 0 ∧ d.d ≠ 0 then
        natToString d.y ++ "-" ++ padStart2 (natToString d.m) ++ "-" ++ padStart2 (natToString d.d)
      else toISODateText str
    | none => toISODateText str

/-! ## Records -/

/-- A server record: the thirteen string fields of the form, and any further own
properties. -/
structure Record where
  serverName : String
  ip : String
  purpose : String
  os : String
  status : String
  allocatedDate : String
  surrenderedDate : String
  remarks : String
  backupType : String
  category : String
  owner : String
  backupFrequency : String
  additionalRemarks : String
  /-- Any further own properties of the object, in insertion order.  `rowToRecord`
  adds one when a header resolves to a property that `HEADER_ALIASES` inherits
  from `Object.prototype`; its key, the text of the inherited value, is
  represented by the name of the inherited property. -/
  extra : List (String × String)
  deriving DecidableEq, Repr

/-- The names of the fields of a record, the values of `HEADER_ALIASES`. -/
inductive Field where
  | serverName | ip | purpose | os | status | allocatedDate | surrenderedDate
  | remarks | backupType | category | owner | backupFrequency | additionalRemarks
  deriving DecidableEq, Repr

/-- The assignment `rec[field] = v`. -/
def Record.setField (r : Record) : Field → String → Record
  | Field.serverName, v => { r with serverName := v }
  | Field.ip, v => { r with ip := v }
  | Field.purpose, v => { r with purpose := v }
  | Field.os, v => { r with os := v }
  | Field.status, v => { r with status := v }
  | Field.allocatedDate, v => { r with allocatedDate := v }
  | Field.surrenderedDate, v => { r with surrenderedDate := v }
  | Field.remarks, v => { r with remarks := v }
  | Field.backupType, v => { r with backupType := v }
  | Field.category, v => { r with category := v }
  | Field.owner, v => { r with owner := v }
  | Field.backupFrequency, v => { r with backupFrequency := v }
  | Field.additionalRemarks, v => { r with additionalRemarks := v }

/-- The constant `OS_OPTIONS`. -/
def OS_OPTIONS : List String :=
  ["Windows Server 2019", "Windows Server 2022", "Ubuntu 20.04", "Ubuntu 22.04",
   "Oracle Linux 8", "Other"]

/-- The constant `STATUS_OPTIONS`. -/
def STATUS_OPTIONS : List String := ["Active", "Decommissioned", "PoweredOff"]

/-- The constant `BACKUP_TYPE_OPTIONS`. -/
def BACKUP_TYPE_OPTIONS : List String := ["Full", "Incremental", "Differential", "Snapshot", "None"]

/-- The constant `BACKUP_FREQ_OPTIONS`. -/
def BACKUP_FREQ_OPTIONS : List String :=
  ["Hourly", "Daily", "Weekly", "Monthly", "On-change", "None"]

/-- The constant `CATEGORY_OPTIONS`. -/
def CATEGORY_OPTIONS : List String := ["Project", "Product", "Customer"]

/-- The constant `emptyForm`: `os`, `status`, `backupType` and `category` are
the first option of their list, `backupFrequency` the second. -/
def emptyForm : Record where
  serverName := ""
  ip := ""
  purpose := ""
  os := "Windows Server 2019"
  status := "Active"
  allocatedDate := ""
  surrenderedDate := ""
  remarks := ""
  backupType := "Full"
  category := "Project"
  owner := ""
  backupFrequency := "Daily"
  additionalRemarks := ""
  extra := []

/-! ## Objects and maps with string keys -/

/-- A JavaScript object or `Map` with string keys: its entries in insertion
order. -/
abbrev JsMap (V : Type) := List (String × V)

/-- The call `map.set(k, v)`, also the assignment `e.k = v`: the value of an
existing key is replaced where it stands, a new key is added at the end. -/
def mapSet {V : Type} : JsMap V → String → V → JsMap V
  | [], k, v => [(k, v)]
  | (k1, v1) :: m, k, v => if k1 = k then (k1, v) :: m else (k1, v1) :: mapSet m k v

/-- The call `map.get(k)`, also the property access `o[k]` on own properties:
`none` stands for `undefined`. -/
def mapGet {V : Type} : JsMap V → String → Option V
  | [], _ => none
  | (k1, v1) :: m, k => if k1 = k then some v1 else mapGet m k

/-- Setting a list of entries in order. -/
def mapSetAll {V : Type} (m : JsMap V) (entries : List (String × V)) : JsMap V :=
  entries.foldl (fun m e => mapSet m e.1 e.2) m

/-- The call `map.has(k)`. -/
def mapHas {V : Type} (m : JsMap V) (k : String) : Bool := m.any (fun e => e.1 == k)

/-- The constructor `new Map(entries)`: the entries are set in order. -/
def mapOfEntries {V : Type} (entries : List (String × V)) : JsMap V :=
  mapSetAll [] entries

/-- The call `Array.from(map.values())`. -/
def mapValues {V : Type} (m : JsMap V) : List V := m.map Prod.snd

/-- The call `Object.keys(e)`. -/
def objectKeys {V : Type} (m : JsMap V) : List String := m.map Prod.fst

/-! ## Validation -/

/-- The function `validate` of the source: the object `e` of error messages,
keyed by field name. -/
def validate (P : Platform) (nextForm : Record) : JsMap String :=
  let e : JsMap String := []
  let name := jsTrim nextForm.serverName
  let e := if name = "" then mapSet e "serverName" "Server Name is required." else e
  let ip := jsTrim nextForm.ip
  let e :=
    if ip = "" then mapSet e "ip" "Server IP is required."
    else if !isValidIPv4 ip then mapSet e "ip" "Enter a valid IPv4 address (e.g., 10.20.5.14)."
    else e
  let e := if jsTrim nextForm.purpose = "" then mapSet e "purpose" "Purpose is required." else e
  let e := if jsTrim nextForm.owner = "" then mapSet e "owner" "Owner is required." else e
  let alloc := nextForm.allocatedDate
  let e :=
    if alloc = "" then mapSet e "allocatedDate" "Allocated Date is required."
    else if jsGt alloc (todayISO P) then
      mapSet e "allocatedDate" "Allocated Date cannot be in the future."
    else e
  let needsSurrender := ["Decommissioned", "Retired"].contains nextForm.status
  let e :=
    if needsSurrender && nextForm.surrenderedDate == "" then
      mapSet e "surrenderedDate" "Surrendered Date is required for this status."
    else e
  let e :=
    if nextForm.surrenderedDate != "" && alloc != "" && jsLt nextForm.surrenderedDate alloc then
      mapSet e "surrenderedDate" "Surrendered Date must be on/after Allocated Date."
    else e
  let e :=
    if nextForm.backupType == "None" && nextForm.backupFrequency != "None" then
      mapSet e "backupFrequency" "Backup Frequency must be None when Backup Type is None."
    else e
  let e :=
    if nextForm.backupType != "None" && nextForm.backupFrequency == "None" then
      mapSet e "backupFrequency" "Choose a frequency (or set Backup Type to None)."
    else e
  e

/-! ## Rows -/

/-- The constant `HEADER_ALIASES`: own properties of the object literal, in the
order of the source. -/
def HEADER_ALIASES : JsMap Field :=
  [("servername", Field.serverName), ("server", Field.serverName),
   ("hostname", Field.serverName), ("host", Field.serverName),
   ("machinename", Field.serverName), ("systemname", Field.serverName),
   ("ip", Field.ip), ("ipaddress", Field.ip), ("ipaddr", Field.ip), ("ipv4", Field.ip),
   ("purpose", Field.purpose), ("usage", Field.purpose), ("description", Field.purpose),
   ("service", Field.purpose),
   ("os", Field.os), ("operatingsystem", Field.os),
   ("status", Field.status), ("state", Field.status),
   ("allocateddate", Field.allocatedDate), ("allocationdate", Field.allocatedDate),
   ("allocatedon", Field.allocatedDate), ("allocated", Field.allocatedDate),
   ("surrendereddate", Field.surrenderedDate), ("surrenderdate", Field.surrenderedDate),
   ("surrenderedon", Field.surrenderedDate), ("surrendered", Field.surrenderedDate),
   ("remarks", Field.remarks), ("remark", Field.remarks), ("notes", Field.remarks),
   ("backuptype", Field.backupType), ("backup", Field.backupType),
   ("category", Field.category), ("servercategory", Field.category),
   ("owner", Field.owner), ("team", Field.owner), ("ownedby", Field.owner),
   ("backupfrequency", Field.backupFrequency), ("frequency", Field.backupFrequency),
   ("backuprunfrequency", Field.backupFrequency),
   ("additionalremarks", Field.additionalRemarks), ("additionalremark", Field.additionalRemarks),
   ("extra", Field.additionalRemarks), ("extraremarks", Field.additionalRemarks),
   ("drnotes", Field.additionalRemarks)]

/-- The names of the properties that the object literal `HEADER_ALIASES` inherits
from `Object.prototype`.  The value of each is truthy: a function, and for
`__proto__` the prototype object. -/
def objectPrototypeKeys : List String :=
  ["constructor", "__defineGetter__", "__defineSetter__", "hasOwnProperty",
   "__lookupGetter__", "__lookupSetter__", "isPrototypeOf", "propertyIsEnumerable",
   "toString", "valueOf", "__proto__", "toLocaleString"]

/-- The value of `HEADER_ALIASES[nk]` when it is not `undefined`: the name of a
field, or the value of the inherited property of the given name. -/
inductive AliasValue where
  | field (f : Field) : AliasValue
  | inherited (name : String) : AliasValue
  deriving DecidableEq, Repr

/-- The property access `HEADER_ALIASES[nk]`: the own properties of the object
literal, then the properties it inherits; `none` stands for `undefined`. -/
def lookupAlias (nk : String) : Option AliasValue :=
  match mapGet HEADER_ALIASES nk with
  | some f => some (AliasValue.field f)
  | none => if objectPrototypeKeys.contains nk then some (AliasValue.inherited nk) else none

/-- A raw spreadsheet row: the pairs of `Object.entries(row)`, in their order. -/
abbrev RawRow := List (String × Cell)

/-- The body of the loop of `rowToRecord` for one entry `[k, v]`.  When `field`
is an inherited value it is truthy and no date field, so the assignment
`rcd[field] = String(v ?? "").trim()` writes the property keyed by its text. -/
def rowStep (P : Platform) (rcd : Record) (kv : String × Cell) : Record :=
  let nk := normalizeHeader P kv.1
  match lookupAlias nk with
  | none => rcd
  | some (AliasValue.field field) =>
    if field = Field.allocatedDate ∨ field = Field.surrenderedDate then
      rcd.setField field (toISODate kv.2)
    else rcd.setField field (jsTrim kv.2.toText)
  | some (AliasValue.inherited name) =>
    { rcd with extra := mapSet rcd.extra name (jsTrim kv.2.toText) }

/-- The function `rowToRecord` of the source. -/
def rowToRecord (P : Platform) (row : RawRow) : Record :=
  let rcd := row.foldl (rowStep P) emptyForm
  let rcd := { rcd with os := pickFromOptions P rcd.os OS_OPTIONS "Windows Server 2019" }
  let rcd := { rcd with status := pickFromOptions P rcd.status STATUS_OPTIONS "Active" }
  let rcd := { rcd with
    backupType := pickFromOptions P rcd.backupType BACKUP_TYPE_OPTIONS "Full" }
  let rcd := { rcd with
    backupFrequency := pickFromOptions P rcd.backupFrequency BACKUP_FREQ_OPTIONS "Daily" }
  let rcd := { rcd with category := pickFromOptions P rcd.category CATEGORY_OPTIONS "Project" }
  rcd

/-! ## Import -/

/-- The key of a record: `s.serverName.trim().toLowerCase()`. -/
def keyOf (P : Platform) (s : Record) : String := P.toLowerCase (jsTrim s.serverName)

/-- The variables of the import loop: the three counters and `toUpsert`. -/
structure LoopState where
  imported : Nat
  updated : Nat
  skipped : Nat
  toUpsert : List Record
  deriving DecidableEq, Repr

/-- The body of the loop `for (const r of rows)` of `onImportExcel`. -/
def importStep (P : Platform) (existingMap : JsMap Record) (st : LoopState) (r : RawRow) :
    LoopState :=
  let rcd := rowToRecord P r
  let errs := validate P rcd
  if (objectKeys errs).length ≠ 0 then { st with skipped := st.skipped + 1 }
  else
    let key := keyOf P rcd
    let st := if mapHas existingMap key then { st with updated := st.updated + 1 }
              else { st with imported := st.imported + 1 }
    { st with toUpsert := st.toUpsert ++ [rcd] }

/-- The import loop of `onImportExcel`, lines 440 to 461: the counters and
`toUpsert` after all rows. -/
def importLoop (P : Platform) (servers : List Record) (rows : List RawRow) : LoopState :=
  let existingMap := mapOfEntries (servers.map (fun s => (keyOf P s, s)))
  rows.foldl (importStep P existingMap) ⟨0, 0, 0, []⟩

/-- The call `list.sort((a, b) => a.serverName.localeCompare(b.serverName))`:
a stable sort.  For a comparator that is not consistent the order of the
result of `Array.prototype.sort` is left to the implementation; insertion from
the right is one such order. -/
def sortByName (P : Platform) (l : List Record) : List Record :=
  l.insertionSort (fun a b => P.localeCompare a.serverName b.serverName ≤ 0)

/-- The updater passed to `setServers` by `onImportExcel`, lines 469 to 475. -/
def mergeServers (P : Platform) (toUpsert : List Record) (prev : List Record) : List Record :=
  let map := mapOfEntries (prev.map (fun s => (keyOf P s, s)))
  let map := toUpsert.foldl (fun m rcd => mapSet m (keyOf P rcd) rcd) map
  sortByName P (mapValues map)

/-- The toast shown by `onImportExcel`. -/
inductive Toast where
  | excelEmpty : Toast
  | noValidRows : Toast
  | summary (imported updated skipped : Nat) : Toast
  deriving DecidableEq, Repr

/-- The function `onImportExcel` of the source on the rows read from the file:
the next value of `servers` and the toast. -/
def onImportExcel (P : Platform) (servers : List Record) (rows : List RawRow) :
    List Record × Toast :=
  if rows.length = 0 then (servers, Toast.excelEmpty)
  else
    let st := importLoop P servers rows
    if st.toUpsert.length = 0 then (servers, Toast.noValidRows)
    else (mergeServers P st.toUpsert servers, Toast.summary st.imported st.updated st.skipped)

/-- The updater passed to `setServers` by `upsertServer`. -/
def upsertServer (P : Platform) (record : Record) (prev : List Record) : List Record :=
  match prev.findIdx? (fun x => keyOf P x == keyOf P record) with
  | some idx => prev.set idx record
  | none => record :: prev

/-! ## A reference platform and sample data -/

/-- Lower-casing of the letters `A` to `Z`: what `toLowerCase` does to a string
of ASCII characters. -/
def asciiLower (s : String) : String :=
  ⟨s.data.map (fun c => if 65 ≤ c.toNat ∧ c.toNat ≤ 90 then Char.ofNat (c.toNat + 32) else c)⟩

/-- A collation in the manner of the Unicode root collation on ASCII letters and
digits: strings are first compared ignoring case; when they agree up to case,
the string with the lower-case letter at the first difference comes first. -/
def refCompare (a b : String) : Int :=
  let pa := codeUnits (asciiLower a)
  let pb := codeUnits (asciiLower b)
  if lexLt pa pb then -1
  else if lexLt pb pa then 1
  else if lexLt (codeUnits b) (codeUnits a) then -1
  else if lexLt (codeUnits a) (codeUnits b) then 1
  else 0

/-- A platform for the concrete scenarios: ASCII lower-casing, the collation
`refCompare`, and the current date 4 November 2026. -/
def refPlatform : Platform where
  toLowerCase := asciiLower
  localeCompare := refCompare
  fullYear := 2026
  month := 10
  date := 4

/-- A row with the columns that validation requires, as text cells. -/
def sampleRow (name ip purpose owner allocated : String) : RawRow :=
  [("Server Name", Cell.text name), ("IP Address", Cell.text ip), ("Purpose", Cell.text purpose),
   ("Owner", Cell.text owner), ("Allocated Date", Cell.text allocated)]

/-- The record that `rowToRecord` makes of a `sampleRow` whose texts need no
trimming. -/
def sampleRecord (name ip purpose owner allocated : String) : Record :=
  { emptyForm with
    serverName := name, ip := ip, purpose := purpose, owner := owner, allocatedDate := allocated }

/-! ## Definitions used in the statements -/

/-- The rows that pass validation, mapped to records, in file order. -/
def validRecords (P : Platform) (rows : List RawRow) : List Record :=
  (rows.map (rowToRecord P)).filter (fun rcd => decide (validate P rcd = []))

/-- The map built by the updater of `onImportExcel` before its values are
sorted. -/
def mergedMap (P : Platform) (toUpsert : List Record) (prev : List Record) : JsMap Record :=
  mapSetAll [] ((prev ++ toUpsert).map (fun s => (keyOf P s, s)))

/-! ## Export, manual entry and the store -/

/-- The constant `EXPORT_HEADERS`: the field key and the label of each column. -/
def EXPORT_HEADERS : List (Field × String) :=
  [(Field.serverName, "ServerName"), (Field.ip, "ServerIP"), (Field.purpose, "Purpose"),
   (Field.os, "OS"), (Field.status, "Status"), (Field.allocatedDate, "AllocatedDate"),
   (Field.surrenderedDate, "SurrenderedDate"), (Field.category, "Category"),
   (Field.owner, "Owner"), (Field.backupType, "BackupType"),
   (Field.backupFrequency, "BackupFrequency"), (Field.remarks, "Remarks"),
   (Field.additionalRemarks, "AdditionalRemarks")]

/-- One element of `data` in `exportExcel`, as the row read back from the
sheet: the thirteen columns in the order of the object literal, each a text
cell (`s.x || ""` is `s.x` for a string). -/
def exportRow (s : Record) : RawRow :=
  [("ServerName", Cell.text s.serverName), ("ServerIP", Cell.text s.ip),
   ("Purpose", Cell.text s.purpose), ("OS", Cell.text s.os), ("Status", Cell.text s.status),
   ("AllocatedDate", Cell.text s.allocatedDate),
   ("SurrenderedDate", Cell.text s.surrenderedDate), ("Category", Cell.text s.category),
   ("Owner", Cell.text s.owner), ("BackupType", Cell.text s.backupType),
   ("BackupFrequency", Cell.text s.backupFrequency), ("Remarks", Cell.text s.remarks),
   ("AdditionalRemarks", Cell.text s.additionalRemarks)]

/-- The constant `initialData`. -/
def initialData : List Record :=
  [{ serverName := "PRD-CRM-APP-01", ip := "10.20.5.14", purpose := "CRM application",
     os := "Ubuntu 22.04", status := "Active", allocatedDate := "2025-12-01",
     surrenderedDate := "", remarks := "Primary app node", backupType := "Snapshot",
     category := "Product", owner := "CRM Ops Team", backupFrequency := "Daily",
     additionalRemarks := "Retention 14 days; backup window 01:00–02:00", extra := [] },
   { serverName := "PRD-CRM-DB-01", ip := "10.20.5.21", purpose := "Database server",
     os := "Windows Server 2022", status := "Maintenance", allocatedDate := "2025-11-10",
     surrenderedDate := "", remarks := "Patch cycle ongoing", backupType := "Full",
     category := "Product", owner := "DBA Team", backupFrequency := "Daily",
     additionalRemarks := "Weekly full + daily incremental", extra := [] }]

/-- The function `onSubmit` of the source on the state `servers`: the record of
the form is upserted when `validate` returns no entry. -/
def onSubmit (P : Platform) (form : Record) (servers : List Record) : List Record :=
  let e := validate P form
  if (objectKeys e).length ≠ 0 then servers
  else upsertServer P form servers

/-- The function `clearAllRecords` of the source on the state `servers`. -/
def clearAllRecords (_servers : List Record) : List Record := []

/-- The three ways in which the code writes `servers`. -/
inductive Action where
  | submit (form : Record) : Action
  | importExcel (rows : List RawRow) : Action
  | clearAll : Action

/-- An action together with the reading of the clock when it runs. -/
structure Event where
  fullYear : Int
  month : Nat
  date : Nat
  action : Action

/-- The platform with its clock set. -/
def Platform.atDate (P : Platform) (fullYear : Int) (month date : Nat) : Platform :=
  { P with fullYear := fullYear, month := month, date := date }

/-- The state of `servers` after one event. -/
def stepEvent (P : Platform) (servers : List Record) (e : Event) : List Record :=
  match e.action with
  | Action.submit form => onSubmit (P.atDate e.fullYear e.month e.date) form servers
  | Action.importExcel rows => (onImportExcel (P.atDate e.fullYear e.month e.date) servers rows).1
  | Action.clearAll => clearAllRecords servers

/-- The state of `servers` after a sequence of events. -/
def runEvents (P : Platform) (servers : List Record) (events : List Event) : List Record :=
  events.foldl (stepEvent P) servers

/-- The invariant of the store: every `serverName` is non-empty after trim and
no two records have the same key. -/
def StoreInvariant (P : Platform) (servers : List Record) : Prop :=
  (∀ s ∈ servers, jsTrim s.serverName ≠ "") ∧ (servers.map (keyOf P)).Nodup

/-- The property to which a header resolves: `HEADER_ALIASES[normalizeHeader(k)]`. -/
def resolveHeader (P : Platform) (k : String) : Option AliasValue :=
  lookupAlias (normalizeHeader P k)

/-! ## Shapes of text, in the words of the specification -/

/-- A decimal digit, `0` to `9`. -/
def isDecimalDigit (c : Char) : Bool := decide (48 ≤ c.toNat) && decide (c.toNat ≤ 57)

/-- The number written by a string of decimal digits. -/
def decimalValue (ds : List Char) : Nat :=
  ds.foldl (fun acc c => 10 * acc + (c.toNat - 48)) 0

/-- A decimal number in the range 0 to 255 written without a leading zero: at
least one digit, digits only, a first digit other than `0` unless it is the
only digit, and a value of at most 255. -/
def isOctetText (o : List Char) : Bool :=
  !o.isEmpty && o.all isDecimalDigit && (o.length == 1 || o.head? != some '0')
    && decide (decimalValue o ≤ 255)

/-- The pieces of a list of characters between its dots. -/
def splitOnDot : List Char → List (List Char)
  | [] => [[]]
  | c :: s =>
    if c == '.' then [] :: splitOnDot s
    else match splitOnDot s with
      | [] => [[c]]
      | g :: gs => (c :: g) :: gs

/-- Exactly four decimal numbers separated by single dots, each in the range 0
to 255 and written without a leading zero. -/
def isDottedQuad (s : List Char) : Bool :=
  match splitOnDot s with
  | [a, b, c, d] => isOctetText a && isOctetText b && isOctetText c && isOctetText d
  | _ => false

/-- The pieces joined again with a dot between neighbours. -/
def joinDots : List (List Char) → List Char
  | [] => []
  | [a] => a
  | a :: b :: rest => a ++ '.' :: joinDots (b :: rest)

/-- A string made of decimal digits only. -/
def isDigits (g : List Char) : Bool := g.all isDecimalDigit

/-- Left-padded with `0` to two characters. -/
def zeroPad2 (g : List Char) : List Char := List.replicate (2 - g.length) '0' ++ g

/-- The fixed-width form `YYYY-MM-DD`: four digits, hyphen, two digits, hyphen,
two digits. -/
def isIsoDateShape (s : String) : Bool :=
  match s.data with
  | [a, b, c, d, h1, e, f, h2, g, i] =>
    isDecimalDigit a && isDecimalDigit b && isDecimalDigit c && isDecimalDigit d && h1 == '-'
      && isDecimalDigit e && isDecimalDigit f && h2 == '-' && isDecimalDigit g && isDecimalDigit i
  | _ => false

/-- The first ten characters of `toISOString()` for a year outside 0 to 9999: a
sign, six digits, a hyphen and two digits. -/
def isExtendedYearStart (s : String) : Bool :=
  match s.data with
  | [sg, a, b, c, d, e, f, h, g, i] =>
    (sg == '+' || sg == '-') && isDecimalDigit a && isDecimalDigit b && isDecimalDigit c
      && isDecimalDigit d && isDecimalDigit e && isDecimalDigit f && h == '-'
      && isDecimalDigit g && isDecimalDigit i
  | _ => false

/-- What the platform guarantees of a cell: the text of `toISOString()` starts
with `YYYY-MM-DD` or with a signed six-digit year and the month; the date code
of a number that is not `null` has a four-digit year and a month and a day of
at most two digits. -/
def Cell.WellFormed : Cell → Prop
  | Cell.date iso _ => isIsoDateShape (slice10 iso) = true ∨ isExtendedYearStart (slice10 iso) = true
  | Cell.number _ (some d) => 1000 ≤ d.y ∧ d.y ≤ 9999 ∧ d.m ≤ 99 ∧ d.d ≤ 99
  | _ => True

/-- The value `s[field]` of a field of a record. -/
def Record.getField (r : Record) : Field → String
  | Field.serverName => r.serverName
  | Field.ip => r.ip
  | Field.purpose => r.purpose
  | Field.os => r.os
  | Field.status => r.status
  | Field.allocatedDate => r.allocatedDate
  | Field.surrenderedDate => r.surrenderedDate
  | Field.remarks => r.remarks
  | Field.backupType => r.backupType
  | Field.category => r.category
  | Field.owner => r.owner
  | Field.backupFrequency => r.backupFrequency
  | Field.additionalRemarks => r.additionalRemarks

/-- The value that the loop of `rowToRecord` assigns under a field for a cell:
`toISODate(v)` for the two date fields, `String(v ?? "").trim()` for the others. -/
def cellValue (f : Field) (v : Cell) : String :=
  if f = Field.allocatedDate ∨ f = Field.surrenderedDate then toISODate v
  else jsTrim v.toText

/-- The five assignments that end `rowToRecord`, seen from one field: the value
of `os`, `status`, `backupType`, `backupFrequency` or `category` is passed
through `pickFromOptions`, the value of any other field is left as it is. -/
def coerceField (P : Platform) (f : Field) (s : String) : String :=
  match f with
  | Field.os => pickFromOptions P s OS_OPTIONS "Windows Server 2019"
  | Field.status => pickFromOptions P s STATUS_OPTIONS "Active"
  | Field.backupType => pickFromOptions P s BACKUP_TYPE_OPTIONS "Full"
  | Field.backupFrequency => pickFromOptions P s BACKUP_FREQ_OPTIONS "Daily"
  | Field.category => pickFromOptions P s CATEGORY_OPTIONS "Project"
  | _ => s

/-- The value of a lookup in `HEADER_ALIASES` is an inherited property. -/
def AliasValue.isInherited : AliasValue → Bool
  | AliasValue.field _ => false
  | AliasValue.inherited _ => true

/-- The pairs of a row whose header resolves to an inherited property. -/
def inheritedPairs (P : Platform) (row : RawRow) : RawRow :=
  row.filter (fun kv => match resolveHeader P kv.1 with
    | some a => a.isInherited
    | none => false)

/-- A text of the form `D/M/YYYY` or `D-M-YYYY`: three pieces between the
separators, a day of one or two digits, a month of one or two digits and a year
of four digits. -/
def isDayFirstDate (s : List Char) : Bool :=
  match splitDate s with
  | [d, m, y] =>
    isDigits d && (d.length == 1 || d.length == 2) && isDigits m
      && (m.length == 1 || m.length == 2) && isDigits y && y.length == 4
  | _ => false

/-- A text of the form `YYYY/M/D` or `YYYY-M-D`. -/
def isYearFirstDate (s : List Char) : Bool :=
  match splitDate s with
  | [y, m, d] =>
    isDigits y && y.length == 4 && isDigits m && (m.length == 1 || m.length == 2)
      && isDigits d && (d.length == 1 || d.length == 2)
  | _ => false

/-- A text that starts with an ISO date `YYYY-MM-DD`. -/
def startsWithIsoDate (s : List Char) : Bool := isIsoDateShape ⟨s.take 10⟩

/-- A text that, once trimmed, is a date in one of the three text forms of the
specification. -/
def isDateText (str : String) : Bool :=
  isDayFirstDate (jsTrim str).data || isYearFirstDate (jsTrim str).data
    || startsWithIsoDate (jsTrim str).data

/-- A cell that holds a date in one of the forms of the specification: a `Date`
whose `toISOString()` starts with `YYYY-MM-DD`, a number with a date code whose
year, month and day are not zero, or a text (also the text of a number without
such a date code) in one of the three text forms. -/
def Cell.isDate : Cell → Bool
  | Cell.text s => isDateText s
  | Cell.date iso _ => isIsoDateShape (slice10 iso)
  | Cell.number str (some d) => (d.y != 0 && d.m != 0 && d.d != 0) || isDateText str
  | Cell.number str none => isDateText str
  | Cell.invalidDate => false
  | Cell.null => false
  | Cell.undefined => false

/-! ## Lemmas on maps -/

section MapLemmas
variable {V : Type}

theorem objectKeys_mapSet (m : JsMap V) (k : String) (v : V) :
    objectKeys (mapSet m k v) = if k ∈ objectKeys m then objectKeys m else objectKeys m ++ [k] := by
  induction m with
  | nil => simp [mapSet, objectKeys]
  | cons e m ih =>
    obtain ⟨k1, v1⟩ := e
    by_cases h : k1 = k
    · subst h
      simp [mapSet, objectKeys]
    · have h2 : ¬ k = k1 := fun h3 => h h3.symm
      simp only [objectKeys] at ih
      simp only [mapSet, objectKeys, h, if_false, List.map_cons, List.mem_cons, h2, false_or, ih]
      split <;> simp

theorem mapGet_mapSet (m : JsMap V) (k : String) (v : V) (k2 : String) :
    mapGet (mapSet m k v) k2 = if k = k2 then some v else mapGet m k2 := by
  induction m with
  | nil => simp [mapSet, mapGet]
  | cons e m ih =>
    obtain ⟨k1, v1⟩ := e
    by_cases h : k1 = k
    · subst h
      by_cases h2 : k1 = k2 <;> simp [mapSet, mapGet, h2]
    · by_cases h2 : k1 = k2
      · subst h2
        have h3 : ¬ k = k1 := fun h3 => h h3.symm
        simp [mapSet, mapGet, h, h3]
      · simp [mapSet, mapGet, h, h2, ih]

theorem mem_mapSet (m : JsMap V) (k : String) (v : V) (e : String × V) (h : e ∈ mapSet m k v) :
    e = (k, v) ∨ e ∈ m := by
  induction m with
  | nil => simpa [mapSet] using h
  | cons e1 m ih =>
    obtain ⟨k1, v1⟩ := e1
    by_cases h1 : k1 = k
    · subst h1
      simp only [mapSet, if_true, List.mem_cons] at h
      rcases h with h | h
      · exact Or.inl h
      · exact Or.inr (List.mem_cons_of_mem _ h)
    · simp only [mapSet, h1, if_false, List.mem_cons] at h
      rcases h with h | h
      · exact Or.inr (by simp [h])
      · rcases ih h with h | h
        · exact Or.inl h
        · exact Or.inr (List.mem_cons_of_mem _ h)

theorem nodup_objectKeys_mapSet (m : JsMap V) (k : String) (v : V)
    (h : (objectKeys m).Nodup) : (objectKeys (mapSet m k v)).Nodup := by
  rw [objectKeys_mapSet]
  split
  · exact h
  · rename_i hk
    exact List.nodup_append.mpr ⟨h, List.nodup_singleton k, by simpa using hk⟩

theorem mapGet_eq_none_iff (m : JsMap V) (k : String) :
    mapGet m k = none ↔ k ∉ objectKeys m := by
  induction m with
  | nil => simp [mapGet, objectKeys]
  | cons e m ih =>
    obtain ⟨k1, v1⟩ := e
    by_cases h : k1 = k
    · simp [mapGet, objectKeys, h]
    · have h2 : ¬ k = k1 := fun h3 => h h3.symm
      simp only [objectKeys] at ih
      simp [mapGet, objectKeys, h, h2, ih]

theorem mem_of_mapGet (m : JsMap V) (k : String) (v : V) (h : mapGet m k = some v) :
    (k, v) ∈ m := by
  induction m with
  | nil => simp [mapGet] at h
  | cons e m ih =>
    obtain ⟨k1, v1⟩ := e
    by_cases h1 : k1 = k
    · simp only [mapGet, h1, if_true, Option.some.injEq] at h
      simp [h1, h]
    · simp only [mapGet, h1, if_false] at h
      exact List.mem_cons_of_mem _ (ih h)

theorem mapGet_of_mem (m : JsMap V) (k : String) (v : V) (hn : (objectKeys m).Nodup)
    (h : (k, v) ∈ m) : mapGet m k = some v := by
  induction m with
  | nil => simp at h
  | cons e m ih =>
    obtain ⟨k1, v1⟩ := e
    simp only [objectKeys, List.map_cons, List.nodup_cons, List.mem_map, not_exists, not_and] at hn
    rcases List.mem_cons.mp h with h | h
    · simp only [Prod.mk.injEq] at h
      simp [mapGet, h.1, h.2]
    · have h1 : ¬ k1 = k := fun h2 => hn.1 (k, v) h h2.symm
      simp only [mapGet, h1, if_false]
      exact ih hn.2 h

theorem map_ext_of_mapGet (m1 m2 : JsMap V) (hk : objectKeys m1 = objectKeys m2)
    (hn : (objectKeys m1).Nodup) (hg : ∀ k, mapGet m1 k = mapGet m2 k) : m1 = m2 := by
  induction m1 generalizing m2 with
  | nil =>
    cases m2 with
    | nil => rfl
    | cons e m2 => simp [objectKeys] at hk
  | cons e1 m1 ih =>
    cases m2 with
    | nil => simp [objectKeys] at hk
    | cons e2 m2 =>
      obtain ⟨k1, v1⟩ := e1
      obtain ⟨k2, v2⟩ := e2
      simp only [objectKeys, List.map_cons, List.cons.injEq] at hk
      obtain ⟨hk1, hk2⟩ := hk
      subst hk1
      have hv : v1 = v2 := by
        have := hg k1
        simpa [mapGet] using this
      subst hv
      have hn1 : k1 ∉ objectKeys m1 := (List.nodup_cons.mp hn).1
      have hn2 : (objectKeys m1).Nodup := (List.nodup_cons.mp hn).2
      have hn3 : k1 ∉ objectKeys m2 := by
        have : objectKeys m1 = objectKeys m2 := hk2
        rw [← this]; exact hn1
      have htail : m1 = m2 := by
        apply ih m2 hk2 hn2
        intro k
        by_cases h : k1 = k
        · subst h
          rw [(mapGet_eq_none_iff m1 k1).mpr hn1, (mapGet_eq_none_iff m2 k1).mpr hn3]
        · have := hg k
          simpa [mapGet, h] using this
      rw [htail]

end MapLemmas

section MapSetAllLemmas
variable {V : Type}

theorem mapGet_append (a b : JsMap V) (k : String) :
    mapGet (a ++ b) k = match mapGet a k with
      | some v => some v
      | none => mapGet b k := by
  induction a with
  | nil => simp [mapGet]
  | cons e a ih =>
    obtain ⟨k1, v1⟩ := e
    by_cases h : k1 = k
    · simp [mapGet, h]
    · simpa [mapGet, h] using ih

theorem mapGet_mapSetAll (m : JsMap V) (es : List (String × V)) (k : String) :
    mapGet (mapSetAll m es) k = match mapGet es.reverse k with
      | some v => some v
      | none => mapGet m k := by
  induction es generalizing m with
  | nil => simp [mapSetAll, mapGet]
  | cons e es ih =>
    have h1 : mapSetAll m (e :: es) = mapSetAll (mapSet m e.1 e.2) es := rfl
    rw [h1, ih, List.reverse_cons, mapGet_append, mapGet_mapSet]
    cases hg : mapGet es.reverse k with
    | some v => rfl
    | none =>
      obtain ⟨k1, v1⟩ := e
      by_cases h : k1 = k <;> simp [mapGet, h]

theorem nodup_objectKeys_mapSetAll (m : JsMap V) (es : List (String × V))
    (h : (objectKeys m).Nodup) : (objectKeys (mapSetAll m es)).Nodup := by
  induction es generalizing m with
  | nil => exact h
  | cons e es ih => exact ih (mapSet m e.1 e.2) (nodup_objectKeys_mapSet m e.1 e.2 h)

theorem mem_mapSetAll (m : JsMap V) (es : List (String × V)) (e : String × V)
    (h : e ∈ mapSetAll m es) : e ∈ es ∨ e ∈ m := by
  induction es generalizing m with
  | nil => exact Or.inr h
  | cons e1 es ih =>
    rcases ih (mapSet m e1.1 e1.2) h with h | h
    · exact Or.inl (List.mem_cons_of_mem _ h)
    · rcases mem_mapSet m e1.1 e1.2 e h with h | h
      · exact Or.inl (by simp [h])
      · exact Or.inr h

theorem objectKeys_mapSetAll_of_subset (m : JsMap V) (es : List (String × V))
    (h : ∀ e ∈ es, e.1 ∈ objectKeys m) : objectKeys (mapSetAll m es) = objectKeys m := by
  induction es generalizing m with
  | nil => rfl
  | cons e es ih =>
    have h1 : mapSetAll m (e :: es) = mapSetAll (mapSet m e.1 e.2) es := rfl
    have hk : objectKeys (mapSet m e.1 e.2) = objectKeys m := by
      rw [objectKeys_mapSet, if_pos (h e (List.mem_cons_self _ _))]
    rw [h1, ih, hk]
    intro e2 he2
    rw [hk]
    exact h e2 (List.mem_cons_of_mem _ he2)

theorem mem_objectKeys_mapSetAll (m : JsMap V) (es : List (String × V)) (k : String) :
    k ∈ objectKeys (mapSetAll m es) ↔ k ∈ objectKeys es ∨ k ∈ objectKeys m := by
  induction es generalizing m with
  | nil => simp [mapSetAll, objectKeys]
  | cons e es ih =>
    have h1 : mapSetAll m (e :: es) = mapSetAll (mapSet m e.1 e.2) es := rfl
    rw [h1, ih, objectKeys_mapSet]
    obtain ⟨k1, v1⟩ := e
    simp only [objectKeys, List.map_cons, List.mem_cons]
    split
    · rename_i hk
      constructor
      · rintro (h | h)
        · exact Or.inl (Or.inr h)
        · exact Or.inr h
      · rintro ((h | h) | h)
        · subst h; exact Or.inr hk
        · exact Or.inl h
        · exact Or.inr h
    · simp only [List.mem_append, List.mem_singleton]
      tauto

theorem mapSetAll_nil_of_nodup (es : List (String × V)) (h : (objectKeys es).Nodup) :
    mapSetAll [] es = es := by
  have key : ∀ (m : JsMap V), (objectKeys (m ++ es)).Nodup → mapSetAll m es = m ++ es := by
    induction es with
    | nil => intro m _; simp [mapSetAll]
    | cons e es ih =>
      intro m hm
      have h1 : mapSetAll m (e :: es) = mapSetAll (mapSet m e.1 e.2) es := rfl
      have hnot : e.1 ∉ objectKeys m := by
        simp only [objectKeys, List.map_append, List.map_cons] at hm
        have := (List.nodup_append.mp hm).2.2
        intro hmem
        exact this hmem (List.mem_cons_self _ _) 
      have hset : mapSet m e.1 e.2 = m ++ [e] := by
        clear hm h1 ih
        induction m with
        | nil => simp [mapSet]
        | cons e1 m ihm =>
          obtain ⟨k1, v1⟩ := e1
          simp only [objectKeys, List.map_cons, List.mem_cons, not_or] at hnot
          have hne : ¬ k1 = e.1 := fun h => hnot.1 h.symm
          simp only [mapSet, hne, if_false, List.cons_append, List.cons.injEq, true_and]
          exact ihm hnot.2
      rw [h1, hset, ih (List.nodup_cons.mp h).2 (m ++ [e]) (by simpa using hm)]
      simp
  simpa using key [] (by simpa using h)

end MapSetAllLemmas

/-! ## Lemmas on the import loop -/

theorem objectKeys_length_eq_zero (e : JsMap String) :
    (objectKeys e).length = 0 ↔ e = [] := by
  cases e <;> simp [objectKeys]

theorem mapHas_iff_mem_objectKeys {V : Type} (m : JsMap V) (k : String) :
    mapHas m k = true ↔ k ∈ objectKeys m := by
  simp only [mapHas, objectKeys, List.any_eq_true, List.mem_map, beq_iff_eq]

theorem mapHas_existingMap (P : Platform) (servers : List Record) (k : String) :
    mapHas (mapOfEntries (servers.map (fun s => (keyOf P s, s)))) k = true
      ↔ k ∈ servers.map (keyOf P) := by
  rw [mapHas_iff_mem_objectKeys, mapOfEntries, mem_objectKeys_mapSetAll]
  simp [objectKeys]

theorem importStep_invalid (P : Platform) (m : JsMap Record) (st : LoopState) (r : RawRow)
    (h : validate P (rowToRecord P r) ≠ []) :
    importStep P m st r = { st with skipped := st.skipped + 1 } := by
  have h2 : (objectKeys (validate P (rowToRecord P r))).length ≠ 0 := by
    rw [Ne, objectKeys_length_eq_zero]; exact h
  simp [importStep, h2]

theorem importStep_valid (P : Platform) (m : JsMap Record) (st : LoopState) (r : RawRow)
    (h : validate P (rowToRecord P r) = []) :
    importStep P m st r =
      if mapHas m (keyOf P (rowToRecord P r)) then
        { st with updated := st.updated + 1, toUpsert := st.toUpsert ++ [rowToRecord P r] }
      else { st with imported := st.imported + 1, toUpsert := st.toUpsert ++ [rowToRecord P r] } := by
  have h2 : (objectKeys (validate P (rowToRecord P r))).length = 0 := by
    rw [objectKeys_length_eq_zero]; exact h
  simp only [importStep, h2, ne_eq, not_true_eq_false, if_false]
  split <;> rfl

theorem foldl_importStep (P : Platform) (m : JsMap Record) (rows : List RawRow) (st : LoopState) :
    (rows.foldl (importStep P m) st).skipped
        = st.skipped + rows.countP (fun r => decide (validate P (rowToRecord P r) ≠ [])) ∧
    (rows.foldl (importStep P m) st).updated
        = st.updated + rows.countP (fun r => decide (validate P (rowToRecord P r) = [])
            && mapHas m (keyOf P (rowToRecord P r))) ∧
    (rows.foldl (importStep P m) st).imported
        = st.imported + rows.countP (fun r => decide (validate P (rowToRecord P r) = [])
            && !mapHas m (keyOf P (rowToRecord P r))) ∧
    (rows.foldl (importStep P m) st).toUpsert = st.toUpsert ++ validRecords P rows := by
  induction rows generalizing st with
  | nil => simp [validRecords]
  | cons r rows ih =>
    simp only [List.foldl_cons]
    obtain ⟨h1, h2, h3, h4⟩ := ih (importStep P m st r)
    rw [h1, h2, h3, h4]
    by_cases hv : validate P (rowToRecord P r) = []
    · rw [importStep_valid P m st r hv]
      by_cases hh : mapHas m (keyOf P (rowToRecord P r)) = true
      · simp [hv, hh, validRecords, List.countP_cons]
        omega
      · simp [hv, hh, validRecords, List.countP_cons]
        omega
    · rw [importStep_invalid P m st r hv]
      simp [hv, validRecords, List.countP_cons]
      omega

theorem importLoop_toUpsert (P : Platform) (servers : List Record) (rows : List RawRow) :
    (importLoop P servers rows).toUpsert = validRecords P rows := by
  have := (foldl_importStep P (mapOfEntries (servers.map (fun s => (keyOf P s, s)))) rows
    ⟨0, 0, 0, []⟩).2.2.2
  simpa [importLoop] using this

/-! ## Counters -/

theorem countP_valid_split {α : Type} (l : List α) (v h : α → Bool) :
    l.countP (fun r => v r && !h r) + l.countP (fun r => v r && h r) = l.countP v := by
  induction l with
  | nil => rfl
  | cons r l ih =>
    simp only [List.countP_cons]
    cases hv : v r <;> cases hh : h r <;> simp <;> omega

theorem countP_not_add {α : Type} (l : List α) (v : α → Bool) :
    l.countP v + l.countP (fun r => !v r) = l.length := by
  induction l with
  | nil => rfl
  | cons r l ih =>
    simp only [List.countP_cons, List.length_cons]
    cases hv : v r <;> simp <;> omega

/-- C1. Counter conservation: for every pre-import set and every sequence of
raw rows (in particular every non-empty one) the counters computed by the loop
of `onImportExcel` over the rows satisfy
`imported + updated + skipped = number of rows in the file`. -/
theorem counter_conservation (P : Platform) (servers : List Record) (rows : List RawRow) :
    (importLoop P servers rows).imported + (importLoop P servers rows).updated
      + (importLoop P servers rows).skipped = rows.length := by
  obtain ⟨h1, h2, h3, _⟩ :=
    foldl_importStep P (mapOfEntries (servers.map (fun s => (keyOf P s, s)))) rows ⟨0, 0, 0, []⟩
  simp only [importLoop, h1, h2, h3, Nat.zero_add]
  have e1 := countP_valid_split rows (fun r => decide (validate P (rowToRecord P r) = []))
    (fun r => mapHas (mapOfEntries (servers.map (fun s => (keyOf P s, s))))
      (keyOf P (rowToRecord P r)))
  have e2 := countP_not_add rows (fun r => decide (validate P (rowToRecord P r) = []))
  simp only [decide_not] at *
  omega

/-- C5, as stated, fails: with an empty pre-import set and two valid rows named
`srv-a` and `SRV-A`, which share one key, the loop counts `imported = 2` while
the valid rows have one distinct key. -/
theorem counters_per_key_counterexample :
    (importLoop refPlatform []
        [sampleRow "srv-a" "10.0.0.1" "p" "o" "2025-01-01",
         sampleRow "SRV-A" "10.0.0.2" "q" "o" "2025-01-01"]).imported
      + (importLoop refPlatform []
        [sampleRow "srv-a" "10.0.0.1" "p" "o" "2025-01-01",
         sampleRow "SRV-A" "10.0.0.2" "q" "o" "2025-01-01"]).updated = 2
    ∧ (((validRecords refPlatform
        [sampleRow "srv-a" "10.0.0.1" "p" "o" "2025-01-01",
         sampleRow "SRV-A" "10.0.0.2" "q" "o" "2025-01-01"]).map (keyOf refPlatform)).dedup).length
      = 1
    ∧ (importLoop refPlatform []
        [sampleRow "srv-a" "10.0.0.1" "p" "o" "2025-01-01",
         sampleRow "SRV-A" "10.0.0.2" "q" "o" "2025-01-01"]).imported
      + (importLoop refPlatform []
        [sampleRow "srv-a" "10.0.0.1" "p" "o" "2025-01-01",
         sampleRow "SRV-A" "10.0.0.2" "q" "o" "2025-01-01"]).updated
      ≠ (((validRecords refPlatform
        [sampleRow "srv-a" "10.0.0.1" "p" "o" "2025-01-01",
         sampleRow "SRV-A" "10.0.0.2" "q" "o" "2025-01-01"]).map (keyOf refPlatform)).dedup).length := by
  decide

/-- C5, amended. The counters attribute one unit (imported or updated) to every
valid row: `imported + updated` equals the number of rows that pass validation,
which is the number of staged records. -/
theorem counters_per_valid_row (P : Platform) (servers : List Record) (rows : List RawRow) :
    (importLoop P servers rows).imported + (importLoop P servers rows).updated
        = rows.countP (fun r => decide (validate P (rowToRecord P r) = []))
    ∧ (importLoop P servers rows).imported + (importLoop P servers rows).updated
        = (importLoop P servers rows).toUpsert.length := by
  obtain ⟨_, h2, h3, h4⟩ :=
    foldl_importStep P (mapOfEntries (servers.map (fun s => (keyOf P s, s)))) rows ⟨0, 0, 0, []⟩
  have hcount : (importLoop P servers rows).imported + (importLoop P servers rows).updated
        = rows.countP (fun r => decide (validate P (rowToRecord P r) = [])) := by
    simp only [importLoop, h2, h3, Nat.zero_add]
    exact countP_valid_split rows (fun r => decide (validate P (rowToRecord P r) = []))
      (fun r => mapHas (mapOfEntries (servers.map (fun s => (keyOf P s, s))))
        (keyOf P (rowToRecord P r)))
  refine ⟨hcount, ?_⟩
  rw [hcount, importLoop_toUpsert, validRecords, List.countP_eq_length_filter, List.filter_map,
    List.length_map]
  rfl

/-- C6. Row classification: `skipped` is the number of rows whose mapped record
fails `validate`, `updated` the number of valid rows whose key is the key of a
record of the pre-import snapshot, `imported` the number of valid rows whose
key is absent from it.  Scenario: with `srv-b` in the snapshot, rows A (valid,
new), B (valid, names `SRV-B`) and C (no IP) report imported 1, updated 1,
skipped 1. -/
theorem row_classification :
    (∀ (P : Platform) (servers : List Record) (rows : List RawRow),
      (importLoop P servers rows).skipped
          = rows.countP (fun r => decide (validate P (rowToRecord P r) ≠ [])) ∧
      (importLoop P servers rows).updated
          = rows.countP (fun r => decide (validate P (rowToRecord P r) = [])
              && decide (keyOf P (rowToRecord P r) ∈ servers.map (keyOf P))) ∧
      (importLoop P servers rows).imported
          = rows.countP (fun r => decide (validate P (rowToRecord P r) = [])
              && decide (keyOf P (rowToRecord P r) ∉ servers.map (keyOf P))))
    ∧ (onImportExcel refPlatform [sampleRecord "srv-b" "10.0.0.9" "old" "o" "2024-01-01"]
        [sampleRow "srv-a" "10.0.0.1" "p" "o" "2025-01-01",
         sampleRow "SRV-B" "10.0.0.2" "p" "o" "2025-01-01",
         sampleRow "srv-c" "" "p" "o" "2025-01-01"]).2 = Toast.summary 1 1 1 := by
  refine ⟨?_, by decide⟩
  intro P servers rows
  obtain ⟨h1, h2, h3, _⟩ :=
    foldl_importStep P (mapOfEntries (servers.map (fun s => (keyOf P s, s)))) rows ⟨0, 0, 0, []⟩
  refine ⟨by simpa [importLoop] using h1, ?_, ?_⟩
  · simp only [importLoop, h2, Nat.zero_add]
    congr 1
    funext r
    by_cases hh : keyOf P (rowToRecord P r) ∈ servers.map (keyOf P)
    · rw [(mapHas_existingMap P servers _).mpr hh]; simp [hh]
    · have : mapHas (mapOfEntries (servers.map (fun s => (keyOf P s, s))))
          (keyOf P (rowToRecord P r)) = false := by
        rw [← Bool.not_eq_true, mapHas_existingMap]; exact hh
      rw [this]; simp [hh]
  · simp only [importLoop, h3, Nat.zero_add]
    congr 1
    funext r
    by_cases hh : keyOf P (rowToRecord P r) ∈ servers.map (keyOf P)
    · rw [(mapHas_existingMap P servers _).mpr hh]; simp [hh]
    · have : mapHas (mapOfEntries (servers.map (fun s => (keyOf P s, s))))
          (keyOf P (rowToRecord P r)) = false := by
        rw [← Bool.not_eq_true, mapHas_existingMap]; exact hh
      rw [this]; simp [hh]

/-! ## Lemmas on the merge -/

theorem mergeServers_eq (P : Platform) (toUpsert prev : List Record) :
    mergeServers P toUpsert prev = sortByName P (mapValues (mergedMap P toUpsert prev)) := by
  simp only [mergeServers, mergedMap, mapOfEntries, mapSetAll, List.map_append, List.foldl_append,
    List.foldl_map]

theorem mergeServers_perm (P : Platform) (toUpsert prev : List Record) :
    (mergeServers P toUpsert prev).Perm (mapValues (mergedMap P toUpsert prev)) := by
  rw [mergeServers_eq]
  exact List.perm_insertionSort _ _

theorem mergedMap_keyed (P : Platform) (toUpsert prev : List Record) :
    ∀ e ∈ mergedMap P toUpsert prev, e.1 = keyOf P e.2 := by
  intro e he
  rcases mem_mapSetAll [] _ e he with h | h
  · obtain ⟨s, _, hs⟩ := List.mem_map.mp h
    rw [← hs]
  · simp at h

theorem mergedMap_nodup (P : Platform) (toUpsert prev : List Record) :
    (objectKeys (mergedMap P toUpsert prev)).Nodup :=
  nodup_objectKeys_mapSetAll [] _ (by simp [objectKeys])

theorem map_keyOf_mapValues (P : Platform) (m : JsMap Record)
    (hk : ∀ e ∈ m, e.1 = keyOf P e.2) : (mapValues m).map (keyOf P) = objectKeys m := by
  simp only [mapValues, objectKeys, List.map_map]
  apply List.map_congr_left
  intro e he
  simp [hk e he]

theorem mapGet_mergedMap (P : Platform) (toUpsert prev : List Record) (k : String) :
    mapGet (mergedMap P toUpsert prev) k =
      match mapGet (toUpsert.map (fun s => (keyOf P s, s))).reverse k with
      | some v => some v
      | none => mapGet (prev.map (fun s => (keyOf P s, s))).reverse k := by
  rw [mergedMap, mapGet_mapSetAll, List.map_append, List.reverse_append, mapGet_append]
  cases mapGet (toUpsert.map (fun s => (keyOf P s, s))).reverse k with
  | some v => rfl
  | none =>
    cases mapGet (prev.map (fun s => (keyOf P s, s))).reverse k <;> simp [mapGet]

theorem filter_key_eq_nil (P : Platform) (m : JsMap Record) (k : String)
    (hk : ∀ e ∈ m, e.1 = keyOf P e.2) (hn : k ∉ objectKeys m) :
    (mapValues m).filter (fun s => decide (keyOf P s = k)) = [] := by
  rw [List.filter_eq_nil_iff]
  intro s hs
  simp only [mapValues, List.mem_map] at hs
  obtain ⟨e, he, rfl⟩ := hs
  simp only [decide_eq_true_eq]
  intro h
  apply hn
  simp only [objectKeys, List.mem_map]
  exact ⟨e, he, by rw [hk e he, h]⟩

theorem filter_key_of_mapGet (P : Platform) (m : JsMap Record) (k : String) (v : Record)
    (hk : ∀ e ∈ m, e.1 = keyOf P e.2) (hn : (objectKeys m).Nodup) (hg : mapGet m k = some v) :
    (mapValues m).filter (fun s => decide (keyOf P s = k)) = [v] := by
  induction m with
  | nil => simp [mapGet] at hg
  | cons e m ih =>
    obtain ⟨k1, v1⟩ := e
    have hk1 : k1 = keyOf P v1 := hk (k1, v1) (List.mem_cons_self _ _)
    have hkm : ∀ e ∈ m, e.1 = keyOf P e.2 := fun e he => hk e (List.mem_cons_of_mem _ he)
    have hn1 : k1 ∉ objectKeys m := by
      simpa [objectKeys] using (List.nodup_cons.mp hn).1
    have hn2 : (objectKeys m).Nodup := (List.nodup_cons.mp hn).2
    by_cases h : k1 = k
    · subst h
      simp only [mapGet, if_true, Option.some.injEq] at hg
      subst hg
      have := filter_key_eq_nil P m k1 hkm hn1
      simp only [mapValues] at this
      simp [mapValues, List.filter_cons, ← hk1, this]
    · simp only [mapGet, h, if_false] at hg
      have h2 : ¬ keyOf P v1 = k := by rw [← hk1]; exact h
      have := ih hkm hn2 hg
      simp only [mapValues] at this
      simp [mapValues, List.filter_cons, h2, this]

theorem mapGet_reverse_entries_none (P : Platform) (l : List Record) (k : String) :
    mapGet (l.map (fun s => (keyOf P s, s))).reverse k = none ↔ ∀ s ∈ l, keyOf P s ≠ k := by
  rw [mapGet_eq_none_iff]
  simp only [objectKeys, List.map_reverse, List.map_map, List.mem_reverse, List.mem_map,
    Function.comp_apply, not_exists, not_and]

theorem mapGet_reverse_entries_some (P : Platform) (l : List Record) (k : String) (v : Record)
    (h : mapGet (l.map (fun s => (keyOf P s, s))).reverse k = some v) : v ∈ l ∧ keyOf P v = k := by
  have := mem_of_mapGet _ _ _ h
  simp only [List.mem_reverse, List.mem_map, Prod.mk.injEq] at this
  obtain ⟨s, hs, h1, h2⟩ := this
  subst h2
  exact ⟨hs, h1⟩

/-! ## The merged set -/

theorem onImportExcel_merged (P : Platform) (servers : List Record) (rows : List RawRow)
    (h : validRecords P rows ≠ []) :
    onImportExcel P servers rows
      = (mergeServers P (validRecords P rows) servers,
          Toast.summary (importLoop P servers rows).imported (importLoop P servers rows).updated
            (importLoop P servers rows).skipped) := by
  have hrows : rows.length ≠ 0 := by
    intro h0
    have : rows = [] := List.length_eq_zero.mp h0
    subst this
    exact h rfl
  have hup : (importLoop P servers rows).toUpsert.length ≠ 0 := by
    rw [importLoop_toUpsert]
    intro h0
    exact h (List.length_eq_zero.mp h0)
  simp only [onImportExcel, hrows, hup, if_false]
  rw [importLoop_toUpsert]

theorem onImportExcel_unchanged (P : Platform) (servers : List Record) (rows : List RawRow)
    (h : validRecords P rows = []) : (onImportExcel P servers rows).1 = servers := by
  simp only [onImportExcel]
  split
  · rfl
  · rw [importLoop_toUpsert, h]
    rfl

/-- C2. Key uniqueness: for every pre-import set `prev` (also one with duplicate
names) and every list of staged records, the set returned by the updater of
`onImportExcel` has no two records whose `serverName` values are equal after
trimming and lower-casing. -/
theorem merged_keys_unique (P : Platform) (toUpsert prev : List Record) :
    ((mergeServers P toUpsert prev).map (keyOf P)).Nodup := by
  have hperm := (mergeServers_perm P toUpsert prev).map (keyOf P)
  rw [hperm.nodup_iff, map_keyOf_mapValues P _ (mergedMap_keyed P toUpsert prev)]
  exact mergedMap_nodup P toUpsert prev

theorem mem_validRecords (P : Platform) (rows : List RawRow) (s : Record) :
    s ∈ validRecords P rows ↔ ∃ r ∈ rows, validate P (rowToRecord P r) = [] ∧ rowToRecord P r = s := by
  simp only [validRecords, List.mem_filter, List.mem_map, decide_eq_true_eq]
  constructor
  · rintro ⟨⟨r, hr, rfl⟩, hv⟩
    exact ⟨r, hr, hv, rfl⟩
  · rintro ⟨r, hr, hv, rfl⟩
    exact ⟨⟨r, hr, rfl⟩, hv⟩

theorem validRecords_append_cons (P : Platform) (pre post : List RawRow) (r : RawRow)
    (hr : validate P (rowToRecord P r) = []) :
    validRecords P (pre ++ r :: post)
      = validRecords P pre ++ rowToRecord P r :: validRecords P post := by
  simp [validRecords, List.filter_cons, hr]

/-- C4. Last-write-wins within a batch (values): when `r` is a valid row of the
batch and no valid row after it has the same key (so `r` is the last valid row
with that key, whatever rows with that key come before it), the set after
the import contains exactly one record with that key, and it is the record
mapped from `r`. -/
theorem last_write_wins_values (P : Platform) (servers : List Record) (pre post : List RawRow)
    (r : RawRow) (hr : validate P (rowToRecord P r) = [])
    (hpost : ∀ q ∈ post, validate P (rowToRecord P q) = [] →
      keyOf P (rowToRecord P q) ≠ keyOf P (rowToRecord P r)) :
    (onImportExcel P servers (pre ++ r :: post)).1.filter
        (fun s => decide (keyOf P s = keyOf P (rowToRecord P r))) = [rowToRecord P r] := by
  have hv := validRecords_append_cons P pre post r hr
  have hne : validRecords P (pre ++ r :: post) ≠ [] := by rw [hv]; simp
  rw [onImportExcel_merged P servers _ hne]
  simp only
  have hget : mapGet (mergedMap P (validRecords P (pre ++ r :: post)) servers)
      (keyOf P (rowToRecord P r)) = some (rowToRecord P r) := by
    rw [mapGet_mergedMap, hv, List.map_append, List.map_cons, List.reverse_append,
      List.reverse_cons, List.append_assoc, mapGet_append]
    have hnone : mapGet ((validRecords P post).map (fun s => (keyOf P s, s))).reverse
        (keyOf P (rowToRecord P r)) = none := by
      rw [mapGet_reverse_entries_none]
      intro s hs
      obtain ⟨q, hq, hqv, rfl⟩ := (mem_validRecords P post s).mp hs
      exact hpost q hq hqv
    rw [hnone]
    simp [mapGet]
  have hfil := filter_key_of_mapGet P _ _ _ (mergedMap_keyed P _ servers)
    (mergedMap_nodup P _ servers) hget
  have hperm := (mergeServers_perm P (validRecords P (pre ++ r :: post)) servers).filter
    (fun s => decide (keyOf P s = keyOf P (rowToRecord P r)))
  rw [hfil] at hperm
  exact List.perm_singleton.mp hperm

/-- Witness of C4: the rows `srv-a` and `SRV-A` share a key and both pass
validation; after the import the one record with that key is the record of the
second row. -/
theorem last_write_wins_values_witness :
    validate refPlatform (rowToRecord refPlatform
        (sampleRow "srv-a" "10.0.0.1" "p" "o" "2025-01-01")) = []
    ∧ validate refPlatform (rowToRecord refPlatform
        (sampleRow "SRV-A" "10.0.0.2" "q" "o" "2025-01-01")) = []
    ∧ (onImportExcel refPlatform []
        ([sampleRow "srv-a" "10.0.0.1" "p" "o" "2025-01-01"] ++
          sampleRow "SRV-A" "10.0.0.2" "q" "o" "2025-01-01" :: [])).1.filter
      (fun s => decide (keyOf refPlatform s
        = keyOf refPlatform (rowToRecord refPlatform
            (sampleRow "SRV-A" "10.0.0.2" "q" "o" "2025-01-01"))))
    = [rowToRecord refPlatform (sampleRow "SRV-A" "10.0.0.2" "q" "o" "2025-01-01")] :=
  ⟨by decide, by decide,
    last_write_wins_values refPlatform [] [sampleRow "srv-a" "10.0.0.1" "p" "o" "2025-01-01"] []
      (sampleRow "SRV-A" "10.0.0.2" "q" "o" "2025-01-01") (by decide) (by simp)⟩

/-- C7. Frame of the import.  (1) When the pre-import set has unique keys, each
of its records whose key is not the key of any valid row is a member, unchanged,
of the set after the import.  (2) Every record of the set after the import is
either such a pre-import record or the mapped record of a valid row.  (3) When
no row is valid, in particular when there are no rows, the set is left exactly
as it was. -/
theorem import_frame (P : Platform) (servers : List Record) (rows : List RawRow) :
    ((servers.map (keyOf P)).Nodup →
      ∀ s ∈ servers,
        (∀ r ∈ rows, validate P (rowToRecord P r) = [] → keyOf P (rowToRecord P r) ≠ keyOf P s) →
        s ∈ (onImportExcel P servers rows).1)
    ∧ (∀ t ∈ (onImportExcel P servers rows).1,
        (t ∈ servers ∧
          ∀ r ∈ rows, validate P (rowToRecord P r) = [] → keyOf P (rowToRecord P r) ≠ keyOf P t)
        ∨ ∃ r ∈ rows, validate P (rowToRecord P r) = [] ∧ t = rowToRecord P r)
    ∧ ((∀ r ∈ rows, validate P (rowToRecord P r) ≠ []) →
        (onImportExcel P servers rows).1 = servers) := by
  refine ⟨?_, ?_, ?_⟩
  · intro hn s hs hkey
    by_cases hv : validRecords P rows = []
    · rw [onImportExcel_unchanged P servers rows hv]; exact hs
    · rw [onImportExcel_merged P servers rows hv]
      simp only
      rw [(mergeServers_perm P _ servers).mem_iff]
      have hget : mapGet (mergedMap P (validRecords P rows) servers) (keyOf P s) = some s := by
        rw [mapGet_mergedMap]
        have hnone : mapGet ((validRecords P rows).map (fun s => (keyOf P s, s))).reverse
            (keyOf P s) = none := by
          rw [mapGet_reverse_entries_none]
          intro t ht
          obtain ⟨r, hr, hrv, rfl⟩ := (mem_validRecords P rows t).mp ht
          exact hkey r hr hrv
        rw [hnone]
        apply mapGet_of_mem
        · simp only [objectKeys, List.map_reverse, List.map_map, List.nodup_reverse]
          exact hn
        · simp only [List.mem_reverse, List.mem_map]
          exact ⟨s, hs, rfl⟩
      have := mem_of_mapGet _ _ _ hget
      simp only [mapValues, List.mem_map]
      exact ⟨_, this, rfl⟩
  · intro t ht
    by_cases hv : validRecords P rows = []
    · rw [onImportExcel_unchanged P servers rows hv] at ht
      refine Or.inl ⟨ht, ?_⟩
      intro r hr hrv
      have : rowToRecord P r ∈ validRecords P rows :=
        (mem_validRecords P rows _).mpr ⟨r, hr, hrv, rfl⟩
      rw [hv] at this
      simp at this
    · rw [onImportExcel_merged P servers rows hv] at ht
      simp only at ht
      rw [(mergeServers_perm P _ servers).mem_iff] at ht
      simp only [mapValues, List.mem_map] at ht
      obtain ⟨e, he, rfl⟩ := ht
      have hk := mergedMap_keyed P _ servers e he
      have hget : mapGet (mergedMap P (validRecords P rows) servers) (keyOf P e.2) = some e.2 := by
        apply mapGet_of_mem _ _ _ (mergedMap_nodup P _ servers)
        rw [← hk]
        exact he
      rw [mapGet_mergedMap] at hget
      cases hup : mapGet ((validRecords P rows).map (fun s => (keyOf P s, s))).reverse
          (keyOf P e.2) with
      | some v =>
        rw [hup] at hget
        simp only [Option.some.injEq] at hget
        subst hget
        obtain ⟨hmem, _⟩ := mapGet_reverse_entries_some P _ _ _ hup
        obtain ⟨r, hr, hrv, hrt⟩ := (mem_validRecords P rows _).mp hmem
        exact Or.inr ⟨r, hr, hrv, hrt.symm⟩
      | none =>
        rw [hup] at hget
        simp only at hget
        obtain ⟨hmem, _⟩ := mapGet_reverse_entries_some P _ _ _ hget
        refine Or.inl ⟨hmem, ?_⟩
        intro r hr hrv
        have := (mapGet_reverse_entries_none P _ _).mp hup (rowToRecord P r)
          ((mem_validRecords P rows _).mpr ⟨r, hr, hrv, rfl⟩)
        exact this
  · intro hall
    apply onImportExcel_unchanged
    rw [List.eq_nil_iff_forall_not_mem]
    intro s hs
    obtain ⟨r, hr, hrv, _⟩ := (mem_validRecords P rows s).mp hs
    exact hall r hr hrv

/-! ## The reference platform is consistent -/

theorem lexLt_irrefl (a : List Nat) : lexLt a a = false := by
  induction a with
  | nil => rfl
  | cons x a ih => simp [lexLt, ih]

theorem lexLt_asymm (a b : List Nat) (h : lexLt a b = true) : lexLt b a = false := by
  induction a generalizing b with
  | nil =>
    cases b with
    | nil => rfl
    | cons y b => rfl
  | cons x a ih =>
    cases b with
    | nil => simp [lexLt] at h
    | cons y b =>
      simp only [lexLt, Bool.or_eq_true, decide_eq_true_eq, Bool.and_eq_true, beq_iff_eq] at h
      simp only [lexLt, Bool.or_eq_false_iff, decide_eq_false_iff_not, Bool.and_eq_false_imp,
        beq_iff_eq]
      rcases h with h | ⟨h1, h2⟩
      · exact ⟨by omega, fun h3 => by omega⟩
      · exact ⟨by omega, fun _ => ih b h2⟩

theorem lexLt_trans (a b c : List Nat) (h1 : lexLt a b = true) (h2 : lexLt b c = true) :
    lexLt a c = true := by
  induction a generalizing b c with
  | nil =>
    cases c with
    | nil => cases b <;> simp [lexLt] at h2
    | cons z c => rfl
  | cons x a ih =>
    cases b with
    | nil => simp [lexLt] at h1
    | cons y b =>
      cases c with
      | nil => simp [lexLt] at h2
      | cons z c =>
        simp only [lexLt, Bool.or_eq_true, decide_eq_true_eq, Bool.and_eq_true, beq_iff_eq]
          at h1 h2 ⊢
        rcases h1 with h1 | ⟨h1, h1t⟩
        · rcases h2 with h2 | ⟨h2, _⟩
          · exact Or.inl (by omega)
          · exact Or.inl (by omega)
        · rcases h2 with h2 | ⟨h2, h2t⟩
          · exact Or.inl (by omega)
          · exact Or.inr ⟨by omega, ih b c h1t h2t⟩

theorem lexLt_trichotomy (a b : List Nat) (h1 : lexLt a b = false) (h2 : lexLt b a = false) :
    a = b := by
  induction a generalizing b with
  | nil =>
    cases b with
    | nil => rfl
    | cons y b => simp [lexLt] at h1
  | cons x a ih =>
    cases b with
    | nil => simp [lexLt] at h2
    | cons y b =>
      simp only [lexLt, Bool.or_eq_false_iff, decide_eq_false_iff_not, Bool.and_eq_false_imp,
        beq_iff_eq] at h1 h2
      have hxy : x = y := by omega
      subst hxy
      rw [ih b (h1.2 rfl) (h2.2 rfl)]

theorem refCompare_le_zero_iff (a b : String) :
    refCompare a b ≤ 0 ↔
      lexLt (codeUnits (asciiLower a)) (codeUnits (asciiLower b)) = true
      ∨ (codeUnits (asciiLower a) = codeUnits (asciiLower b)
          ∧ lexLt (codeUnits a) (codeUnits b) = false) := by
  unfold refCompare
  simp only
  cases h1 : lexLt (codeUnits (asciiLower a)) (codeUnits (asciiLower b)) with
  | true => simp
  | false =>
    cases h2 : lexLt (codeUnits (asciiLower b)) (codeUnits (asciiLower a)) with
    | true =>
      simp only [Bool.false_eq_true, if_false, if_true, false_or]
      constructor
      · intro h; omega
      · rintro ⟨h, _⟩
        rw [h, lexLt_irrefl] at h2
        simp at h2
    | false =>
      have hp := lexLt_trichotomy _ _ h1 h2
      simp only [Bool.false_eq_true, if_false, false_or, hp, true_and]
      cases h3 : lexLt (codeUnits b) (codeUnits a) with
      | true => simp [lexLt_asymm _ _ h3]
      | false =>
        cases h4 : lexLt (codeUnits a) (codeUnits b) with
        | true => simp
        | false => simp

theorem refPlatform_consistent : refPlatform.Consistent := by
  constructor
  · intro a b
    show refCompare a b ≤ 0 ∨ refCompare b a ≤ 0
    rw [refCompare_le_zero_iff, refCompare_le_zero_iff]
    cases h1 : lexLt (codeUnits (asciiLower a)) (codeUnits (asciiLower b)) with
    | true => exact Or.inl (Or.inl rfl)
    | false =>
      cases h2 : lexLt (codeUnits (asciiLower b)) (codeUnits (asciiLower a)) with
      | true => exact Or.inr (Or.inl rfl)
      | false =>
        have hp := lexLt_trichotomy _ _ h1 h2
        cases h3 : lexLt (codeUnits a) (codeUnits b) with
        | true => exact Or.inr (Or.inr ⟨hp.symm, lexLt_asymm _ _ h3⟩)
        | false => exact Or.inl (Or.inr ⟨hp, rfl⟩)
  · intro a b c
    show refCompare a b ≤ 0 → refCompare b c ≤ 0 → refCompare a c ≤ 0
    rw [refCompare_le_zero_iff, refCompare_le_zero_iff, refCompare_le_zero_iff]
    rintro (h1 | ⟨h1, h1u⟩) (h2 | ⟨h2, h2u⟩)
    · exact Or.inl (lexLt_trans _ _ _ h1 h2)
    · rw [← h2]; exact Or.inl h1
    · rw [h1]; exact Or.inl h2
    · refine Or.inr ⟨h1.trans h2, ?_⟩
      cases h3 : lexLt (codeUnits a) (codeUnits c) with
      | false => rfl
      | true =>
        exfalso
        cases h4 : lexLt (codeUnits b) (codeUnits a) with
        | true =>
          have := lexLt_trans _ _ _ h4 h3
          rw [this] at h2u
          simp at h2u
        | false =>
          have := lexLt_trichotomy _ _ h1u h4
          rw [this] at h3
          rw [h3] at h2u
          simp at h2u

/-! ## Order of the merged set -/

theorem sortByName_sorted (P : Platform) (hP : P.Consistent) (l : List Record) :
    (sortByName P l).Sorted (fun a b => P.localeCompare a.serverName b.serverName ≤ 0) := by
  haveI : IsTotal Record (fun a b => P.localeCompare a.serverName b.serverName ≤ 0) :=
    ⟨fun a b => hP.1 a.serverName b.serverName⟩
  haveI : IsTrans Record (fun a b => P.localeCompare a.serverName b.serverName ≤ 0) :=
    ⟨fun a b c => hP.2 a.serverName b.serverName c.serverName⟩
  exact List.sorted_insertionSort _ l

theorem sortByName_of_sorted (P : Platform) (l : List Record)
    (h : l.Sorted (fun a b => P.localeCompare a.serverName b.serverName ≤ 0)) :
    sortByName P l = l :=
  List.Sorted.insertionSort_eq h

/-- C8, as stated, fails: importing the valid rows `alpha` and `Beta` into an
empty set yields the order `alpha`, `Beta`, while by code unit `Beta` is less
than `alpha` (`B` is 66, `a` is 97), so the result is not ascending in the
code-unit order. -/
theorem sorted_by_code_unit_counterexample :
    (onImportExcel refPlatform []
        [sampleRow "alpha" "10.0.0.1" "p" "o" "2025-01-01",
         sampleRow "Beta" "10.0.0.2" "p" "o" "2025-01-01"]).1.map Record.serverName
      = ["alpha", "Beta"]
    ∧ jsLt "Beta" "alpha" = true
    ∧ ¬ List.Chain' (fun a b => jsLt b.serverName a.serverName = false)
        (onImportExcel refPlatform []
          [sampleRow "alpha" "10.0.0.1" "p" "o" "2025-01-01",
           sampleRow "Beta" "10.0.0.2" "p" "o" "2025-01-01"]).1 := by
  have heq : (onImportExcel refPlatform []
      [sampleRow "alpha" "10.0.0.1" "p" "o" "2025-01-01",
       sampleRow "Beta" "10.0.0.2" "p" "o" "2025-01-01"]).1
      = [sampleRecord "alpha" "10.0.0.1" "p" "o" "2025-01-01",
         sampleRecord "Beta" "10.0.0.2" "p" "o" "2025-01-01"] := by decide
  refine ⟨by decide, by decide, ?_⟩
  rw [heq]
  intro h
  exact absurd (List.chain'_pair.mp h) (by decide)

/-- C8, amended. For every import that stages at least one valid row, on a
platform whose `localeCompare` is a consistent comparator, the resulting set is
sorted by `serverName` ascending in the order of `localeCompare`: for every two
adjacent records `a`, `b` of the result `a.serverName.localeCompare(b.serverName)`
is at most zero, and the same holds for any record and any later one. -/
theorem import_sorted_by_localeCompare (P : Platform) (hP : P.Consistent)
    (servers : List Record) (rows : List RawRow)
    (hstaged : (importLoop P servers rows).toUpsert ≠ []) :
    List.Chain' (fun a b => P.localeCompare a.serverName b.serverName ≤ 0)
        (onImportExcel P servers rows).1
    ∧ List.Pairwise (fun a b => P.localeCompare a.serverName b.serverName ≤ 0)
        (onImportExcel P servers rows).1 := by
  rw [importLoop_toUpsert] at hstaged
  rw [onImportExcel_merged P servers rows hstaged]
  simp only
  rw [mergeServers_eq]
  have h := sortByName_sorted P hP (mapValues (mergedMap P (validRecords P rows) servers))
  exact ⟨List.Pairwise.chain' h, h⟩

/-- Witness of the amended C8 on the reference platform: the import of `alpha`
and `Beta` stages two rows and its result is in `localeCompare` order. -/
theorem import_sorted_by_localeCompare_witness :
    (importLoop refPlatform []
        [sampleRow "alpha" "10.0.0.1" "p" "o" "2025-01-01",
         sampleRow "Beta" "10.0.0.2" "p" "o" "2025-01-01"]).toUpsert ≠ []
    ∧ List.Chain' (fun a b => refPlatform.localeCompare a.serverName b.serverName ≤ 0)
        (onImportExcel refPlatform []
          [sampleRow "alpha" "10.0.0.1" "p" "o" "2025-01-01",
           sampleRow "Beta" "10.0.0.2" "p" "o" "2025-01-01"]).1 :=
  ⟨by decide,
    (import_sorted_by_localeCompare refPlatform refPlatform_consistent []
      [sampleRow "alpha" "10.0.0.1" "p" "o" "2025-01-01",
       sampleRow "Beta" "10.0.0.2" "p" "o" "2025-01-01"] (by decide)).1⟩

/-! ## Importing a file twice -/

theorem mergeServers_keys_nodup (P : Platform) (toUpsert prev : List Record) :
    ((mergeServers P toUpsert prev).map (keyOf P)).Nodup := by
  have hperm := (mergeServers_perm P toUpsert prev).map (keyOf P)
  rw [hperm.nodup_iff, map_keyOf_mapValues P _ (mergedMap_keyed P toUpsert prev)]
  exact mergedMap_nodup P toUpsert prev

theorem mem_mergeServers_of_mapGet (P : Platform) (toUpsert prev : List Record) (k : String)
    (v : Record) (h : mapGet (mergedMap P toUpsert prev) k = some v) :
    v ∈ mergeServers P toUpsert prev ∧ keyOf P v = k := by
  have hmem := mem_of_mapGet _ _ _ h
  have hk := mergedMap_keyed P toUpsert prev _ hmem
  refine ⟨?_, hk.symm⟩
  rw [(mergeServers_perm P toUpsert prev).mem_iff]
  simp only [mapValues, List.mem_map]
  exact ⟨_, hmem, rfl⟩

theorem key_mem_mergeServers (P : Platform) (toUpsert prev : List Record) (s : Record)
    (hs : s ∈ toUpsert) : keyOf P s ∈ (mergeServers P toUpsert prev).map (keyOf P) := by
  rw [((mergeServers_perm P toUpsert prev).map (keyOf P)).mem_iff,
    map_keyOf_mapValues P _ (mergedMap_keyed P toUpsert prev), mergedMap, mem_objectKeys_mapSetAll]
  left
  simp only [objectKeys, List.map_map, List.mem_map, Function.comp_apply]
  exact ⟨s, List.mem_append_right _ hs, rfl⟩

theorem mergeServers_again (P : Platform) (hP : P.Consistent) (toUpsert prev : List Record) :
    mergeServers P toUpsert (mergeServers P toUpsert prev) = mergeServers P toUpsert prev := by
  have hnd : (objectKeys ((mergeServers P toUpsert prev).map (fun s => (keyOf P s, s)))).Nodup := by
    have := mergeServers_keys_nodup P toUpsert prev
    simpa [objectKeys, List.map_map, Function.comp_def] using this
  have hmap : mergedMap P toUpsert (mergeServers P toUpsert prev)
      = (mergeServers P toUpsert prev).map (fun s => (keyOf P s, s)) := by
    have h1 : mergedMap P toUpsert (mergeServers P toUpsert prev)
        = mapSetAll ((mergeServers P toUpsert prev).map (fun s => (keyOf P s, s)))
            (toUpsert.map (fun s => (keyOf P s, s))) := by
      conv_rhs => rw [← mapSetAll_nil_of_nodup _ hnd]
      simp only [mergedMap, mapSetAll, List.map_append, List.foldl_append]
    rw [h1]
    have hkeys : objectKeys (mapSetAll ((mergeServers P toUpsert prev).map (fun s => (keyOf P s, s)))
        (toUpsert.map (fun s => (keyOf P s, s))))
        = objectKeys ((mergeServers P toUpsert prev).map (fun s => (keyOf P s, s))) := by
      apply objectKeys_mapSetAll_of_subset
      intro e he
      obtain ⟨s, hs, rfl⟩ := List.mem_map.mp he
      have := key_mem_mergeServers P toUpsert prev s hs
      simpa [objectKeys, List.map_map, Function.comp_def] using this
    apply map_ext_of_mapGet _ _ hkeys (nodup_objectKeys_mapSetAll _ _ hnd)
    intro k
    rw [mapGet_mapSetAll]
    cases hup : mapGet (toUpsert.map (fun s => (keyOf P s, s))).reverse k with
    | none => rfl
    | some v =>
      simp only
      have hg : mapGet (mergedMap P toUpsert prev) k = some v := by
        rw [mapGet_mergedMap, hup]
      obtain ⟨hv, hvk⟩ := mem_mergeServers_of_mapGet P toUpsert prev k v hg
      symm
      apply mapGet_of_mem _ _ _ hnd
      simp only [List.mem_map, Prod.mk.injEq]
      exact ⟨v, hv, hvk, rfl⟩
  rw [mergeServers_eq P toUpsert (mergeServers P toUpsert prev), hmap]
  have hval : mapValues ((mergeServers P toUpsert prev).map (fun s => (keyOf P s, s)))
      = mergeServers P toUpsert prev := by
    simp [mapValues, List.map_map, Function.comp_def]
  rw [hval]
  apply sortByName_of_sorted
  rw [mergeServers_eq]
  exact sortByName_sorted P hP _

theorem countP_eq_length_of_all {α : Type} (l : List α) (p : α → Bool) (h : ∀ a ∈ l, p a = true) :
    l.countP p = l.length := by
  induction l with
  | nil => rfl
  | cons a l ih =>
    rw [List.countP_cons, h a (List.mem_cons_self _ _), ih (fun b hb => h b (List.mem_cons_of_mem _ hb))]
    simp

theorem countP_eq_zero_of_none {α : Type} (l : List α) (p : α → Bool) (h : ∀ a ∈ l, p a = false) :
    l.countP p = 0 := by
  induction l with
  | nil => rfl
  | cons a l ih =>
    rw [List.countP_cons, h a (List.mem_cons_self _ _), ih (fun b hb => h b (List.mem_cons_of_mem _ hb))]
    simp

/-- C3. Idempotence of re-import: on a platform whose `localeCompare` is a
consistent comparator and under one fixed current date, for every pre-import
set and every non-empty file all of whose rows pass validation, importing the
file again into the set left by the first import yields that same set and
reports `imported = 0`, `updated = number of rows` (and `skipped = 0`). -/
theorem reimport_idempotent (P : Platform) (hP : P.Consistent) (servers : List Record)
    (rows : List RawRow) (hne : rows ≠ [])
    (hvalid : ∀ r ∈ rows, validate P (rowToRecord P r) = []) :
    onImportExcel P (onImportExcel P servers rows).1 rows
      = ((onImportExcel P servers rows).1, Toast.summary 0 rows.length 0) := by
  have hstaged : validRecords P rows ≠ [] := by
    cases rows with
    | nil => exact absurd rfl hne
    | cons r rows =>
      intro h
      have : rowToRecord P r ∈ validRecords P (r :: rows) :=
        (mem_validRecords P _ _).mpr ⟨r, List.mem_cons_self _ _, hvalid r (List.mem_cons_self _ _), rfl⟩
      rw [h] at this
      simp at this
  rw [onImportExcel_merged P servers rows hstaged]
  simp only
  rw [onImportExcel_merged P _ rows hstaged, mergeServers_again P hP]
  obtain ⟨h1, h2, h3, _⟩ := foldl_importStep P
    (mapOfEntries ((mergeServers P (validRecords P rows) servers).map (fun s => (keyOf P s, s))))
    rows ⟨0, 0, 0, []⟩
  have hhas : ∀ r ∈ rows,
      mapHas (mapOfEntries ((mergeServers P (validRecords P rows) servers).map
        (fun s => (keyOf P s, s)))) (keyOf P (rowToRecord P r)) = true := by
    intro r hr
    rw [mapHas_existingMap]
    exact key_mem_mergeServers P _ servers _
      ((mem_validRecords P rows _).mpr ⟨r, hr, hvalid r hr, rfl⟩)
  have e1 : (importLoop P (mergeServers P (validRecords P rows) servers) rows).skipped = 0 := by
    simp only [importLoop, h1, Nat.zero_add]
    apply countP_eq_zero_of_none
    intro r hr
    simp [hvalid r hr]
  have e2 : (importLoop P (mergeServers P (validRecords P rows) servers) rows).updated
      = rows.length := by
    simp only [importLoop, h2, Nat.zero_add]
    apply countP_eq_length_of_all
    intro r hr
    simp [hvalid r hr, hhas r hr]
  have e3 : (importLoop P (mergeServers P (validRecords P rows) servers) rows).imported = 0 := by
    simp only [importLoop, h3, Nat.zero_add]
    apply countP_eq_zero_of_none
    intro r hr
    simp [hvalid r hr, hhas r hr]
  rw [e1, e2, e3]

/-- Witness of C3 on the reference platform: with `srv-b` in the set, the file of
the valid rows `srv-a` and `SRV-B` is imported twice; the second import leaves
the set as the first left it and reports imported 0, updated 2, skipped 0. -/
theorem reimport_idempotent_witness :
    refPlatform.Consistent
    ∧ [sampleRow "srv-a" "10.0.0.1" "p" "o" "2025-01-01",
       sampleRow "SRV-B" "10.0.0.2" "p" "o" "2025-01-01"] ≠ []
    ∧ (∀ r ∈ [sampleRow "srv-a" "10.0.0.1" "p" "o" "2025-01-01",
              sampleRow "SRV-B" "10.0.0.2" "p" "o" "2025-01-01"],
        validate refPlatform (rowToRecord refPlatform r) = [])
    ∧ onImportExcel refPlatform
        (onImportExcel refPlatform [sampleRecord "srv-b" "10.0.0.9" "old" "o" "2024-01-01"]
          [sampleRow "srv-a" "10.0.0.1" "p" "o" "2025-01-01",
           sampleRow "SRV-B" "10.0.0.2" "p" "o" "2025-01-01"]).1
        [sampleRow "srv-a" "10.0.0.1" "p" "o" "2025-01-01",
         sampleRow "SRV-B" "10.0.0.2" "p" "o" "2025-01-01"]
      = ((onImportExcel refPlatform [sampleRecord "srv-b" "10.0.0.9" "old" "o" "2024-01-01"]
          [sampleRow "srv-a" "10.0.0.1" "p" "o" "2025-01-01",
           sampleRow "SRV-B" "10.0.0.2" "p" "o" "2025-01-01"]).1,
         Toast.summary 0
          [sampleRow "srv-a" "10.0.0.1" "p" "o" "2025-01-01",
           sampleRow "SRV-B" "10.0.0.2" "p" "o" "2025-01-01"].length 0) :=
  ⟨refPlatform_consistent, by decide, by decide,
    reimport_idempotent refPlatform refPlatform_consistent
      [sampleRecord "srv-b" "10.0.0.9" "old" "o" "2024-01-01"]
      [sampleRow "srv-a" "10.0.0.1" "p" "o" "2025-01-01",
       sampleRow "SRV-B" "10.0.0.2" "p" "o" "2025-01-01"] (by decide) (by decide)⟩

/-- Witness of C7 on the reference platform: the set holds `srv-b` and `srv-x`
with distinct keys; the batch has the valid rows `srv-a` and `SRV-B` and a row
without IP; `srv-x`, whose key no valid row has, is in the set after the import.
A batch made of the row without IP alone leaves the set as it was. -/
theorem import_frame_witness :
    ([sampleRecord "srv-b" "10.0.0.9" "old" "o" "2024-01-01",
      sampleRecord "srv-x" "10.0.0.8" "old" "o" "2024-01-01"].map (keyOf refPlatform)).Nodup
    ∧ sampleRecord "srv-x" "10.0.0.8" "old" "o" "2024-01-01"
        ∈ (onImportExcel refPlatform
            [sampleRecord "srv-b" "10.0.0.9" "old" "o" "2024-01-01",
             sampleRecord "srv-x" "10.0.0.8" "old" "o" "2024-01-01"]
            [sampleRow "srv-a" "10.0.0.1" "p" "o" "2025-01-01",
             sampleRow "SRV-B" "10.0.0.2" "p" "o" "2025-01-01",
             sampleRow "srv-c" "" "p" "o" "2025-01-01"]).1
    ∧ (onImportExcel refPlatform
            [sampleRecord "srv-b" "10.0.0.9" "old" "o" "2024-01-01",
             sampleRecord "srv-x" "10.0.0.8" "old" "o" "2024-01-01"]
            [sampleRow "srv-c" "" "p" "o" "2025-01-01"]).1
        = [sampleRecord "srv-b" "10.0.0.9" "old" "o" "2024-01-01",
           sampleRecord "srv-x" "10.0.0.8" "old" "o" "2024-01-01"] :=
  ⟨by decide,
    (import_frame refPlatform
      [sampleRecord "srv-b" "10.0.0.9" "old" "o" "2024-01-01",
       sampleRecord "srv-x" "10.0.0.8" "old" "o" "2024-01-01"]
      [sampleRow "srv-a" "10.0.0.1" "p" "o" "2025-01-01",
       sampleRow "SRV-B" "10.0.0.2" "p" "o" "2025-01-01",
       sampleRow "srv-c" "" "p" "o" "2025-01-01"]).1 (by decide) _ (by decide) (by decide),
    (import_frame refPlatform
      [sampleRecord "srv-b" "10.0.0.9" "old" "o" "2024-01-01",
       sampleRecord "srv-x" "10.0.0.8" "old" "o" "2024-01-01"]
      [sampleRow "srv-c" "" "p" "o" "2025-01-01"]).2.2 (by decide)⟩

/-! ## Validation -/

theorem mapSet_ne_nil {V : Type} (m : JsMap V) (k : String) (v : V) : mapSet m k v ≠ [] := by
  cases m with
  | nil => simp [mapSet]
  | cons e m =>
    obtain ⟨k1, v1⟩ := e
    simp only [mapSet]
    split <;> simp

theorem mem_objectKeys_mapSet {V : Type} (m : JsMap V) (k : String) (v : V) (k2 : String) :
    k2 ∈ objectKeys (mapSet m k v) ↔ k2 = k ∨ k2 ∈ objectKeys m := by
  rw [objectKeys_mapSet]
  split
  · rename_i h
    constructor
    · exact Or.inr
    · rintro (h1 | h1)
      · rw [h1]; exact h
      · exact h1
  · simp only [List.mem_append, List.mem_singleton]
    tauto

theorem ite_mapSet_eq_nil (c : Prop) [Decidable c] (e x : JsMap String) (k v : String) :
    (if c then mapSet e k v else x) = [] ↔ ¬ c ∧ x = [] := by
  split
  · rename_i h
    simp [h, mapSet_ne_nil]
  · rename_i h
    simp [h]

theorem mem_objectKeys_ite_mapSet (c : Prop) [Decidable c] (e : JsMap String) (k v k2 : String) :
    k2 ∈ objectKeys (if c then mapSet e k v else e) ↔ (c ∧ k2 = k) ∨ k2 ∈ objectKeys e := by
  split
  · rename_i h
    rw [mem_objectKeys_mapSet]
    simp [h]
  · rename_i h
    simp [h]

theorem mem_objectKeys_ite_ite_mapSet (c d : Prop) [Decidable c] [Decidable d] (e : JsMap String)
    (k v w k2 : String) :
    k2 ∈ objectKeys (if c then mapSet e k v else if d then mapSet e k w else e)
      ↔ ((c ∨ d) ∧ k2 = k) ∨ k2 ∈ objectKeys e := by
  split
  · rename_i h
    rw [mem_objectKeys_mapSet]
    simp [h]
  · rename_i h
    rw [mem_objectKeys_ite_mapSet]
    simp [h]

theorem jsLt_empty (s : String) : jsLt s "" = false := by
  simp [jsLt, codeUnits, codeUnitsOf, lexLt]

theorem mem_objectKeys_validate (P : Platform) (r : Record) (k : String) :
    k ∈ objectKeys (validate P r) ↔
      (¬ r.backupType = "None" ∧ r.backupFrequency = "None") ∧ k = "backupFrequency"
      ∨ (r.backupType = "None" ∧ ¬ r.backupFrequency = "None") ∧ k = "backupFrequency"
      ∨ ((¬ r.surrenderedDate = "" ∧ ¬ r.allocatedDate = "")
          ∧ jsLt r.surrenderedDate r.allocatedDate = true) ∧ k = "surrenderedDate"
      ∨ ((r.status = "Decommissioned" ∨ r.status = "Retired") ∧ r.surrenderedDate = "")
          ∧ k = "surrenderedDate"
      ∨ (r.allocatedDate = "" ∨ jsGt r.allocatedDate (todayISO P) = true) ∧ k = "allocatedDate"
      ∨ jsTrim r.owner = "" ∧ k = "owner"
      ∨ jsTrim r.purpose = "" ∧ k = "purpose"
      ∨ (jsTrim r.ip = "" ∨ isValidIPv4 (jsTrim r.ip) = false) ∧ k = "ip"
      ∨ jsTrim r.serverName = "" ∧ k = "serverName" := by
  have hnil : objectKeys ([] : JsMap String) = [] := rfl
  simp only [validate, mem_objectKeys_ite_mapSet, mem_objectKeys_ite_ite_mapSet]
  simp only [hnil, List.not_mem_nil, or_false, Bool.and_eq_true, bne_iff_ne, beq_iff_eq,
    Bool.not_eq_true', List.contains_cons, List.contains_nil, Bool.or_false, Bool.or_eq_true, ne_eq]

theorem ite_ite_mapSet_eq_nil (c d : Prop) [Decidable c] [Decidable d] (e x : JsMap String)
    (k v w : String) :
    (if c then mapSet e k v else if d then mapSet e k w else x) = [] ↔ (¬ c ∧ ¬ d) ∧ x = [] := by
  rw [ite_mapSet_eq_nil, ite_mapSet_eq_nil, and_assoc]

theorem validate_eq_nil_iff (P : Platform) (r : Record) :
    validate P r = [] ↔
      ¬ (¬ r.backupType = "None" ∧ r.backupFrequency = "None") ∧
      ¬ (r.backupType = "None" ∧ ¬ r.backupFrequency = "None") ∧
      ¬ ((¬ r.surrenderedDate = "" ∧ ¬ r.allocatedDate = "")
          ∧ jsLt r.surrenderedDate r.allocatedDate = true) ∧
      ¬ ((r.status = "Decommissioned" ∨ r.status = "Retired") ∧ r.surrenderedDate = "") ∧
      ¬ r.allocatedDate = "" ∧
      ¬ jsGt r.allocatedDate (todayISO P) = true ∧
      ¬ jsTrim r.owner = "" ∧
      ¬ jsTrim r.purpose = "" ∧
      ¬ jsTrim r.ip = "" ∧
      ¬ isValidIPv4 (jsTrim r.ip) = false ∧
      ¬ jsTrim r.serverName = "" ∧ True := by
  simp only [validate, ite_ite_mapSet_eq_nil, ite_mapSet_eq_nil]
  simp only [Bool.and_eq_true, bne_iff_ne, beq_iff_eq,
    Bool.not_eq_true', List.contains_cons, List.contains_nil, Bool.or_false, Bool.or_eq_true, ne_eq]

theorem dropWhile_self_head {α : Type} (p : α → Bool) (a : α) (w : List α)
    (h : (a :: w).dropWhile p = a :: w) : p a = false := by
  cases hp : p a with
  | false => rfl
  | true =>
    rw [List.dropWhile_cons_of_pos hp] at h
    have hlen := (List.dropWhile_suffix p (l := w)).length_le
    rw [h] at hlen
    simp at hlen

theorem dropWhile_rdropWhile {α : Type} (p : α → Bool) (w : List α)
    (h : w.dropWhile p = w) : (w.rdropWhile p).dropWhile p = w.rdropWhile p := by
  obtain ⟨r, hr⟩ := List.rdropWhile_prefix p (l := w)
  cases ht : w.rdropWhile p with
  | nil => rfl
  | cons a t =>
    rw [ht] at hr
    rw [← hr] at h
    have := dropWhile_self_head p a (t ++ r) h
    simp [List.dropWhile_cons, this]

theorem trimChars_idem (s : List Char) : trimChars (trimChars s) = trimChars s := by
  have h : ∀ t, trimChars t = List.rdropWhile isJsWhiteSpace (t.dropWhile isJsWhiteSpace) :=
    fun _ => rfl
  rw [h (trimChars s), h s,
    dropWhile_rdropWhile _ _ (List.dropWhile_idempotent isJsWhiteSpace s),
    List.rdropWhile_idempotent]

theorem jsTrim_idem (s : String) : jsTrim (jsTrim s) = jsTrim s := by
  simp only [jsTrim, trimChars_idem]

theorem isValidIPv4_jsTrim (s : String) : isValidIPv4 (jsTrim s) = isValidIPv4 s := by
  simp only [isValidIPv4, jsTrim_idem]

/-- C9. `validate` is sound and complete for the eight rules: it returns a mapping
with zero entries exactly when `serverName`, `purpose` and `owner` are non-empty
after trim, `ip` is non-empty after trim and a valid IPv4 address,
`allocatedDate` is non-empty and not greater than `todayISO()`,
`surrenderedDate` is non-empty whenever `status` is `Decommissioned` or
`Retired`, `surrenderedDate` when non-empty is not less than `allocatedDate`,
and `backupType` is `None` exactly when `backupFrequency` is; and each failing
rule puts an entry under its own field key, whatever the other rules say. -/
theorem validate_sound_complete (P : Platform) (r : Record) :
    (validate P r = [] ↔
      jsTrim r.serverName ≠ "" ∧ jsTrim r.purpose ≠ "" ∧ jsTrim r.owner ≠ "" ∧
      (jsTrim r.ip ≠ "" ∧ isValidIPv4 r.ip = true) ∧
      (r.allocatedDate ≠ "" ∧ jsGt r.allocatedDate (todayISO P) = false) ∧
      ((r.status = "Decommissioned" ∨ r.status = "Retired") → r.surrenderedDate ≠ "") ∧
      (r.surrenderedDate ≠ "" → jsLt r.surrenderedDate r.allocatedDate = false) ∧
      (r.backupType = "None" ↔ r.backupFrequency = "None"))
    ∧ (jsTrim r.serverName = "" → "serverName" ∈ objectKeys (validate P r))
    ∧ (jsTrim r.ip = "" ∨ isValidIPv4 r.ip = false → "ip" ∈ objectKeys (validate P r))
    ∧ (jsTrim r.purpose = "" → "purpose" ∈ objectKeys (validate P r))
    ∧ (jsTrim r.owner = "" → "owner" ∈ objectKeys (validate P r))
    ∧ (r.allocatedDate = "" ∨ jsGt r.allocatedDate (todayISO P) = true →
        "allocatedDate" ∈ objectKeys (validate P r))
    ∧ ((r.status = "Decommissioned" ∨ r.status = "Retired") ∧ r.surrenderedDate = "" →
        "surrenderedDate" ∈ objectKeys (validate P r))
    ∧ (r.surrenderedDate ≠ "" ∧ jsLt r.surrenderedDate r.allocatedDate = true →
        "surrenderedDate" ∈ objectKeys (validate P r))
    ∧ (¬ (r.backupType = "None" ↔ r.backupFrequency = "None") →
        "backupFrequency" ∈ objectKeys (validate P r)) := by
  have hlt : jsLt r.surrenderedDate r.allocatedDate = true → ¬ r.allocatedDate = "" := by
    intro h h0
    rw [h0, jsLt_empty] at h
    exact Bool.false_ne_true h
  refine ⟨?_, ?_, ?_, ?_, ?_, ?_, ?_, ?_, ?_⟩
  · rw [validate_eq_nil_iff, isValidIPv4_jsTrim]
    constructor
    · rintro ⟨h9, h8, h7, h6, h5a, h5b, h4, h3, h2a, h2b, h1, _⟩
      refine ⟨h1, h3, h4, ⟨h2a, by simpa using h2b⟩, ⟨h5a, by simpa using h5b⟩, ?_, ?_, ?_⟩
      · intro hs hd
        exact h6 ⟨hs, hd⟩
      · intro hs
        cases hj : jsLt r.surrenderedDate r.allocatedDate with
        | false => rfl
        | true => exact absurd ⟨⟨hs, h5a⟩, hj⟩ h7
      · constructor
        · intro hb
          by_contra hf
          exact h8 ⟨hb, hf⟩
        · intro hf
          by_contra hb
          exact h9 ⟨hb, hf⟩
    · rintro ⟨h1, h3, h4, ⟨h2a, h2b⟩, ⟨h5a, h5b⟩, h6, h7, h8⟩
      refine ⟨?_, ?_, ?_, ?_, h5a, by simp [h5b], h4, h3, h2a, by simp [h2b], h1, trivial⟩
      · rintro ⟨hb, hf⟩
        exact hb (h8.mpr hf)
      · rintro ⟨hb, hf⟩
        exact hf (h8.mp hb)
      · rintro ⟨⟨hs, _⟩, hj⟩
        rw [h7 hs] at hj
        exact Bool.false_ne_true hj
      · rintro ⟨hs, hd⟩
        exact h6 hs hd
  · intro h
    rw [mem_objectKeys_validate]
    simp [h]
  · intro h
    rw [mem_objectKeys_validate, isValidIPv4_jsTrim]
    simp [h]
  · intro h
    rw [mem_objectKeys_validate]
    simp [h]
  · intro h
    rw [mem_objectKeys_validate]
    simp [h]
  · intro h
    rw [mem_objectKeys_validate]
    simp [h]
  · intro h
    rw [mem_objectKeys_validate]
    simp [h]
  · intro h
    rw [mem_objectKeys_validate]
    have h2 := hlt h.2
    simp [h, h2]
  · intro h
    rw [mem_objectKeys_validate]
    have : (¬ r.backupType = "None" ∧ r.backupFrequency = "None")
        ∨ (r.backupType = "None" ∧ ¬ r.backupFrequency = "None") := by
      by_cases hb : r.backupType = "None" <;> by_cases hf : r.backupFrequency = "None"
      · exact absurd ⟨fun _ => hf, fun _ => hb⟩ h
      · exact Or.inr ⟨hb, hf⟩
      · exact Or.inl ⟨hb, hf⟩
      · exact absurd ⟨fun h1 => absurd h1 hb, fun h1 => absurd h1 hf⟩ h
    rcases this with h1 | h1
    · exact Or.inl ⟨h1, rfl⟩
    · exact Or.inr (Or.inl ⟨h1, rfl⟩)

/-- Witness of C9 on the reference platform: the record of the sample row
`srv-a` meets the eight rules and has no error; the empty form fails the rule
on `serverName` and has an entry under that key. -/
theorem validate_sound_complete_witness :
    validate refPlatform (sampleRecord "srv-a" "10.0.0.1" "p" "o" "2025-01-01") = []
    ∧ jsTrim emptyForm.serverName = ""
    ∧ "serverName" ∈ objectKeys (validate refPlatform emptyForm) :=
  ⟨(validate_sound_complete refPlatform
      (sampleRecord "srv-a" "10.0.0.1" "p" "o" "2025-01-01")).1.mpr (by decide),
    by decide, (validate_sound_complete refPlatform emptyForm).2.1 (by decide)⟩

/-- C10. Validation biconditional: `validate` has an entry under
`backupFrequency` exactly when exactly one of `backupType` and
`backupFrequency` equals `None`; and a record that satisfies all other rules and
has `backupType = "None"`, `backupFrequency = "Daily"` gets exactly one entry,
keyed `backupFrequency`. -/
theorem validate_backup_biconditional (P : Platform) (r : Record) :
    ("backupFrequency" ∈ objectKeys (validate P r) ↔
      (r.backupType = "None" ∧ r.backupFrequency ≠ "None")
      ∨ (r.backupType ≠ "None" ∧ r.backupFrequency = "None"))
    ∧ (jsTrim r.serverName ≠ "" → jsTrim r.purpose ≠ "" → jsTrim r.owner ≠ "" →
        jsTrim r.ip ≠ "" → isValidIPv4 r.ip = true →
        r.allocatedDate ≠ "" → jsGt r.allocatedDate (todayISO P) = false →
        ((r.status = "Decommissioned" ∨ r.status = "Retired") → r.surrenderedDate ≠ "") →
        (r.surrenderedDate ≠ "" → jsLt r.surrenderedDate r.allocatedDate = false) →
        r.backupType = "None" → r.backupFrequency = "Daily" →
        validate P r
          = [("backupFrequency", "Backup Frequency must be None when Backup Type is None.")]) := by
  constructor
  · rw [mem_objectKeys_validate]
    simp only [String.reduceEq, and_false, and_true, or_false, false_or, ne_eq]
    tauto
  · intro h1 h3 h4 h2a h2b h5a h5b h6 h7 hb hf
    rw [← isValidIPv4_jsTrim] at h2b
    have hd : (r.surrenderedDate != "" && r.allocatedDate != ""
        && jsLt r.surrenderedDate r.allocatedDate) = false := by
      by_cases hsd : r.surrenderedDate = ""
      · simp [hsd]
      · simp [h7 hsd]
    have hs2 : ¬ ((r.status = "Decommissioned" ∨ r.status = "Retired") ∧ r.surrenderedDate = "") :=
      fun h => h6 h.1 h.2
    simp [validate, h1, h3, h4, h2a, h2b, h5a, h5b, hs2, hd, hb, hf, mapSet]

/-- Witness of C10 on the reference platform: the record of the sample row
`srv-a` with `backupType = "None"` and the default `backupFrequency = "Daily"`
satisfies the other rules and gets the one entry under `backupFrequency`. -/
theorem validate_backup_biconditional_witness :
    validate refPlatform
        { sampleRecord "srv-a" "10.0.0.1" "p" "o" "2025-01-01" with backupType := "None" }
      = [("backupFrequency", "Backup Frequency must be None when Backup Type is None.")] :=
  (validate_backup_biconditional refPlatform
      { sampleRecord "srv-a" "10.0.0.1" "p" "o" "2025-01-01" with backupType := "None" }).2
    (by decide) (by decide) (by decide) (by decide) (by decide) (by decide) (by decide)
    (by decide) (by decide) rfl rfl

/-! ## Export labels -/

/-- C19, evaluated: on the reference platform twelve of the thirteen labels of
`EXPORT_HEADERS` resolve through `normalizeHeader` and `HEADER_ALIASES` to their
own field key; the label `ServerIP` normalizes to `serverip`, which is no key of
`HEADER_ALIASES`, own or inherited, so the lookup is `undefined`; the row
exported from the first record of `initialData` is mapped back to a record with
an empty `ip`, which `validate` rejects under the key `ip`. -/
theorem export_labels_lookup :
    EXPORT_HEADERS.map (fun h => mapGet HEADER_ALIASES (normalizeHeader refPlatform h.2))
      = [some Field.serverName, none, some Field.purpose, some Field.os, some Field.status,
         some Field.allocatedDate, some Field.surrenderedDate, some Field.category,
         some Field.owner, some Field.backupType, some Field.backupFrequency,
         some Field.remarks, some Field.additionalRemarks]
    ∧ normalizeHeader refPlatform "ServerIP" = "serverip"
    ∧ mapGet HEADER_ALIASES (normalizeHeader refPlatform "ServerIP") = none
    ∧ lookupAlias (normalizeHeader refPlatform "ServerIP") = none
    ∧ (initialData.map (fun s => (rowToRecord refPlatform (exportRow s)).ip)) = ["", ""]
    ∧ (initialData.map (fun s => mapGet (validate refPlatform (rowToRecord refPlatform
        (exportRow s))) "ip")) = [some "Server IP is required.", some "Server IP is required."] := by
  refine ⟨by decide, by decide, by decide, by decide, by decide, by decide⟩

/-! ## Manual upsert -/

theorem findIdx?_split {α : Type} (p : α → Bool) (l : List α) :
    (l.findIdx? p = none ∧ ∀ x ∈ l, p x = false)
    ∨ (∃ pre old post, l = pre ++ old :: post ∧ (∀ x ∈ pre, p x = false) ∧ p old = true
        ∧ l.findIdx? p = some pre.length) := by
  induction l with
  | nil => exact Or.inl ⟨rfl, by simp⟩
  | cons x xs ih =>
    cases hx : p x with
    | true =>
      exact Or.inr ⟨[], x, xs, rfl, by simp, hx, by simp [List.findIdx?_cons, hx]⟩
    | false =>
      have hstep : (x :: xs).findIdx? p = (xs.findIdx? p).map (fun i => i + 1) := by
        rw [List.findIdx?_cons, hx]
        simp only [Bool.false_eq_true, if_false, Nat.zero_add]
        exact List.findIdx?_succ
      rcases ih with ⟨h1, h2⟩ | ⟨pre, old, post, h1, h2, h3, h4⟩
      · left
        refine ⟨by rw [hstep, h1]; rfl, ?_⟩
        intro y hy
        rcases List.mem_cons.mp hy with h | h
        · rw [h]; exact hx
        · exact h2 y h
      · right
        refine ⟨x :: pre, old, post, by rw [h1]; rfl, ?_, h3, by rw [hstep, h4]; rfl⟩
        intro y hy
        rcases List.mem_cons.mp hy with h | h
        · rw [h]; exact hx
        · exact h2 y h

theorem set_append_length {α : Type} (pre : List α) (old : α) (post : List α) (a : α) :
    (pre ++ old :: post).set pre.length a = pre ++ a :: post := by
  induction pre with
  | nil => rfl
  | cons x pre ih => simp [List.set, ih]

theorem upsertServer_cases (P : Platform) (record : Record) (prev : List Record) :
    ((∀ x ∈ prev, keyOf P x ≠ keyOf P record) ∧ upsertServer P record prev = record :: prev)
    ∨ (∃ pre old post, prev = pre ++ old :: post ∧ (∀ x ∈ pre, keyOf P x ≠ keyOf P record)
        ∧ keyOf P old = keyOf P record ∧ upsertServer P record prev = pre ++ record :: post) := by
  rcases findIdx?_split (fun x => keyOf P x == keyOf P record) prev with
    ⟨h1, h2⟩ | ⟨pre, old, post, h1, h2, h3, h4⟩
  · left
    refine ⟨fun x hx => by simpa using h2 x hx, ?_⟩
    simp only [upsertServer, h1]
  · right
    refine ⟨pre, old, post, h1, fun x hx => by simpa using h2 x hx, by simpa using h3, ?_⟩
    simp only [upsertServer, h4]
    rw [h1, set_append_length]

/-- C16. Manual upsert rule: when some record of the set has the same trimmed
lower-cased `serverName` as the new record, `upsertServer` returns the set with
the first such record replaced in place by the new record (the set is
`pre ++ old :: post` with no record of `pre` having the key, and the result is
`pre ++ record :: post`: same length, same position, the other records
unchanged and in the same order); otherwise it returns the new record followed
by the old set. -/
theorem upsertServer_rule (P : Platform) (record : Record) (prev : List Record) :
    ((∃ x ∈ prev, keyOf P x = keyOf P record) →
      ∃ pre old post, prev = pre ++ old :: post ∧ (∀ x ∈ pre, keyOf P x ≠ keyOf P record)
        ∧ keyOf P old = keyOf P record ∧ upsertServer P record prev = pre ++ record :: post
        ∧ (upsertServer P record prev).length = prev.length)
    ∧ ((∀ x ∈ prev, keyOf P x ≠ keyOf P record) → upsertServer P record prev = record :: prev) := by
  constructor
  · rintro ⟨x, hx, hk⟩
    rcases upsertServer_cases P record prev with ⟨h1, _⟩ | ⟨pre, old, post, h1, h2, h3, h4⟩
    · exact absurd hk (h1 x hx)
    · refine ⟨pre, old, post, h1, h2, h3, h4, ?_⟩
      rw [h4, h1]
      simp
  · intro hall
    rcases upsertServer_cases P record prev with ⟨_, h2⟩ | ⟨pre, old, post, h1, _, h3, _⟩
    · exact h2
    · exact absurd h3 (hall old (by rw [h1]; simp))

/-- Witness of C16 on the reference platform: upserting a record named `SRV-B`
into the set `srv-a`, `srv-b`, `srv-c` replaces the second record in place;
upserting a record named `srv-d` puts it in front. -/
theorem upsertServer_rule_witness :
    (∃ x ∈ [sampleRecord "srv-a" "10.0.0.1" "p" "o" "2025-01-01",
            sampleRecord "srv-b" "10.0.0.2" "p" "o" "2025-01-01",
            sampleRecord "srv-c" "10.0.0.3" "p" "o" "2025-01-01"],
        keyOf refPlatform x = keyOf refPlatform (sampleRecord "SRV-B" "10.0.0.9" "q" "o" "2025-02-02"))
    ∧ upsertServer refPlatform (sampleRecord "SRV-B" "10.0.0.9" "q" "o" "2025-02-02")
        [sampleRecord "srv-a" "10.0.0.1" "p" "o" "2025-01-01",
         sampleRecord "srv-b" "10.0.0.2" "p" "o" "2025-01-01",
         sampleRecord "srv-c" "10.0.0.3" "p" "o" "2025-01-01"]
      = [sampleRecord "srv-a" "10.0.0.1" "p" "o" "2025-01-01",
         sampleRecord "SRV-B" "10.0.0.9" "q" "o" "2025-02-02",
         sampleRecord "srv-c" "10.0.0.3" "p" "o" "2025-01-01"]
    ∧ upsertServer refPlatform (sampleRecord "srv-d" "10.0.0.4" "p" "o" "2025-01-01")
        [sampleRecord "srv-a" "10.0.0.1" "p" "o" "2025-01-01"]
      = [sampleRecord "srv-d" "10.0.0.4" "p" "o" "2025-01-01",
         sampleRecord "srv-a" "10.0.0.1" "p" "o" "2025-01-01"] :=
  ⟨by decide, by decide,
    (upsertServer_rule refPlatform (sampleRecord "srv-d" "10.0.0.4" "p" "o" "2025-01-01")
      [sampleRecord "srv-a" "10.0.0.1" "p" "o" "2025-01-01"]).2 (by decide)⟩

/-! ## Enum coercion -/

theorem find?_append_cons_of_first {α : Type} (p : α → Bool) (pre : List α) (hit : α)
    (post : List α) (hpre : ∀ x ∈ pre, p x = false) (hhit : p hit = true) :
    (pre ++ hit :: post).find? p = some hit := by
  induction pre with
  | nil => simp [List.find?, hhit]
  | cons x pre ih =>
    have hx : p x = false := hpre x (List.mem_cons_self _ _)
    simp only [List.cons_append, List.find?, hx]
    exact ih (fun y hy => hpre y (List.mem_cons_of_mem _ hy))

theorem asciiLower_eq_empty (s : String) (h : asciiLower s = asciiLower "") : s = "" := by
  have h2 : (asciiLower s).data = [] := by rw [h]; rfl
  simp only [asciiLower, List.map_eq_nil_iff] at h2
  cases s with
  | mk d =>
    simp only at h2
    rw [h2]

/-- C14. Enum coercion, on a platform where only the empty string lower-cases
to the lower-casing of the empty string: `pickFromOptions` returns the fallback
when the trimmed value is empty; otherwise it returns the first allowed value
whose lower-casing equals that of the trimmed value, in the allowed value's own
casing, when there is one, and the fallback when there is none; so its result
is the fallback or an allowed value equal to the trimmed value ignoring case,
never a partial match. -/
theorem pickFromOptions_rule (P : Platform)
    (hP : ∀ s, P.toLowerCase s = P.toLowerCase "" → s = "")
    (value : String) (options : List String) (fallback : String) :
    (jsTrim value = "" → pickFromOptions P value options fallback = fallback)
    ∧ (jsTrim value ≠ "" → ∀ pre hit post, options = pre ++ hit :: post →
        (∀ x ∈ pre, P.toLowerCase x ≠ P.toLowerCase (jsTrim value)) →
        P.toLowerCase hit = P.toLowerCase (jsTrim value) →
        pickFromOptions P value options fallback = hit)
    ∧ (jsTrim value ≠ "" → (∀ x ∈ options, P.toLowerCase x ≠ P.toLowerCase (jsTrim value)) →
        pickFromOptions P value options fallback = fallback)
    ∧ (pickFromOptions P value options fallback = fallback
        ∨ (pickFromOptions P value options fallback ∈ options
            ∧ P.toLowerCase (pickFromOptions P value options fallback)
                = P.toLowerCase (jsTrim value))) := by
  refine ⟨?_, ?_, ?_, ?_⟩
  · intro h
    simp [pickFromOptions, h]
  · intro hne pre hit post hopt hpre hhit
    have hfind : options.find? (fun x => P.toLowerCase x == P.toLowerCase (jsTrim value))
        = some hit := by
      rw [hopt]
      apply find?_append_cons_of_first
      · intro x hx
        simpa using hpre x hx
      · simpa using hhit
    have hhne : hit ≠ "" := by
      intro h0
      apply hne
      apply hP
      rw [← hhit, h0]
    simp [pickFromOptions, hne, hfind, hhne]
  · intro hne hall
    have hfind : options.find? (fun x => P.toLowerCase x == P.toLowerCase (jsTrim value))
        = none := by
      rw [List.find?_eq_none]
      intro x hx
      simpa using hall x hx
    simp [pickFromOptions, hne, hfind]
  · unfold pickFromOptions
    simp only
    split
    · exact Or.inl rfl
    · split
      · rename_i hit hfind
        split
        · exact Or.inl rfl
        · right
          have hmem := List.mem_of_find?_eq_some hfind
          have hp := List.find?_some hfind
          exact ⟨hmem, by simpa using hp⟩
      · exact Or.inl rfl

/-- Witness of C14 on the reference platform: `active` is coerced to the allowed
value `Active`, `bogus` and the empty string to the fallback. -/
theorem pickFromOptions_rule_witness :
    (∀ s, refPlatform.toLowerCase s = refPlatform.toLowerCase "" → s = "")
    ∧ pickFromOptions refPlatform "active" ["Active", "Decommissioned"] "Active" = "Active"
    ∧ pickFromOptions refPlatform "bogus" ["Active", "Decommissioned"] "Active" = "Active"
    ∧ pickFromOptions refPlatform "" ["Active", "Decommissioned"] "Active" = "Active" :=
  ⟨asciiLower_eq_empty,
    (pickFromOptions_rule refPlatform asciiLower_eq_empty "active" ["Active", "Decommissioned"]
      "Active").2.1 (by decide) [] "Active" ["Decommissioned"] rfl (by simp) (by decide),
    (pickFromOptions_rule refPlatform asciiLower_eq_empty "bogus" ["Active", "Decommissioned"]
      "Active").2.2.1 (by decide) (by decide),
    (pickFromOptions_rule refPlatform asciiLower_eq_empty "" ["Active", "Decommissioned"]
      "Active").1 (by decide)⟩

/-! ## The invariant of the store -/

theorem storeInvariant_upsertServer (P : Platform) (record : Record) (servers : List Record)
    (hinv : StoreInvariant P servers) (hname : jsTrim record.serverName ≠ "") :
    StoreInvariant P (upsertServer P record servers) := by
  obtain ⟨hne, hnd⟩ := hinv
  rcases upsertServer_cases P record servers with ⟨h1, h2⟩ | ⟨pre, old, post, h1, _, h3, h4⟩
  · rw [h2]
    refine ⟨?_, ?_⟩
    · intro s hs
      rcases List.mem_cons.mp hs with h | h
      · rw [h]; exact hname
      · exact hne s h
    · rw [List.map_cons, List.nodup_cons]
      refine ⟨?_, hnd⟩
      intro hmem
      obtain ⟨x, hx, hk⟩ := List.mem_map.mp hmem
      exact h1 x hx hk
  · rw [h4]
    refine ⟨?_, ?_⟩
    · intro s hs
      rcases List.mem_append.mp hs with h | h
      · exact hne s (by rw [h1]; exact List.mem_append_left _ h)
      · rcases List.mem_cons.mp h with h | h
        · rw [h]; exact hname
        · exact hne s (by rw [h1]; exact List.mem_append_right _ (List.mem_cons_of_mem _ h))
    · have hkeys : (pre ++ record :: post).map (keyOf P) = servers.map (keyOf P) := by
        rw [h1]
        simp only [List.map_append, List.map_cons, h3]
      rw [hkeys]
      exact hnd

theorem name_of_validate_nil (P : Platform) (r : Record) (h : validate P r = []) :
    jsTrim r.serverName ≠ "" := by
  have h2 := (validate_eq_nil_iff P r).mp h
  exact h2.2.2.2.2.2.2.2.2.2.2.1

theorem storeInvariant_onSubmit (P : Platform) (form : Record) (servers : List Record)
    (hinv : StoreInvariant P servers) : StoreInvariant P (onSubmit P form servers) := by
  simp only [onSubmit]
  split
  · exact hinv
  · rename_i h
    have hv : validate P form = [] := by
      rw [← objectKeys_length_eq_zero]
      exact Decidable.not_not.mp h
    exact storeInvariant_upsertServer P form servers hinv (name_of_validate_nil P form hv)

theorem storeInvariant_onImportExcel (P : Platform) (rows : List RawRow) (servers : List Record)
    (hinv : StoreInvariant P servers) : StoreInvariant P (onImportExcel P servers rows).1 := by
  by_cases hv : validRecords P rows = []
  · rw [onImportExcel_unchanged P servers rows hv]
    exact hinv
  · rw [onImportExcel_merged P servers rows hv]
    simp only
    refine ⟨?_, mergeServers_keys_nodup P _ servers⟩
    intro s hs
    rw [(mergeServers_perm P _ servers).mem_iff] at hs
    simp only [mapValues, List.mem_map] at hs
    obtain ⟨e, he, rfl⟩ := hs
    rcases mem_mapSetAll [] _ e he with h | h
    · obtain ⟨t, ht, rfl⟩ := List.mem_map.mp h
      rcases List.mem_append.mp ht with h2 | h2
      · exact hinv.1 t h2
      · obtain ⟨r, _, hrv, rfl⟩ := (mem_validRecords P rows t).mp h2
        exact name_of_validate_nil P _ hrv
    · simp at h

theorem storeInvariant_atDate (P : Platform) (y : Int) (m d : Nat) (servers : List Record) :
    StoreInvariant (P.atDate y m d) servers ↔ StoreInvariant P servers := Iff.rfl

theorem storeInvariant_stepEvent (P : Platform) (servers : List Record) (e : Event)
    (hinv : StoreInvariant P servers) : StoreInvariant P (stepEvent P servers e) := by
  unfold stepEvent
  split
  · exact (storeInvariant_atDate P _ _ _ _).mp
      (storeInvariant_onSubmit _ _ servers ((storeInvariant_atDate P _ _ _ _).mpr hinv))
  · exact (storeInvariant_atDate P _ _ _ _).mp
      (storeInvariant_onImportExcel _ _ servers ((storeInvariant_atDate P _ _ _ _).mpr hinv))
  · exact ⟨by simp [clearAllRecords], by simp [clearAllRecords]⟩

/-- C17. Store invariant: from any set that satisfies the invariant, after any
sequence of manual submissions, spreadsheet imports and clear-all (each at its
own reading of the clock), every record of the set has a `serverName` that is
non-empty after trim and no two records have the same trimmed lower-cased
`serverName`; and the built-in `initialData` satisfies the invariant on every
platform whose `toLowerCase` tells its two names apart. -/
theorem store_invariant (P : Platform) :
    (∀ (servers : List Record) (events : List Event),
      StoreInvariant P servers → StoreInvariant P (runEvents P servers events))
    ∧ (P.toLowerCase "PRD-CRM-APP-01" ≠ P.toLowerCase "PRD-CRM-DB-01" →
        StoreInvariant P initialData) := by
  constructor
  · intro servers events
    induction events generalizing servers with
    | nil => exact fun h => h
    | cons e events ih =>
      intro hinv
      exact ih (stepEvent P servers e) (storeInvariant_stepEvent P servers e hinv)
  · intro hP
    have h1 : jsTrim "PRD-CRM-APP-01" = "PRD-CRM-APP-01" := by decide
    have h2 : jsTrim "PRD-CRM-DB-01" = "PRD-CRM-DB-01" := by decide
    refine ⟨?_, ?_⟩
    · intro s hs
      simp only [initialData, List.mem_cons, List.mem_singleton, List.not_mem_nil, or_false] at hs
      rcases hs with h | h
      · rw [h]; simp only [h1]; decide
      · rw [h]; simp only [h2]; decide
    · simp only [initialData, List.map_cons, List.map_nil, keyOf, h1, h2, List.nodup_cons,
        List.mem_singleton, List.not_mem_nil, not_false_eq_true, List.nodup_nil, and_true]
      exact hP

/-- Witness of C17 on the reference platform: from `initialData`, a submission
of a valid form that renames nothing, an import with a valid and an invalid
row, and a submission of the empty form leave a set that satisfies the
invariant. -/
theorem store_invariant_witness :
    refPlatform.toLowerCase "PRD-CRM-APP-01" ≠ refPlatform.toLowerCase "PRD-CRM-DB-01"
    ∧ StoreInvariant refPlatform (runEvents refPlatform initialData
        [⟨2026, 10, 4, Action.submit (sampleRecord "prd-crm-app-01" "10.0.0.1" "p" "o" "2025-01-01")⟩,
         ⟨2026, 10, 5, Action.importExcel [sampleRow "srv-a" "10.0.0.1" "p" "o" "2025-01-01",
            sampleRow "srv-c" "" "p" "o" "2025-01-01"]⟩,
         ⟨2026, 10, 6, Action.submit emptyForm⟩]) :=
  ⟨by decide,
    (store_invariant refPlatform).1 initialData _ ((store_invariant refPlatform).2 (by decide))⟩

/-! ## IPv4 syntax -/

theorem char_eq_of_toNat (c d : Char) (h : c.toNat = d.toNat) : c = d := by
  rw [← Char.ofNat_toNat c, ← Char.ofNat_toNat d, h]

theorem run_cls_iff (p : Char → Bool) (s : List Char) (k : List Char → Bool) :
    (RE.cls p).run s k = true ↔ ∃ c t, s = c :: t ∧ p c = true ∧ k t = true := by
  cases s with
  | nil => simp [RE.run]
  | cons c t =>
    simp only [RE.run, Bool.and_eq_true, List.cons.injEq]
    constructor
    · rintro ⟨h1, h2⟩
      exact ⟨c, t, ⟨rfl, rfl⟩, h1, h2⟩
    · rintro ⟨c1, t1, ⟨rfl, rfl⟩, h1, h2⟩
      exact ⟨h1, h2⟩

theorem run_seq (a b : RE) (s : List Char) (k : List Char → Bool) :
    (RE.seq a b).run s k = a.run s (fun t => b.run t k) := rfl

theorem run_alt_iff (a b : RE) (s : List Char) (k : List Char → Bool) :
    (RE.alt a b).run s k = true ↔ a.run s k = true ∨ b.run s k = true := by
  simp [RE.run]

theorem run_eps (s : List Char) (k : List Char → Bool) : RE.eps.run s k = k s := rfl

theorem run_chr_iff (d : Char) (s : List Char) (k : List Char → Bool) :
    (RE.chr d).run s k = true ↔ ∃ t, s = d :: t ∧ k t = true := by
  rw [RE.chr, run_cls_iff]
  constructor
  · rintro ⟨c, t, rfl, hc, hk⟩
    simp only [beq_iff_eq] at hc
    exact ⟨t, by rw [hc], hk⟩
  · rintro ⟨t, rfl, hk⟩
    exact ⟨d, t, rfl, by simp, hk⟩

theorem run_range_iff (lo hi : Char) (s : List Char) (k : List Char → Bool) :
    (RE.range lo hi).run s k = true
      ↔ ∃ c t, s = c :: t ∧ (lo.toNat ≤ c.toNat ∧ c.toNat ≤ hi.toNat) ∧ k t = true := by
  rw [RE.range, run_cls_iff]
  simp only [Bool.and_eq_true, decide_eq_true_eq]

theorem run_digit_iff (s : List Char) (k : List Char → Bool) :
    RE.digit.run s k = true ↔ ∃ c t, s = c :: t ∧ isDecimalDigit c = true ∧ k t = true := by
  rw [RE.digit, run_range_iff]
  simp only [isDecimalDigit, Bool.and_eq_true, decide_eq_true_eq]
  rfl

theorem run_octet_iff_shapes (s : List Char) (k : List Char → Bool) :
    reOctet.run s k = true ↔
      (∃ c t, s = '2' :: '5' :: c :: t ∧ (48 ≤ c.toNat ∧ c.toNat ≤ 53) ∧ k t = true)
      ∨ (∃ b c t, s = '2' :: b :: c :: t ∧ (48 ≤ b.toNat ∧ b.toNat ≤ 52)
          ∧ isDecimalDigit c = true ∧ k t = true)
      ∨ (∃ b c t, s = '1' :: b :: c :: t ∧ isDecimalDigit b = true
          ∧ isDecimalDigit c = true ∧ k t = true)
      ∨ (∃ a b t, s = a :: b :: t ∧ (49 ≤ a.toNat ∧ a.toNat ≤ 57)
          ∧ isDecimalDigit b = true ∧ k t = true)
      ∨ (∃ a t, s = a :: t ∧ isDecimalDigit a = true ∧ k t = true) := by
  simp only [reOctet, RE.opt, run_alt_iff, run_seq, run_chr_iff, run_range_iff, run_digit_iff,
    run_eps]
  constructor
  · rintro (⟨t1, rfl, t2, rfl, c, t, rfl, hc, hk⟩ | ⟨t1, rfl, b, t2, rfl, hb, c, t, rfl, hc, hk⟩
      | ⟨t1, rfl, b, t2, rfl, hb, c, t, rfl, hc, hk⟩ | ⟨a, t1, rfl, ha, b, t, rfl, hb, hk⟩
      | ⟨a, t, rfl, ha, hk⟩)
    · exact Or.inl ⟨c, t, rfl, hc, hk⟩
    · exact Or.inr (Or.inl ⟨b, c, t, rfl, hb, hc, hk⟩)
    · exact Or.inr (Or.inr (Or.inl ⟨b, c, t, rfl, hb, hc, hk⟩))
    · exact Or.inr (Or.inr (Or.inr (Or.inl ⟨a, b, t, rfl, ha, hb, hk⟩)))
    · exact Or.inr (Or.inr (Or.inr (Or.inr ⟨a, t, rfl, ha, hk⟩)))
  · rintro (⟨c, t, rfl, hc, hk⟩ | ⟨b, c, t, rfl, hb, hc, hk⟩ | ⟨b, c, t, rfl, hb, hc, hk⟩
      | ⟨a, b, t, rfl, ha, hb, hk⟩ | ⟨a, t, rfl, ha, hk⟩)
    · exact Or.inl ⟨_, rfl, _, rfl, c, t, rfl, hc, hk⟩
    · exact Or.inr (Or.inl ⟨_, rfl, b, _, rfl, hb, c, t, rfl, hc, hk⟩)
    · exact Or.inr (Or.inr (Or.inl ⟨_, rfl, b, _, rfl, hb, c, t, rfl, hc, hk⟩))
    · exact Or.inr (Or.inr (Or.inr (Or.inl ⟨a, _, rfl, ha, b, t, rfl, hb, hk⟩)))
    · exact Or.inr (Or.inr (Or.inr (Or.inr ⟨a, t, rfl, ha, hk⟩)))

theorem decimal_foldl_ge (l : List Char) (acc : Nat) :
    acc ≤ l.foldl (fun acc c => 10 * acc + (c.toNat - 48)) acc := by
  induction l generalizing acc with
  | nil => exact Nat.le_refl _
  | cons c l ih =>
    simp only [List.foldl_cons]
    exact Nat.le_trans (by omega) (ih _)

theorem isDecimalDigit_iff (c : Char) : isDecimalDigit c = true ↔ 48 ≤ c.toNat ∧ c.toNat ≤ 57 := by
  simp [isDecimalDigit]

theorem isOctetText_iff_shapes (o : List Char) :
    isOctetText o = true ↔
      (∃ c, o = ['2', '5', c] ∧ (48 ≤ c.toNat ∧ c.toNat ≤ 53))
      ∨ (∃ b c, o = ['2', b, c] ∧ (48 ≤ b.toNat ∧ b.toNat ≤ 52) ∧ isDecimalDigit c = true)
      ∨ (∃ b c, o = ['1', b, c] ∧ isDecimalDigit b = true ∧ isDecimalDigit c = true)
      ∨ (∃ a b, o = [a, b] ∧ (49 ≤ a.toNat ∧ a.toNat ≤ 57) ∧ isDecimalDigit b = true)
      ∨ (∃ a, o = [a] ∧ isDecimalDigit a = true) := by
  have h0 : ('0' : Char).toNat = 48 := rfl
  have h1 : ('1' : Char).toNat = 49 := rfl
  have h2 : ('2' : Char).toNat = 50 := rfl
  have h5 : ('5' : Char).toNat = 53 := rfl
  constructor
  · intro h
    simp only [isOctetText, Bool.and_eq_true, Bool.not_eq_true', List.all_eq_true,
      Bool.or_eq_true, beq_iff_eq, bne_iff_ne, ne_eq, decide_eq_true_eq] at h
    obtain ⟨⟨⟨hne, hall⟩, hlead⟩, hval⟩ := h
    match o, hne, hall, hlead, hval with
    | [], hne, _, _, _ => simp at hne
    | [a], _, hall, _, _ =>
      exact Or.inr (Or.inr (Or.inr (Or.inr ⟨a, rfl, hall a (by simp)⟩)))
    | [a, b], _, hall, hlead, _ =>
      have ha := (isDecimalDigit_iff a).mp (hall a (by simp))
      have hb := hall b (by simp)
      have hna : a.toNat ≠ 48 := by
        intro h48
        have : a = '0' := char_eq_of_toNat a '0' (by rw [h48, h0])
        rcases hlead with hl | hl
        · simp at hl
        · exact hl (by simp [this])
      exact Or.inr (Or.inr (Or.inr (Or.inl ⟨a, b, rfl, ⟨by omega, ha.2⟩, hb⟩)))
    | [a, b, c], _, hall, hlead, hval =>
      have ha := (isDecimalDigit_iff a).mp (hall a (by simp))
      have hb := (isDecimalDigit_iff b).mp (hall b (by simp))
      have hc := (isDecimalDigit_iff c).mp (hall c (by simp))
      have hna : a.toNat ≠ 48 := by
        intro h48
        have : a = '0' := char_eq_of_toNat a '0' (by rw [h48, h0])
        rcases hlead with hl | hl
        · simp at hl
        · exact hl (by simp [this])
      simp only [decimalValue, List.foldl_cons, List.foldl_nil] at hval
      by_cases ha1 : a.toNat = 49
      · have : a = '1' := char_eq_of_toNat a '1' (by rw [ha1, h1])
        subst this
        exact Or.inr (Or.inr (Or.inl ⟨b, c, rfl, (isDecimalDigit_iff b).mpr hb,
          (isDecimalDigit_iff c).mpr hc⟩))
      · have ha2 : a.toNat = 50 := by omega
        have : a = '2' := char_eq_of_toNat a '2' (by rw [ha2, h2])
        subst this
        by_cases hb5 : b.toNat = 53
        · have : b = '5' := char_eq_of_toNat b '5' (by rw [hb5, h5])
          subst this
          exact Or.inl ⟨c, rfl, ⟨hc.1, by omega⟩⟩
        · exact Or.inr (Or.inl ⟨b, c, rfl, ⟨hb.1, by omega⟩, (isDecimalDigit_iff c).mpr hc⟩)
    | a :: b :: c :: d :: rest, _, hall, hlead, hval =>
      exfalso
      have ha := (isDecimalDigit_iff a).mp (hall a (by simp))
      have hna : a.toNat ≠ 48 := by
        intro h48
        have : a = '0' := char_eq_of_toNat a '0' (by rw [h48, h0])
        rcases hlead with hl | hl
        · simp at hl
        · exact hl (by simp [this])
      simp only [decimalValue, List.foldl_cons] at hval
      have hge := decimal_foldl_ge rest
        (10 * (10 * (10 * (10 * 0 + (a.toNat - 48)) + (b.toNat - 48)) + (c.toNat - 48))
          + (d.toNat - 48))
      omega
  · rintro (⟨c, rfl, hc⟩ | ⟨b, c, rfl, hb, hc⟩ | ⟨b, c, rfl, hb, hc⟩ | ⟨a, b, rfl, ha, hb⟩
      | ⟨a, rfl, ha⟩)
    · simp only [isOctetText, decimalValue, isDecimalDigit_iff, Bool.and_eq_true,
        Bool.not_eq_true', List.all_eq_true, Bool.or_eq_true, beq_iff_eq, bne_iff_ne, ne_eq,
        decide_eq_true_eq, List.foldl_cons, List.foldl_nil, List.mem_cons, List.mem_singleton,
        List.not_mem_nil, or_false, forall_eq_or_imp, forall_eq, h2, h5]
      refine ⟨⟨⟨by simp, by omega⟩, Or.inr (by simp)⟩, by omega⟩
    · rw [isDecimalDigit_iff] at hc
      simp only [isOctetText, decimalValue, isDecimalDigit_iff, Bool.and_eq_true,
        Bool.not_eq_true', List.all_eq_true, Bool.or_eq_true, beq_iff_eq, bne_iff_ne, ne_eq,
        decide_eq_true_eq, List.foldl_cons, List.foldl_nil, List.mem_cons, List.mem_singleton,
        List.not_mem_nil, or_false, forall_eq_or_imp, forall_eq, h2]
      refine ⟨⟨⟨by simp, by omega⟩, Or.inr (by simp)⟩, by omega⟩
    · rw [isDecimalDigit_iff] at hb hc
      simp only [isOctetText, decimalValue, isDecimalDigit_iff, Bool.and_eq_true,
        Bool.not_eq_true', List.all_eq_true, Bool.or_eq_true, beq_iff_eq, bne_iff_ne, ne_eq,
        decide_eq_true_eq, List.foldl_cons, List.foldl_nil, List.mem_cons, List.mem_singleton,
        List.not_mem_nil, or_false, forall_eq_or_imp, forall_eq, h1]
      refine ⟨⟨⟨by simp, by omega⟩, Or.inr (by simp)⟩, by omega⟩
    · rw [isDecimalDigit_iff] at hb
      simp only [isOctetText, decimalValue, isDecimalDigit_iff, Bool.and_eq_true,
        Bool.not_eq_true', List.all_eq_true, Bool.or_eq_true, beq_iff_eq, bne_iff_ne, ne_eq,
        decide_eq_true_eq, List.foldl_cons, List.foldl_nil, List.mem_cons, List.mem_singleton,
        List.not_mem_nil, or_false, forall_eq_or_imp, forall_eq]
      refine ⟨⟨⟨by simp, by omega⟩, Or.inr ?_⟩, by omega⟩
      simp only [List.head?_cons, Option.some.injEq]
      intro h
      rw [h, h0] at ha
      omega
    · rw [isDecimalDigit_iff] at ha
      simp only [isOctetText, decimalValue, isDecimalDigit_iff, Bool.and_eq_true,
        Bool.not_eq_true', List.all_eq_true, Bool.or_eq_true, beq_iff_eq, bne_iff_ne, ne_eq,
        decide_eq_true_eq, List.foldl_cons, List.foldl_nil, List.mem_cons, List.mem_singleton,
        List.not_mem_nil, or_false, forall_eq_or_imp, forall_eq]
      refine ⟨⟨⟨by simp, by omega⟩, Or.inl (by simp)⟩, by omega⟩

theorem run_octet_iff (s : List Char) (k : List Char → Bool) :
    reOctet.run s k = true ↔ ∃ o t, s = o ++ t ∧ isOctetText o = true ∧ k t = true := by
  rw [run_octet_iff_shapes]
  constructor
  · rintro (⟨c, t, rfl, hc, hk⟩ | ⟨b, c, t, rfl, hb, hc, hk⟩ | ⟨b, c, t, rfl, hb, hc, hk⟩
      | ⟨a, b, t, rfl, ha, hb, hk⟩ | ⟨a, t, rfl, ha, hk⟩)
    · exact ⟨['2', '5', c], t, rfl, (isOctetText_iff_shapes _).mpr (Or.inl ⟨c, rfl, hc⟩), hk⟩
    · exact ⟨['2', b, c], t, rfl,
        (isOctetText_iff_shapes _).mpr (Or.inr (Or.inl ⟨b, c, rfl, hb, hc⟩)), hk⟩
    · exact ⟨['1', b, c], t, rfl,
        (isOctetText_iff_shapes _).mpr (Or.inr (Or.inr (Or.inl ⟨b, c, rfl, hb, hc⟩))), hk⟩
    · exact ⟨[a, b], t, rfl,
        (isOctetText_iff_shapes _).mpr (Or.inr (Or.inr (Or.inr (Or.inl ⟨a, b, rfl, ha, hb⟩)))), hk⟩
    · exact ⟨[a], t, rfl,
        (isOctetText_iff_shapes _).mpr (Or.inr (Or.inr (Or.inr (Or.inr ⟨a, rfl, ha⟩)))), hk⟩
  · rintro ⟨o, t, rfl, ho, hk⟩
    rcases (isOctetText_iff_shapes o).mp ho with ⟨c, rfl, hc⟩ | ⟨b, c, rfl, hb, hc⟩
      | ⟨b, c, rfl, hb, hc⟩ | ⟨a, b, rfl, ha, hb⟩ | ⟨a, rfl, ha⟩
    · exact Or.inl ⟨c, t, rfl, hc, hk⟩
    · exact Or.inr (Or.inl ⟨b, c, t, rfl, hb, hc, hk⟩)
    · exact Or.inr (Or.inr (Or.inl ⟨b, c, t, rfl, hb, hc, hk⟩))
    · exact Or.inr (Or.inr (Or.inr (Or.inl ⟨a, b, t, rfl, ha, hb, hk⟩)))
    · exact Or.inr (Or.inr (Or.inr (Or.inr ⟨a, t, rfl, ha, hk⟩)))

theorem run_dotOctet_iff (s : List Char) (k : List Char → Bool) :
    reDotOctet.run s k = true ↔ ∃ o t, s = '.' :: (o ++ t) ∧ isOctetText o = true ∧ k t = true := by
  rw [reDotOctet, run_seq, run_chr_iff]
  constructor
  · rintro ⟨t1, rfl, h⟩
    obtain ⟨o, t, rfl, ho, hk⟩ := (run_octet_iff _ _).mp h
    exact ⟨o, t, rfl, ho, hk⟩
  · rintro ⟨o, t, rfl, ho, hk⟩
    exact ⟨o ++ t, rfl, (run_octet_iff _ _).mpr ⟨o, t, rfl, ho, hk⟩⟩

theorem run_ipv4_iff (s : List Char) :
    reIPv4.run s List.isEmpty = true ↔
      ∃ a b c d, s = a ++ '.' :: (b ++ '.' :: (c ++ '.' :: d))
        ∧ isOctetText a = true ∧ isOctetText b = true ∧ isOctetText c = true
        ∧ isOctetText d = true := by
  simp only [reIPv4, run_seq]
  constructor
  · intro h
    obtain ⟨a, t1, rfl, ha, h⟩ := (run_octet_iff _ _).mp h
    obtain ⟨b, t2, rfl, hb, h⟩ := (run_dotOctet_iff _ _).mp h
    obtain ⟨c, t3, rfl, hc, h⟩ := (run_dotOctet_iff _ _).mp h
    obtain ⟨d, t4, rfl, hd, h⟩ := (run_dotOctet_iff _ _).mp h
    have : t4 = [] := by simpa using h
    subst this
    exact ⟨a, b, c, d, by simp, ha, hb, hc, hd⟩
  · rintro ⟨a, b, c, d, rfl, ha, hb, hc, hd⟩
    refine (run_octet_iff _ _).mpr ⟨a, _, rfl, ha, ?_⟩
    refine (run_dotOctet_iff _ _).mpr ⟨b, _, rfl, hb, ?_⟩
    refine (run_dotOctet_iff _ _).mpr ⟨c, _, rfl, hc, ?_⟩
    exact (run_dotOctet_iff _ _).mpr ⟨d, [], by simp, hd, rfl⟩

theorem splitOnDot_ne_nil (s : List Char) : splitOnDot s ≠ [] := by
  cases s with
  | nil => simp [splitOnDot]
  | cons c s =>
    simp only [splitOnDot]
    split
    · simp
    · split <;> simp

theorem joinDots_splitOnDot (s : List Char) : joinDots (splitOnDot s) = s := by
  induction s with
  | nil => rfl
  | cons c s ih =>
    simp only [splitOnDot]
    split
    · rename_i hc
      have hc2 : c = '.' := by simpa using hc
      cases hs : splitOnDot s with
      | nil => exact absurd hs (splitOnDot_ne_nil s)
      | cons g gs =>
        rw [hs] at ih
        simp only [joinDots, List.nil_append, ih, hc2]
    · cases hs : splitOnDot s with
      | nil => exact absurd hs (splitOnDot_ne_nil s)
      | cons g gs =>
        rw [hs] at ih
        simp only
        cases gs with
        | nil =>
          simp only [joinDots] at ih ⊢
          rw [ih]
        | cons g2 gs =>
          simp only [joinDots] at ih ⊢
          rw [← ih]
          rfl

theorem splitOnDot_of_no_dot (o : List Char) (h : ∀ c ∈ o, c ≠ '.') : splitOnDot o = [o] := by
  induction o with
  | nil => rfl
  | cons c o ih =>
    have hc : (c == '.') = false := by simpa using h c (List.mem_cons_self _ _)
    simp only [splitOnDot, hc, Bool.false_eq_true, if_false,
      ih (fun x hx => h x (List.mem_cons_of_mem _ hx))]

theorem splitOnDot_append_dot (o rest : List Char) (h : ∀ c ∈ o, c ≠ '.') :
    splitOnDot (o ++ '.' :: rest) = o :: splitOnDot rest := by
  induction o with
  | nil => simp [splitOnDot]
  | cons c o ih =>
    have hc : (c == '.') = false := by simpa using h c (List.mem_cons_self _ _)
    have ih2 := ih (fun x hx => h x (List.mem_cons_of_mem _ hx))
    show splitOnDot (c :: (o ++ '.' :: rest)) = (c :: o) :: splitOnDot rest
    simp only [splitOnDot, hc, Bool.false_eq_true, if_false, ih2]

theorem no_dot_of_isOctetText (o : List Char) (h : isOctetText o = true) : ∀ c ∈ o, c ≠ '.' := by
  intro c hc hdot
  simp only [isOctetText, Bool.and_eq_true, List.all_eq_true] at h
  have hd := (isDecimalDigit_iff c).mp (h.1.1.2 c hc)
  rw [hdot] at hd
  have : ('.' : Char).toNat = 46 := rfl
  omega

theorem isDottedQuad_iff (s : List Char) :
    isDottedQuad s = true ↔
      ∃ a b c d, s = a ++ '.' :: (b ++ '.' :: (c ++ '.' :: d))
        ∧ isOctetText a = true ∧ isOctetText b = true ∧ isOctetText c = true
        ∧ isOctetText d = true := by
  constructor
  · intro h
    have hj := joinDots_splitOnDot s
    unfold isDottedQuad at h
    split at h
    · rename_i a b c d hs
      rw [hs] at hj
      simp only [Bool.and_eq_true] at h
      exact ⟨a, b, c, d, hj.symm, h.1.1.1, h.1.1.2, h.1.2, h.2⟩
    · exact absurd h (by simp)
  · rintro ⟨a, b, c, d, rfl, ha, hb, hc, hd⟩
    have hs : splitOnDot (a ++ '.' :: (b ++ '.' :: (c ++ '.' :: d))) = [a, b, c, d] := by
      rw [splitOnDot_append_dot _ _ (no_dot_of_isOctetText a ha),
        splitOnDot_append_dot _ _ (no_dot_of_isOctetText b hb),
        splitOnDot_append_dot _ _ (no_dot_of_isOctetText c hc),
        splitOnDot_of_no_dot _ (no_dot_of_isOctetText d hd)]
    simp only [isDottedQuad, hs, ha, hb, hc, hd, Bool.and_self]

/-- C11. IPv4 syntax: for every string `s`, `isValidIPv4(s)` is true exactly when
`s`, after trimming, consists of four decimal numbers separated by single dots,
each in the range 0 to 255 and written without a leading zero; `10.20.5.14` is
accepted and `256.1.1.1`, `1.2.3`, `01.2.3.4`, `1.2.3.4.5` are rejected. -/
theorem isValidIPv4_iff_dotted_quad :
    (∀ s : String, isValidIPv4 s = isDottedQuad (jsTrim s).data)
    ∧ isValidIPv4 "10.20.5.14" = true
    ∧ isValidIPv4 "256.1.1.1" = false
    ∧ isValidIPv4 "1.2.3" = false
    ∧ isValidIPv4 "01.2.3.4" = false
    ∧ isValidIPv4 "1.2.3.4.5" = false := by
  refine ⟨?_, by decide, by decide, by decide, by decide, by decide⟩
  intro s
  rw [Bool.eq_iff_iff, isDottedQuad_iff, isValidIPv4, RE.testFull, run_ipv4_iff]

/-! ## Dates -/

theorem dropWhile_append_of_all {α : Type} (p : α → Bool) (ws : List α) (c : α) (t : List α)
    (hws : ∀ x ∈ ws, p x = true) (hc : p c = false) :
    (ws ++ c :: t).dropWhile p = c :: t := by
  induction ws with
  | nil => simp [List.dropWhile, hc]
  | cons x ws ih =>
    simp only [List.cons_append, List.dropWhile, hws x (List.mem_cons_self _ _)]
    exact ih (fun y hy => hws y (List.mem_cons_of_mem _ hy))

theorem trimChars_surrounded (ws1 ws2 core : List Char) (c1 c2 : Char) (mid1 mid2 : List Char)
    (hws1 : ∀ x ∈ ws1, isJsWhiteSpace x = true) (hws2 : ∀ x ∈ ws2, isJsWhiteSpace x = true)
    (hfirst : core = c1 :: mid1) (hlast : core = mid2 ++ [c2])
    (h1 : isJsWhiteSpace c1 = false) (h2 : isJsWhiteSpace c2 = false) :
    trimChars (ws1 ++ core ++ ws2) = core := by
  have hleft : (ws1 ++ core ++ ws2).dropWhile isJsWhiteSpace = core ++ ws2 := by
    rw [List.append_assoc, hfirst, List.cons_append]
    exact dropWhile_append_of_all _ ws1 c1 _ hws1 h1
  have hright : (core ++ ws2).reverse.dropWhile isJsWhiteSpace = core.reverse := by
    rw [List.reverse_append]
    conv_lhs => rw [hlast]
    rw [List.reverse_append, List.reverse_singleton, List.singleton_append]
    rw [dropWhile_append_of_all _ ws2.reverse c2 _ (fun x hx => hws2 x (List.mem_reverse.mp hx)) h2]
    rw [hlast, List.reverse_append, List.reverse_singleton, List.singleton_append]
  rw [trimChars, hleft, hright, List.reverse_reverse]

theorem digit_not_whiteSpace (c : Char) (h : isDecimalDigit c = true) :
    isJsWhiteSpace c = false := by
  rw [isDecimalDigit_iff] at h
  simp only [isJsWhiteSpace, beq_iff_eq, Bool.or_eq_false_iff, Bool.and_eq_false_imp,
    decide_eq_true_eq, decide_eq_false_iff_not, beq_eq_false_iff_ne, ne_eq]
  refine ⟨⟨⟨⟨⟨⟨⟨⟨⟨⟨⟨⟨⟨⟨?_, ?_⟩, ?_⟩, ?_⟩, ?_⟩, ?_⟩, ?_⟩, ?_⟩, ?_⟩, ?_⟩, ?_⟩, ?_⟩, ?_⟩, ?_⟩, ?_⟩ <;>
    omega

theorem digit_not_sep (c : Char) (h : isDecimalDigit c = true) :
    (c == '/' || c == '-') = false := by
  rw [isDecimalDigit_iff] at h
  rw [Bool.or_eq_false_iff]
  constructor
  · rw [beq_eq_false_iff_ne]
    intro hc
    rw [hc] at h
    have : ('/' : Char).toNat = 47 := rfl
    omega
  · rw [beq_eq_false_iff_ne]
    intro hc
    rw [hc] at h
    have : ('-' : Char).toNat = 45 := rfl
    omega

theorem splitDate_ne_nil (s : List Char) : splitDate s ≠ [] := by
  cases s with
  | nil => simp [splitDate]
  | cons c s =>
    simp only [splitDate]
    split
    · simp
    · split <;> simp

theorem splitDate_of_digits (g : List Char) (h : isDigits g = true) : splitDate g = [g] := by
  induction g with
  | nil => rfl
  | cons c g ih =>
    simp only [isDigits, List.all_cons, Bool.and_eq_true] at h
    have hc := digit_not_sep c h.1
    have ih2 := ih (by simpa [isDigits] using h.2)
    simp only [splitDate, hc, Bool.false_eq_true, if_false, ih2]

theorem splitDate_append_sep (g rest : List Char) (sep : Char) (h : isDigits g = true)
    (hsep : (sep == '/' || sep == '-') = true) :
    splitDate (g ++ sep :: rest) = g :: splitDate rest := by
  induction g with
  | nil => simp [splitDate, hsep]
  | cons c g ih =>
    simp only [isDigits, List.all_cons, Bool.and_eq_true] at h
    have hc := digit_not_sep c h.1
    have ih2 := ih (by simpa [isDigits] using h.2)
    show splitDate (c :: (g ++ sep :: rest)) = (c :: g) :: splitDate rest
    simp only [splitDate, hc, Bool.false_eq_true, if_false, ih2]

theorem splitDate_three (g1 g2 g3 : List Char) (s1 s2 : Char) (h1 : isDigits g1 = true)
    (h2 : isDigits g2 = true) (h3 : isDigits g3 = true)
    (hs1 : (s1 == '/' || s1 == '-') = true) (hs2 : (s2 == '/' || s2 == '-') = true) :
    splitDate (g1 ++ s1 :: (g2 ++ s2 :: g3)) = [g1, g2, g3] := by
  rw [splitDate_append_sep g1 _ s1 h1 hs1, splitDate_append_sep g2 _ s2 h2 hs2,
    splitDate_of_digits g3 h3]

theorem run_dateSep_iff (s : List Char) (k : List Char → Bool) :
    RE.dateSep.run s k = true ↔ ∃ c t, s = c :: t ∧ (c == '/' || c == '-') = true ∧ k t = true := by
  rw [RE.dateSep, run_cls_iff]

theorem run_digits12_iff (s : List Char) (k : List Char → Bool) :
    reDigits12.run s k = true ↔
      ∃ g t, s = g ++ t ∧ isDigits g = true ∧ (g.length = 1 ∨ g.length = 2) ∧ k t = true := by
  simp only [reDigits12, RE.opt, run_seq, run_alt_iff, run_digit_iff, run_eps]
  constructor
  · rintro ⟨a, t1, rfl, ha, h⟩
    rcases h with ⟨b, t, rfl, hb, hk⟩ | hk
    · exact ⟨[a, b], t, rfl, by simp [isDigits, ha, hb], Or.inr rfl, hk⟩
    · exact ⟨[a], t1, rfl, by simp [isDigits, ha], Or.inl rfl, hk⟩
  · rintro ⟨g, t, rfl, hg, hlen, hk⟩
    match g, hg, hlen with
    | [a], hg, _ =>
      simp only [isDigits, List.all_cons, List.all_nil, Bool.and_true] at hg
      exact ⟨a, t, rfl, hg, Or.inr hk⟩
    | [a, b], hg, _ =>
      simp only [isDigits, List.all_cons, List.all_nil, Bool.and_true, Bool.and_eq_true] at hg
      exact ⟨a, b :: t, rfl, hg.1, Or.inl ⟨b, t, rfl, hg.2, hk⟩⟩
    | [], _, hlen => simp at hlen
    | _ :: _ :: _ :: _, _, hlen => simp at hlen

theorem run_digits4_iff (s : List Char) (k : List Char → Bool) :
    reDigits4.run s k = true ↔
      ∃ g t, s = g ++ t ∧ isDigits g = true ∧ g.length = 4 ∧ k t = true := by
  simp only [reDigits4, run_seq, run_digit_iff]
  constructor
  · rintro ⟨a, t1, rfl, ha, b, t2, rfl, hb, c, t3, rfl, hc, d, t, rfl, hd, hk⟩
    exact ⟨[a, b, c, d], t, rfl, by simp [isDigits, ha, hb, hc, hd], rfl, hk⟩
  · rintro ⟨g, t, rfl, hg, hlen, hk⟩
    match g, hg, hlen with
    | [a, b, c, d], hg, _ =>
      simp only [isDigits, List.all_cons, List.all_nil, Bool.and_true, Bool.and_eq_true] at hg
      exact ⟨a, _, rfl, hg.1, b, _, rfl, hg.2.1, c, _, rfl, hg.2.2.1, d, t, rfl, hg.2.2.2, hk⟩
    | [], _, hlen => simp at hlen
    | [_], _, hlen => simp at hlen
    | [_, _], _, hlen => simp at hlen
    | [_, _, _], _, hlen => simp at hlen
    | _ :: _ :: _ :: _ :: _ :: _, _, hlen => simp at hlen

theorem run_dayFirst_iff (s : List Char) :
    reDayFirst.run s List.isEmpty = true ↔
      ∃ g1 s1 g2 s2 g3, s = g1 ++ s1 :: (g2 ++ s2 :: g3)
        ∧ (isDigits g1 = true ∧ (g1.length = 1 ∨ g1.length = 2))
        ∧ (s1 == '/' || s1 == '-') = true
        ∧ (isDigits g2 = true ∧ (g2.length = 1 ∨ g2.length = 2))
        ∧ (s2 == '/' || s2 == '-') = true
        ∧ (isDigits g3 = true ∧ g3.length = 4) := by
  simp only [reDayFirst, run_seq]
  constructor
  · intro h
    obtain ⟨g1, t1, rfl, hg1, hl1, h⟩ := (run_digits12_iff _ _).mp h
    obtain ⟨s1, t2, rfl, hs1, h⟩ := (run_dateSep_iff _ _).mp h
    obtain ⟨g2, t3, rfl, hg2, hl2, h⟩ := (run_digits12_iff _ _).mp h
    obtain ⟨s2, t4, rfl, hs2, h⟩ := (run_dateSep_iff _ _).mp h
    obtain ⟨g3, t5, rfl, hg3, hl3, h⟩ := (run_digits4_iff _ _).mp h
    have : t5 = [] := by simpa using h
    subst this
    exact ⟨g1, s1, g2, s2, g3, by simp, ⟨hg1, hl1⟩, hs1, ⟨hg2, hl2⟩, hs2, ⟨hg3, hl3⟩⟩
  · rintro ⟨g1, s1, g2, s2, g3, rfl, ⟨hg1, hl1⟩, hs1, ⟨hg2, hl2⟩, hs2, ⟨hg3, hl3⟩⟩
    refine (run_digits12_iff _ _).mpr ⟨g1, _, rfl, hg1, hl1, ?_⟩
    refine (run_dateSep_iff _ _).mpr ⟨s1, _, rfl, hs1, ?_⟩
    refine (run_digits12_iff _ _).mpr ⟨g2, _, rfl, hg2, hl2, ?_⟩
    refine (run_dateSep_iff _ _).mpr ⟨s2, _, rfl, hs2, ?_⟩
    exact (run_digits4_iff _ _).mpr ⟨g3, [], by simp, hg3, hl3, rfl⟩

theorem run_yearFirst_iff (s : List Char) :
    reYearFirst.run s List.isEmpty = true ↔
      ∃ g1 s1 g2 s2 g3, s = g1 ++ s1 :: (g2 ++ s2 :: g3)
        ∧ (isDigits g1 = true ∧ g1.length = 4)
        ∧ (s1 == '/' || s1 == '-') = true
        ∧ (isDigits g2 = true ∧ (g2.length = 1 ∨ g2.length = 2))
        ∧ (s2 == '/' || s2 == '-') = true
        ∧ (isDigits g3 = true ∧ (g3.length = 1 ∨ g3.length = 2)) := by
  simp only [reYearFirst, run_seq]
  constructor
  · intro h
    obtain ⟨g1, t1, rfl, hg1, hl1, h⟩ := (run_digits4_iff _ _).mp h
    obtain ⟨s1, t2, rfl, hs1, h⟩ := (run_dateSep_iff _ _).mp h
    obtain ⟨g2, t3, rfl, hg2, hl2, h⟩ := (run_digits12_iff _ _).mp h
    obtain ⟨s2, t4, rfl, hs2, h⟩ := (run_dateSep_iff _ _).mp h
    obtain ⟨g3, t5, rfl, hg3, hl3, h⟩ := (run_digits12_iff _ _).mp h
    have : t5 = [] := by simpa using h
    subst this
    exact ⟨g1, s1, g2, s2, g3, by simp, ⟨hg1, hl1⟩, hs1, ⟨hg2, hl2⟩, hs2, ⟨hg3, hl3⟩⟩
  · rintro ⟨g1, s1, g2, s2, g3, rfl, ⟨hg1, hl1⟩, hs1, ⟨hg2, hl2⟩, hs2, ⟨hg3, hl3⟩⟩
    refine (run_digits4_iff _ _).mpr ⟨g1, _, rfl, hg1, hl1, ?_⟩
    refine (run_dateSep_iff _ _).mpr ⟨s1, _, rfl, hs1, ?_⟩
    refine (run_digits12_iff _ _).mpr ⟨g2, _, rfl, hg2, hl2, ?_⟩
    refine (run_dateSep_iff _ _).mpr ⟨s2, _, rfl, hs2, ?_⟩
    exact (run_digits12_iff _ _).mpr ⟨g3, [], by simp, hg3, hl3, rfl⟩

theorem run_isoStart_iff (s : List Char) :
    reIsoStart.run s (fun _ => true) = true ↔
      ∃ a b c d e f g i rest, s = a :: b :: c :: d :: '-' :: e :: f :: '-' :: g :: i :: rest
        ∧ isDecimalDigit a = true ∧ isDecimalDigit b = true ∧ isDecimalDigit c = true
        ∧ isDecimalDigit d = true ∧ isDecimalDigit e = true ∧ isDecimalDigit f = true
        ∧ isDecimalDigit g = true ∧ isDecimalDigit i = true := by
  simp only [reIsoStart, reDigits4, run_seq, run_digit_iff, run_chr_iff]
  constructor
  · rintro ⟨a, _, rfl, ha, b, _, rfl, hb, c, _, rfl, hc, d, _, rfl, hd, _, rfl, e, _, rfl, he,
      f, _, rfl, hf, _, rfl, g, _, rfl, hg, i, rest, rfl, hi, _⟩
    exact ⟨a, b, c, d, e, f, g, i, rest, rfl, ha, hb, hc, hd, he, hf, hg, hi⟩
  · rintro ⟨a, b, c, d, e, f, g, i, rest, rfl, ha, hb, hc, hd, he, hf, hg, hi⟩
    exact ⟨a, _, rfl, ha, b, _, rfl, hb, c, _, rfl, hc, d, _, rfl, hd, _, rfl, e, _, rfl, he,
      f, _, rfl, hf, _, rfl, g, _, rfl, hg, i, rest, rfl, hi, trivial⟩

theorem codeUnitsOf_digits_length (g : List Char) (h : isDigits g = true) :
    (codeUnitsOf g).length = g.length := by
  induction g with
  | nil => rfl
  | cons c g ih =>
    simp only [isDigits, List.all_cons, Bool.and_eq_true] at h
    have hc := (isDecimalDigit_iff c).mp h.1
    have hu : utf16Units c = [c.toNat] := by
      simp only [utf16Units]
      rw [if_pos (by omega)]
    simp only [codeUnitsOf, hu, List.singleton_append, List.length_cons,
      ih (by simpa [isDigits] using h.2)]

theorem padStart2_digits (g : List Char) (h : isDigits g = true) :
    padStart2 ⟨g⟩ = ⟨zeroPad2 g⟩ := by
  simp only [padStart2, zeroPad2, codeUnits, codeUnitsOf_digits_length g h]

theorem string_append_mk (a b : List Char) : (⟨a⟩ : String) ++ ⟨b⟩ = ⟨a ++ b⟩ := rfl

theorem hyphen_mk : ("-" : String) = ⟨['-']⟩ := rfl

theorem not_dayFirst_of_four_digits (g1 rest : List Char) (h : isDigits g1 = true)
    (hlen : g1.length = 4) : reDayFirst.run (g1 ++ rest) List.isEmpty = false := by
  rw [← Bool.not_eq_true, run_dayFirst_iff]
  rintro ⟨h1, s1, h2, s2, h3, heq, ⟨_, hl1⟩, hs1, _⟩
  match g1, h, hlen with
  | [a, b, c, d], h, _ =>
    simp only [isDigits, List.all_cons, List.all_nil, Bool.and_true, Bool.and_eq_true] at h
    match h1, hl1 with
    | [x], _ =>
      simp only [List.cons_append, List.nil_append, List.cons.injEq] at heq
      have := digit_not_sep b h.2.1
      rw [heq.2.1, hs1] at this
      exact Bool.noConfusion this
    | [x, y], _ =>
      simp only [List.cons_append, List.nil_append, List.cons.injEq] at heq
      have := digit_not_sep c h.2.2.1
      rw [heq.2.2.1, hs1] at this
      exact Bool.noConfusion this
    | [], hl1 => simp at hl1
    | _ :: _ :: _ :: _, hl1 => simp at hl1

theorem toISODateText_dayFirst (str : String) (g1 g2 g3 : List Char) (s1 s2 : Char)
    (hs : jsTrim str = ⟨g1 ++ s1 :: (g2 ++ s2 :: g3)⟩)
    (h1 : isDigits g1 = true ∧ (g1.length = 1 ∨ g1.length = 2))
    (hs1 : (s1 == '/' || s1 == '-') = true)
    (h2 : isDigits g2 = true ∧ (g2.length = 1 ∨ g2.length = 2))
    (hs2 : (s2 == '/' || s2 == '-') = true)
    (h3 : isDigits g3 = true ∧ g3.length = 4) :
    toISODateText str = ⟨g3 ++ '-' :: (zeroPad2 g2 ++ '-' :: zeroPad2 g1)⟩ := by
  have htest : reDayFirst.testFull ⟨g1 ++ s1 :: (g2 ++ s2 :: g3)⟩ = true :=
    (run_dayFirst_iff _).mpr ⟨g1, s1, g2, s2, g3, rfl, h1, hs1, h2, hs2, h3⟩
  simp only [toISODateText, hs, htest, if_true, splitDate_three g1 g2 g3 s1 s2 h1.1 h2.1 h3.1 hs1 hs2,
    padStart2_digits g1 h1.1, padStart2_digits g2 h2.1, hyphen_mk, string_append_mk,
    List.append_assoc, List.singleton_append, List.cons_append, List.nil_append]

theorem toISODateText_yearFirst (str : String) (g1 g2 g3 : List Char) (s1 s2 : Char)
    (hs : jsTrim str = ⟨g1 ++ s1 :: (g2 ++ s2 :: g3)⟩)
    (h1 : isDigits g1 = true ∧ g1.length = 4)
    (hs1 : (s1 == '/' || s1 == '-') = true)
    (h2 : isDigits g2 = true ∧ (g2.length = 1 ∨ g2.length = 2))
    (hs2 : (s2 == '/' || s2 == '-') = true)
    (h3 : isDigits g3 = true ∧ (g3.length = 1 ∨ g3.length = 2)) :
    toISODateText str = ⟨g1 ++ '-' :: (zeroPad2 g2 ++ '-' :: zeroPad2 g3)⟩ := by
  have hno : reDayFirst.testFull ⟨g1 ++ s1 :: (g2 ++ s2 :: g3)⟩ = false :=
    not_dayFirst_of_four_digits g1 _ h1.1 h1.2
  have htest : reYearFirst.testFull ⟨g1 ++ s1 :: (g2 ++ s2 :: g3)⟩ = true :=
    (run_yearFirst_iff _).mpr ⟨g1, s1, g2, s2, g3, rfl, h1, hs1, h2, hs2, h3⟩
  simp only [toISODateText, hs, hno, htest, if_true, Bool.false_eq_true, if_false,
    splitDate_three g1 g2 g3 s1 s2 h1.1 h2.1 h3.1 hs1 hs2,
    padStart2_digits g2 h2.1, padStart2_digits g3 h3.1, hyphen_mk, string_append_mk,
    List.append_assoc, List.singleton_append, List.cons_append, List.nil_append]

theorem zeroPad2_shape (g : List Char) (h : isDigits g = true) (hlen : g.length = 1 ∨ g.length = 2) :
    ∃ x y, zeroPad2 g = [x, y] ∧ isDecimalDigit x = true ∧ isDecimalDigit y = true := by
  match g, h, hlen with
  | [a], h, _ =>
    simp only [isDigits, List.all_cons, List.all_nil, Bool.and_true] at h
    exact ⟨'0', a, rfl, by decide, h⟩
  | [a, b], h, _ =>
    simp only [isDigits, List.all_cons, List.all_nil, Bool.and_true, Bool.and_eq_true] at h
    exact ⟨a, b, rfl, h.1, h.2⟩
  | [], _, hlen => simp at hlen
  | _ :: _ :: _ :: _, _, hlen => simp at hlen

theorem isIsoDateShape_of_parts (y m d : List Char) (hy : isDigits y = true ∧ y.length = 4)
    (hm : isDigits m = true ∧ (m.length = 1 ∨ m.length = 2))
    (hd : isDigits d = true ∧ (d.length = 1 ∨ d.length = 2)) :
    isIsoDateShape ⟨y ++ '-' :: (zeroPad2 m ++ '-' :: zeroPad2 d)⟩ = true := by
  obtain ⟨m1, m2, hme, hm1, hm2⟩ := zeroPad2_shape m hm.1 hm.2
  obtain ⟨d1, d2, hde, hd1, hd2⟩ := zeroPad2_shape d hd.1 hd.2
  match y, hy with
  | [a, b, c, e], hy =>
    simp only [isDigits, List.all_cons, List.all_nil, Bool.and_true, Bool.and_eq_true] at hy
    simp [isIsoDateShape, hme, hde, hy.1.1, hy.1.2.1, hy.1.2.2.1, hy.1.2.2.2, hm1, hm2, hd1, hd2]
  | [], hy => simp at hy
  | [_], hy => simp at hy
  | [_, _], hy => simp at hy
  | [_, _, _], hy => simp at hy
  | _ :: _ :: _ :: _ :: _ :: _, hy => simp at hy

theorem isIsoDateShape_iff (s : String) :
    isIsoDateShape s = true ↔
      ∃ a b c d e f g i, s = ⟨[a, b, c, d, '-', e, f, '-', g, i]⟩
        ∧ isDecimalDigit a = true ∧ isDecimalDigit b = true ∧ isDecimalDigit c = true
        ∧ isDecimalDigit d = true ∧ isDecimalDigit e = true ∧ isDecimalDigit f = true
        ∧ isDecimalDigit g = true ∧ isDecimalDigit i = true := by
  constructor
  · intro h
    unfold isIsoDateShape at h
    split at h
    · rename_i a b c d h1 e f h2 g i hs
      simp only [Bool.and_eq_true, beq_iff_eq] at h
      obtain ⟨⟨⟨⟨⟨⟨⟨⟨⟨ha, hb⟩, hc⟩, hd⟩, hh1⟩, he⟩, hf⟩, hh2⟩, hg⟩, hi⟩ := h
      subst hh1 hh2
      refine ⟨a, b, c, d, e, f, g, i, ?_, ha, hb, hc, hd, he, hf, hg, hi⟩
      cases s with
      | mk l =>
        simp only at hs
        rw [hs]
    · exact absurd h (by simp)
  · rintro ⟨a, b, c, d, e, f, g, i, rfl, ha, hb, hc, hd, he, hf, hg, hi⟩
    simp [isIsoDateShape, ha, hb, hc, hd, he, hf, hg, hi]

theorem toISODateText_of_isoShape (s : String) (h : isIsoDateShape s = true) :
    toISODateText s = s ∧ s ≠ "" := by
  obtain ⟨a, b, c, d, e, f, g, i, rfl, ha, hb, hc, hd, he, hf, hg, hi⟩ :=
    (isIsoDateShape_iff s).mp h
  have htrim : jsTrim ⟨[a, b, c, d, '-', e, f, '-', g, i]⟩
      = ⟨[a, b, c, d] ++ '-' :: ([e, f] ++ '-' :: [g, i])⟩ := by
    have := trimChars_surrounded [] [] [a, b, c, d, '-', e, f, '-', g, i] a i
      [b, c, d, '-', e, f, '-', g, i] [a, b, c, d, '-', e, f, '-', g] (by simp) (by simp) rfl rfl
      (digit_not_whiteSpace a ha) (digit_not_whiteSpace i hi)
    simp only [List.nil_append, List.append_nil] at this
    simp only [jsTrim, this]
    rfl
  constructor
  · have := toISODateText_yearFirst _ [a, b, c, d] [e, f] [g, i] '-' '-' htrim
      ⟨by simp [isDigits, ha, hb, hc, hd], rfl⟩ (by decide)
      ⟨by simp [isDigits, he, hf], Or.inr rfl⟩ (by decide)
      ⟨by simp [isDigits, hg, hi], Or.inr rfl⟩
    rw [this]
    rfl
  · intro h0
    have := congrArg String.data h0
    simp at this

theorem sep_cases (c : Char) (h : c = '/' ∨ c = '-') : (c == '/' || c == '-') = true := by
  rcases h with rfl | rfl <;> decide

/-- C13. Text dates are reformatted to ISO: a text made of a day of one or two
digits, a month of one or two digits and a year of four digits, separated by
`/` or `-` and optionally surrounded by white space, is converted by
`toISODate` to year, hyphen, month, hyphen, day, the first number read as the
day, with month and day left-padded with `0` to two digits; a text made of a
four-digit year, a month and a day in that order is converted likewise.
`toISODate("01/12/2025")` is `2025-12-01`. -/
theorem toISODate_text_forms :
    (∀ (ws1 ws2 d m y : List Char) (s1 s2 : Char),
      (∀ c ∈ ws1, isJsWhiteSpace c = true) → (∀ c ∈ ws2, isJsWhiteSpace c = true) →
      isDigits d = true → (d.length = 1 ∨ d.length = 2) →
      isDigits m = true → (m.length = 1 ∨ m.length = 2) →
      isDigits y = true → y.length = 4 →
      (s1 = '/' ∨ s1 = '-') → (s2 = '/' ∨ s2 = '-') →
      toISODate (Cell.text ⟨ws1 ++ (d ++ s1 :: (m ++ s2 :: y)) ++ ws2⟩)
          = ⟨y ++ '-' :: (zeroPad2 m ++ '-' :: zeroPad2 d)⟩
      ∧ toISODate (Cell.text ⟨ws1 ++ (y ++ s1 :: (m ++ s2 :: d)) ++ ws2⟩)
          = ⟨y ++ '-' :: (zeroPad2 m ++ '-' :: zeroPad2 d)⟩)
    ∧ toISODate (Cell.text "01/12/2025") = "2025-12-01" := by
  refine ⟨?_, by decide⟩
  intro ws1 ws2 d m y s1 s2 hws1 hws2 hd hdl hm hml hy hyl hs1 hs2
  have hsep1 := sep_cases s1 hs1
  have hsep2 := sep_cases s2 hs2
  have hhead : ∀ (g rest : List Char), isDigits g = true → 1 ≤ g.length →
      ∃ c mid, g ++ rest = c :: mid ∧ isJsWhiteSpace c = false := by
    intro g rest hg hl
    match g, hg, hl with
    | c :: g2, hg, _ =>
      simp only [isDigits, List.all_cons, Bool.and_eq_true] at hg
      exact ⟨c, g2 ++ rest, rfl, digit_not_whiteSpace c hg.1⟩
    | [], _, hl => simp at hl
  have hlast : ∀ (pre g : List Char), isDigits g = true → 1 ≤ g.length →
      ∃ c mid, pre ++ g = mid ++ [c] ∧ isJsWhiteSpace c = false := by
    intro pre g hg hl
    have hne : g ≠ [] := by
      intro h0
      rw [h0] at hl
      simp at hl
    refine ⟨g.getLast hne, pre ++ g.dropLast, ?_, ?_⟩
    · rw [List.append_assoc, List.dropLast_append_getLast]
    · apply digit_not_whiteSpace
      simp only [isDigits, List.all_eq_true] at hg
      exact hg _ (List.getLast_mem hne)
  have hne_text : ∀ (core : List Char) (c : Char) (mid : List Char), core = c :: mid →
      (⟨ws1 ++ core ++ ws2⟩ : String) ≠ "" := by
    intro core c mid hc h0
    have := congrArg String.data h0
    rw [hc] at this
    simp at this
  constructor
  · obtain ⟨c1, mid1, hf, hc1⟩ := hhead d (s1 :: (m ++ s2 :: y)) hd (by omega)
    obtain ⟨c2, mid2, hl, hc2⟩ := hlast (d ++ s1 :: (m ++ [s2])) y hy (by omega)
    have hl2 : d ++ s1 :: (m ++ s2 :: y) = mid2 ++ [c2] := by
      rw [← hl]; simp
    have htrim : jsTrim ⟨ws1 ++ (d ++ s1 :: (m ++ s2 :: y)) ++ ws2⟩
        = ⟨d ++ s1 :: (m ++ s2 :: y)⟩ := by
      simp only [jsTrim, trimChars_surrounded ws1 ws2 _ c1 c2 mid1 mid2 hws1 hws2 hf hl2 hc1 hc2]
    simp only [toISODate, hne_text _ c1 mid1 hf, if_false]
    exact toISODateText_dayFirst _ d m y s1 s2 htrim ⟨hd, hdl⟩ hsep1 ⟨hm, hml⟩ hsep2 ⟨hy, hyl⟩
  · obtain ⟨c1, mid1, hf, hc1⟩ := hhead y (s1 :: (m ++ s2 :: d)) hy (by omega)
    obtain ⟨c2, mid2, hl, hc2⟩ := hlast (y ++ s1 :: (m ++ [s2])) d hd (by omega)
    have hl2 : y ++ s1 :: (m ++ s2 :: d) = mid2 ++ [c2] := by
      rw [← hl]; simp
    have htrim : jsTrim ⟨ws1 ++ (y ++ s1 :: (m ++ s2 :: d)) ++ ws2⟩
        = ⟨y ++ s1 :: (m ++ s2 :: d)⟩ := by
      simp only [jsTrim, trimChars_surrounded ws1 ws2 _ c1 c2 mid1 mid2 hws1 hws2 hf hl2 hc1 hc2]
    simp only [toISODate, hne_text _ c1 mid1 hf, if_false]
    exact toISODateText_yearFirst _ y m d s1 s2 htrim ⟨hy, hyl⟩ hsep1 ⟨hm, hml⟩ hsep2 ⟨hd, hdl⟩

/-- Witness of C13: the text `  1-2/2025 ` with day `1`, month `2` and year
`2025` is converted to `2025-02-01`, and so is ` 2025/2-1`. -/
theorem toISODate_text_forms_witness :
    toISODate (Cell.text "  1-2/2025 ") = "2025-02-01"
    ∧ toISODate (Cell.text " 2025/2-1") = "2025-02-01" :=
  ⟨(toISODate_text_forms.1 [' ', ' '] [' '] ['1'] ['2'] ['2', '0', '2', '5'] '-' '/'
      (by decide) (by decide) (by decide) (by decide) (by decide) (by decide) (by decide)
      (by decide) (by decide) (by decide)).1,
    (toISODate_text_forms.1 [' '] [] ['1'] ['2'] ['2', '0', '2', '5'] '/' '-'
      (by decide) (by decide) (by decide) (by decide) (by decide) (by decide) (by decide)
      (by decide) (by decide) (by decide)).2⟩

theorem digitChar_isDecimalDigit : ∀ n, n < 10 → isDecimalDigit (Nat.digitChar n) = true := by
  decide

theorem toDigits_four (y : Nat) (h1 : 1000 ≤ y) (h2 : y ≤ 9999) :
    Nat.toDigits 10 y = [Nat.digitChar (y / 1000), Nat.digitChar (y / 100 % 10),
      Nat.digitChar (y / 10 % 10), Nat.digitChar (y % 10)] := by
  obtain ⟨k, hk⟩ : ∃ k, y + 1 = k + 1 + 1 + 1 + 1 := ⟨y - 3, by omega⟩
  have e1 : ¬ y / 10 = 0 := by omega
  have e2 : ¬ y / 10 / 10 = 0 := by omega
  have e3 : ¬ y / 10 / 10 / 10 = 0 := by omega
  have e4 : y / 10 / 10 / 10 / 10 = 0 := by omega
  have f1 : y / 10 / 10 / 10 % 10 = y / 1000 := by omega
  have f2 : y / 10 / 10 % 10 = y / 100 % 10 := by omega
  show Nat.toDigitsCore 10 (y + 1) y [] = _
  rw [hk]
  simp only [Nat.toDigitsCore, e1, e2, e3, e4, if_false, if_true, f1, f2]

theorem toDigits_one (m : Nat) (h : m < 10) : Nat.toDigits 10 m = [Nat.digitChar m] := by
  have e1 : m / 10 = 0 := by omega
  have f1 : m % 10 = m := by omega
  simp only [Nat.toDigits, Nat.toDigitsCore, e1, if_true, f1]

theorem toDigits_two (m : Nat) (h1 : 10 ≤ m) (h2 : m ≤ 99) :
    Nat.toDigits 10 m = [Nat.digitChar (m / 10), Nat.digitChar (m % 10)] := by
  obtain ⟨k, hk⟩ : ∃ k, m + 1 = k + 1 + 1 := ⟨m - 1, by omega⟩
  have e1 : ¬ m / 10 = 0 := by omega
  have e2 : m / 10 / 10 = 0 := by omega
  have f1 : m / 10 % 10 = m / 10 := by omega
  show Nat.toDigitsCore 10 (m + 1) m [] = _
  rw [hk]
  simp only [Nat.toDigitsCore, e1, e2, if_false, if_true, f1]

theorem toDigits_two_digits (m : Nat) (h : m ≤ 99) :
    isDigits (Nat.toDigits 10 m) = true
      ∧ ((Nat.toDigits 10 m).length = 1 ∨ (Nat.toDigits 10 m).length = 2) := by
  by_cases h10 : m < 10
  · rw [toDigits_one m h10]
    exact ⟨by simp [isDigits, digitChar_isDecimalDigit m h10], Or.inl rfl⟩
  · rw [toDigits_two m (by omega) h]
    exact ⟨by simp [isDigits, digitChar_isDecimalDigit (m / 10) (by omega),
      digitChar_isDecimalDigit (m % 10) (by omega)], Or.inr rfl⟩

theorem toDigits_four_digits (y : Nat) (h1 : 1000 ≤ y) (h2 : y ≤ 9999) :
    isDigits (Nat.toDigits 10 y) = true ∧ (Nat.toDigits 10 y).length = 4 := by
  rw [toDigits_four y h1 h2]
  exact ⟨by simp [isDigits, digitChar_isDecimalDigit (y / 1000) (by omega),
    digitChar_isDecimalDigit (y / 100 % 10) (by omega),
    digitChar_isDecimalDigit (y / 10 % 10) (by omega),
    digitChar_isDecimalDigit (y % 10) (by omega)], rfl⟩

theorem dateCode_text_isoShape (y m d : Nat) (hy1 : 1000 ≤ y) (hy2 : y ≤ 9999) (hm : m ≤ 99)
    (hd : d ≤ 99) :
    isIsoDateShape (natToString y ++ "-" ++ padStart2 (natToString m) ++ "-"
      ++ padStart2 (natToString d)) = true := by
  have h4 := toDigits_four_digits y hy1 hy2
  have hm2 := toDigits_two_digits m hm
  have hd2 := toDigits_two_digits d hd
  have := isIsoDateShape_of_parts _ _ _ h4 hm2 hd2
  simp only [natToString, padStart2_digits _ hm2.1, padStart2_digits _ hd2.1, hyphen_mk,
    string_append_mk, List.append_assoc, List.singleton_append, List.cons_append, List.nil_append]
  exact this

theorem toISODateText_cases (str : String) :
    isIsoDateShape (toISODateText str) = true
    ∨ (toISODateText str = jsTrim str ∧ reDayFirst.testFull (jsTrim str) = false
        ∧ reYearFirst.testFull (jsTrim str) = false
        ∧ reIsoStart.testStart (jsTrim str) = false) := by
  cases hday : reDayFirst.testFull (jsTrim str) with
  | true =>
    left
    obtain ⟨g1, s1, g2, s2, g3, hs, h1, hs1, h2, hs2, h3⟩ := (run_dayFirst_iff _).mp hday
    have hs2e : jsTrim str = ⟨g1 ++ s1 :: (g2 ++ s2 :: g3)⟩ := by rw [← hs]
    rw [toISODateText_dayFirst str g1 g2 g3 s1 s2 hs2e h1 hs1 h2 hs2 h3]
    exact isIsoDateShape_of_parts g3 g2 g1 h3 h2 h1
  | false =>
    cases hyear : reYearFirst.testFull (jsTrim str) with
    | true =>
      left
      obtain ⟨g1, s1, g2, s2, g3, hs, h1, hs1, h2, hs2, h3⟩ := (run_yearFirst_iff _).mp hyear
      have hs2e : jsTrim str = ⟨g1 ++ s1 :: (g2 ++ s2 :: g3)⟩ := by rw [← hs]
      rw [toISODateText_yearFirst str g1 g2 g3 s1 s2 hs2e h1 hs1 h2 hs2 h3]
      exact isIsoDateShape_of_parts g1 g2 g3 h1 h2 h3
    | false =>
      cases hiso : reIsoStart.testStart (jsTrim str) with
      | true =>
        left
        obtain ⟨a, b, c, d, e, f, g, i, rest, hs, ha, hb, hc, hd, he, hf, hg, hi⟩ :=
          (run_isoStart_iff _).mp hiso
        have hres : toISODateText str = ⟨[a, b, c, d, '-', e, f, '-', g, i]⟩ := by
          simp only [toISODateText, hday, hyear, hiso, Bool.false_eq_true, if_false, if_true,
            slice10, hs]
          rfl
        rw [hres]
        exact (isIsoDateShape_iff _).mpr ⟨a, b, c, d, e, f, g, i, rfl, ha, hb, hc, hd, he, hf, hg, hi⟩
      | false =>
        right
        refine ⟨?_, rfl, rfl, rfl⟩
        simp only [toISODateText, hday, hyear, hiso, Bool.false_eq_true, if_false]

theorem toISODate_text_of_fixed (s : String) (htrim : jsTrim s = s)
    (h1 : reDayFirst.testFull s = false) (h2 : reYearFirst.testFull s = false)
    (h3 : reIsoStart.testStart s = false) : toISODate (Cell.text s) = s := by
  simp only [toISODate]
  split
  · rename_i h0
    exact h0.symm
  · simp only [toISODateText, htrim, h1, h2, h3, Bool.false_eq_true, if_false]

theorem toISODate_text_of_isoShape (s : String) (h : isIsoDateShape s = true) :
    toISODate (Cell.text s) = s := by
  obtain ⟨h1, h2⟩ := toISODateText_of_isoShape s h
  simp only [toISODate, h2, if_false, h1]

theorem toISODate_toISODateText (str : String) :
    toISODate (Cell.text (toISODateText str)) = toISODateText str := by
  rcases toISODateText_cases str with h | ⟨h0, h1, h2, h3⟩
  · exact toISODate_text_of_isoShape _ h
  · rw [h0]
    exact toISODate_text_of_fixed _ (jsTrim_idem str) h1 h2 h3

theorem run_digit_cons_false (c : Char) (t : List Char) (k : List Char → Bool)
    (h : isDecimalDigit c = false) : RE.digit.run (c :: t) k = false := by
  rw [← Bool.not_eq_true, run_digit_iff]
  rintro ⟨c2, t2, heq, hd, _⟩
  simp only [List.cons.injEq] at heq
  rw [← heq.1, h] at hd
  exact Bool.noConfusion hd

theorem tests_false_of_first (c : Char) (t : List Char) (h : isDecimalDigit c = false) :
    reDayFirst.testFull ⟨c :: t⟩ = false ∧ reYearFirst.testFull ⟨c :: t⟩ = false
      ∧ reIsoStart.testStart ⟨c :: t⟩ = false := by
  refine ⟨?_, ?_, ?_⟩
  · simp only [RE.testFull, reDayFirst, reDigits12, run_seq, run_digit_cons_false c t _ h]
  · simp only [RE.testFull, reYearFirst, reDigits4, run_seq, run_digit_cons_false c t _ h]
  · simp only [RE.testStart, reIsoStart, reDigits4, run_seq, run_digit_cons_false c t _ h]

theorem toISODate_text_of_extendedYear (s : String) (h : isExtendedYearStart s = true) :
    toISODate (Cell.text s) = s := by
  unfold isExtendedYearStart at h
  split at h
  · rename_i sg a b c d e f hy g i hs
    simp only [Bool.and_eq_true, Bool.or_eq_true, beq_iff_eq] at h
    obtain ⟨⟨⟨⟨⟨⟨⟨⟨⟨hsg, _⟩, _⟩, _⟩, _⟩, _⟩, _⟩, _⟩, _⟩, hi⟩ := h
    have hse : s = ⟨sg :: [a, b, c, d, e, f, hy, g, i]⟩ := by
      cases s with
      | mk l =>
        simp only at hs
        rw [hs]
    have hsgd : isDecimalDigit sg = false := by
      rcases hsg with rfl | rfl <;> decide
    have hsgw : isJsWhiteSpace sg = false := by
      rcases hsg with rfl | rfl <;> decide
    have htrim : jsTrim s = s := by
      have := trimChars_surrounded [] [] (sg :: [a, b, c, d, e, f, hy, g, i]) sg i
        [a, b, c, d, e, f, hy, g, i] [sg, a, b, c, d, e, f, hy, g] (by simp) (by simp) rfl rfl
        hsgw (digit_not_whiteSpace i hi)
      simp only [List.nil_append, List.append_nil] at this
      rw [hse]
      simp only [jsTrim, this]
    obtain ⟨t1, t2, t3⟩ := tests_false_of_first sg [a, b, c, d, e, f, hy, g, i] hsgd
    rw [← hse] at t1 t2 t3
    exact toISODate_text_of_fixed s htrim t1 t2 t3
  · exact absurd h (by simp)

/-- C12. Date round-trip: for every cell, a text, a number, a date, null or
undefined, `toISODate` applied to its own result returns that result, where for
a valid `Date` the first ten characters of `toISOString()` are `YYYY-MM-DD` or a
signed six-digit year with the month, and for a number the decoded date code
has a four-digit year and a month and day of at most two digits;
`toISODate("2025-12-01")` is `2025-12-01`, and every string of the form
`YYYY-MM-DD` is returned unchanged. -/
theorem toISODate_idempotent :
    (∀ v : Cell, v.WellFormed → toISODate (Cell.text (toISODate v)) = toISODate v)
    ∧ toISODate (Cell.text "2025-12-01") = "2025-12-01"
    ∧ (∀ s : String, isIsoDateShape s = true → toISODate (Cell.text s) = s) := by
  refine ⟨?_, by decide, toISODate_text_of_isoShape⟩
  intro v hv
  have hempty : toISODate (Cell.text "") = "" := by decide
  cases v with
  | text s =>
    by_cases h0 : s = ""
    · simp only [toISODate, h0, if_true]
    · simp only [toISODate, h0, if_false]
      have := toISODate_toISODateText s
      simp only [toISODate] at this
      exact this
  | number str dateCode =>
    cases dateCode with
    | none => exact toISODate_toISODateText str
    | some d =>
      by_cases hd : d.y ≠ 0 ∧ d.m ≠ 0 ∧ d.d ≠ 0
      · have hres : toISODate (Cell.number str (some d))
            = natToString d.y ++ "-" ++ padStart2 (natToString d.m) ++ "-"
                ++ padStart2 (natToString d.d) := by
          show (if d.y ≠ 0 ∧ d.m ≠ 0 ∧ d.d ≠ 0 then _ else _) = _
          rw [if_pos hd]
        rw [hres]
        exact toISODate_text_of_isoShape _ (dateCode_text_isoShape d.y d.m d.d hv.1 hv.2.1
          hv.2.2.1 hv.2.2.2)
      · have hres : toISODate (Cell.number str (some d)) = toISODateText str := by
          show (if d.y ≠ 0 ∧ d.m ≠ 0 ∧ d.d ≠ 0 then _ else _) = _
          rw [if_neg hd]
        rw [hres]
        exact toISODate_toISODateText str
  | date iso str =>
    have hres : toISODate (Cell.date iso str) = slice10 iso := rfl
    rw [hres]
    rcases hv with h | h
    · exact toISODate_text_of_isoShape _ h
    · exact toISODate_text_of_extendedYear _ h
  | invalidDate => exact toISODate_toISODateText "Invalid Date"
  | null => exact hempty
  | undefined => exact hempty

/-- Witness of C12: a number cell for the serial 45000, whose date code is
15 March 2023, meets the condition on date codes; its result `2023-03-15` is
returned unchanged by a second application. -/
theorem toISODate_idempotent_witness :
    (Cell.number "45000" (some ⟨2023, 3, 15⟩)).WellFormed
    ∧ toISODate (Cell.number "45000" (some ⟨2023, 3, 15⟩)) = "2023-03-15"
    ∧ toISODate (Cell.text (toISODate (Cell.number "45000" (some ⟨2023, 3, 15⟩))))
      = toISODate (Cell.number "45000" (some ⟨2023, 3, 15⟩)) :=
  ⟨⟨by decide, by decide, by decide, by decide⟩, by decide,
    toISODate_idempotent.1 (Cell.number "45000" (some ⟨2023, 3, 15⟩))
      ⟨by decide, by decide, by decide, by decide⟩⟩

/-! ## Order of the keys of a row -/

theorem setField_comm (r : Record) (f g : Field) (a b : String) (h : f ≠ g) :
    (r.setField f a).setField g b = (r.setField g b).setField f a := by
  cases f <;> cases g <;> first | exact absurd rfl h | rfl

theorem getField_setField_same (r : Record) (f : Field) (v : String) :
    (r.setField f v).getField f = v := by
  cases f <;> rfl

theorem getField_setField_ne (r : Record) (f g : Field) (v : String) (h : f ≠ g) :
    (r.setField g v).getField f = r.getField f := by
  cases f <;> cases g <;> first | exact absurd rfl h | rfl

theorem rowStep_eq (P : Platform) (r : Record) (kv : String × Cell) :
    rowStep P r kv =
      match resolveHeader P kv.1 with
      | none => r
      | some (AliasValue.field f) => r.setField f (cellValue f kv.2)
      | some (AliasValue.inherited n) => { r with extra := mapSet r.extra n (jsTrim kv.2.toText) } := by
  simp only [rowStep, resolveHeader]
  cases lookupAlias (normalizeHeader P kv.1) with
  | none => rfl
  | some a =>
    cases a with
    | field f =>
      simp only [cellValue]
      split <;> rfl
    | inherited n => rfl

theorem rowStep_comm (P : Platform) (r : Record) (x y : String × Cell)
    (h : x = y ∨ ∀ a ∈ resolveHeader P x.1, ∀ b ∈ resolveHeader P y.1,
      a ≠ b ∧ ¬ (a.isInherited = true ∧ b.isInherited = true)) :
    rowStep P (rowStep P r x) y = rowStep P (rowStep P r y) x := by
  rcases h with h | h
  · rw [h]
  · rw [rowStep_eq P r x, rowStep_eq P r y, rowStep_eq, rowStep_eq]
    cases hx : resolveHeader P x.1 with
    | none => rfl
    | some a =>
      cases hy : resolveHeader P y.1 with
      | none => simp only [hx]
      | some b =>
        have hab := h a (by rw [hx]; rfl) b (by rw [hy]; rfl)
        cases a with
        | field f =>
          cases b with
          | field g =>
            simp only
            exact setField_comm r f g _ _ (fun hfg => hab.1 (by rw [hfg]))
          | inherited m =>
            simp only
            cases f <;> rfl
        | inherited n =>
          cases b with
          | field g =>
            simp only
            cases g <;> rfl
          | inherited m => exact absurd ⟨rfl, rfl⟩ hab.2

theorem two_le_length_of_mem_ne {α : Type} (l : List α) (a b : α) (ha : a ∈ l) (hb : b ∈ l)
    (hab : a ≠ b) : 2 ≤ l.length := by
  match l, ha, hb with
  | [], ha, _ => simp at ha
  | [c], ha, hb =>
    simp only [List.mem_singleton] at ha hb
    exact absurd (ha.trans hb.symm) hab
  | _ :: _ :: _, _, _ => simp

theorem getField_rowStep_of_ne (P : Platform) (r : Record) (kv : String × Cell) (f : Field)
    (h : resolveHeader P kv.1 ≠ some (AliasValue.field f)) :
    (rowStep P r kv).getField f = r.getField f := by
  rw [rowStep_eq]
  cases hres : resolveHeader P kv.1 with
  | none => rfl
  | some a =>
    cases a with
    | field g =>
      simp only
      apply getField_setField_ne
      intro hfg
      apply h
      rw [hres, hfg]
    | inherited n =>
      simp only
      cases f <;> rfl

theorem getField_foldl_rowStep_of_ne (P : Platform) (l : RawRow) (r : Record) (f : Field)
    (h : ∀ x ∈ l, resolveHeader P x.1 ≠ some (AliasValue.field f)) :
    (l.foldl (rowStep P) r).getField f = r.getField f := by
  induction l generalizing r with
  | nil => rfl
  | cons x l ih =>
    simp only [List.foldl_cons]
    rw [ih (rowStep P r x) (fun y hy => h y (List.mem_cons_of_mem _ hy)),
      getField_rowStep_of_ne P r x f (h x (List.mem_cons_self _ _))]

theorem getField_foldl_rowStep_last (P : Platform) (pre post : RawRow) (kv : String × Cell)
    (f : Field) (r : Record) (hkv : resolveHeader P kv.1 = some (AliasValue.field f))
    (hpost : ∀ x ∈ post, resolveHeader P x.1 ≠ some (AliasValue.field f)) :
    ((pre ++ kv :: post).foldl (rowStep P) r).getField f = cellValue f kv.2 := by
  rw [List.foldl_append, List.foldl_cons, getField_foldl_rowStep_of_ne P post _ f hpost,
    rowStep_eq, hkv]
  exact getField_setField_same _ f _

theorem getField_rowToRecord (P : Platform) (row : RawRow) (f : Field) :
    (rowToRecord P row).getField f
      = coerceField P f ((row.foldl (rowStep P) emptyForm).getField f) := by
  cases f <;> rfl

theorem extra_rowStep_of_ne (P : Platform) (r : Record) (kv : String × Cell) (n : String)
    (h : resolveHeader P kv.1 ≠ some (AliasValue.inherited n)) :
    mapGet (rowStep P r kv).extra n = mapGet r.extra n := by
  rw [rowStep_eq]
  cases hres : resolveHeader P kv.1 with
  | none => rfl
  | some a =>
    cases a with
    | field g =>
      simp only
      cases g <;> rfl
    | inherited m =>
      simp only
      rw [mapGet_mapSet, if_neg]
      intro hmn
      apply h
      rw [hres, hmn]

theorem extra_foldl_rowStep_of_ne (P : Platform) (l : RawRow) (r : Record) (n : String)
    (h : ∀ x ∈ l, resolveHeader P x.1 ≠ some (AliasValue.inherited n)) :
    mapGet (l.foldl (rowStep P) r).extra n = mapGet r.extra n := by
  induction l generalizing r with
  | nil => rfl
  | cons x l ih =>
    simp only [List.foldl_cons]
    rw [ih (rowStep P r x) (fun y hy => h y (List.mem_cons_of_mem _ hy)),
      extra_rowStep_of_ne P r x n (h x (List.mem_cons_self _ _))]

/-- C15, as stated, fails: the headers `Server` and `Host` are distinct texts
and both resolve to `serverName`; the row with the cells `a` and `b` under them
is mapped to a record named `b`, the same pairs in the other order to a record
named `a`. -/
theorem row_order_counterexample :
    ([("Server", Cell.text "a"), ("Host", Cell.text "b")].map Prod.fst).Nodup
    ∧ List.Perm [("Server", Cell.text "a"), ("Host", Cell.text "b")]
        [("Host", Cell.text "b"), ("Server", Cell.text "a")]
    ∧ (rowToRecord refPlatform [("Server", Cell.text "a"), ("Host", Cell.text "b")]).serverName = "b"
    ∧ (rowToRecord refPlatform [("Host", Cell.text "b"), ("Server", Cell.text "a")]).serverName = "a"
    ∧ rowToRecord refPlatform [("Server", Cell.text "a"), ("Host", Cell.text "b")]
        ≠ rowToRecord refPlatform [("Host", Cell.text "b"), ("Server", Cell.text "a")] := by
  refine ⟨by decide, List.Perm.swap _ _ _, by decide, by decide, by decide⟩

/-- C15, amended.  (1) For every raw row in which no two pairs have headers that
resolve to the same property of the alias table (a field, or a property it
inherits such as `constructor`) and at most one header resolves to an inherited
property, and for every reordering of its pairs, `rowToRecord` returns the same
record.  (2) In every row, whatever its headers, a field is given by the last
pair in key order whose header resolves to it: `toISODate` of its value for a
date field, the trimmed text of its value otherwise, passed through
`pickFromOptions` for the five enum fields.  (3) A field to which no header
resolves has the value of `emptyForm`, passed through `pickFromOptions` for the
enum fields.  (4) The property written for an inherited lookup holds the
trimmed text of the last pair that resolves to it. -/
theorem row_order_independent (P : Platform) :
    (∀ row row2 : RawRow, List.Perm row row2 →
      (row.filterMap (fun kv => resolveHeader P kv.1)).Nodup →
      (inheritedPairs P row).length ≤ 1 →
      rowToRecord P row = rowToRecord P row2)
    ∧ (∀ (pre post : RawRow) (kv : String × Cell) (f : Field),
      resolveHeader P kv.1 = some (AliasValue.field f) →
      (∀ x ∈ post, resolveHeader P x.1 ≠ some (AliasValue.field f)) →
      (rowToRecord P (pre ++ kv :: post)).getField f = coerceField P f (cellValue f kv.2))
    ∧ (∀ (row : RawRow) (f : Field),
      (∀ x ∈ row, resolveHeader P x.1 ≠ some (AliasValue.field f)) →
      (rowToRecord P row).getField f = coerceField P f (emptyForm.getField f))
    ∧ (∀ (pre post : RawRow) (kv : String × Cell) (n : String),
      resolveHeader P kv.1 = some (AliasValue.inherited n) →
      (∀ x ∈ post, resolveHeader P x.1 ≠ some (AliasValue.inherited n)) →
      mapGet (rowToRecord P (pre ++ kv :: post)).extra n = some (jsTrim kv.2.toText)) := by
  refine ⟨?_, ?_, ?_, ?_⟩
  · intro row row2 hperm hfields hinh
    have hpw := List.pairwise_filterMap.mp hfields
    have hsymm : Symmetric (fun (a b : String × Cell) =>
        ∀ f ∈ resolveHeader P a.1, ∀ g ∈ resolveHeader P b.1, f ≠ g) := by
      intro a b hab g hg f hf hgf
      exact hab f hf g hg hgf.symm
    have hfold : row.foldl (rowStep P) emptyForm = row2.foldl (rowStep P) emptyForm := by
      apply List.Perm.foldl_eq' hperm
      intro x hx y hy z
      apply rowStep_comm
      by_cases hxy : x = y
      · exact Or.inl hxy
      · right
        intro a ha b hb
        refine ⟨hpw.forall hsymm hx hy hxy a ha b hb, ?_⟩
        rintro ⟨hai, hbi⟩
        have hxm : x ∈ inheritedPairs P row := by
          simp only [inheritedPairs, List.mem_filter]
          refine ⟨hx, ?_⟩
          rw [Option.mem_def.mp ha]
          exact hai
        have hym : y ∈ inheritedPairs P row := by
          simp only [inheritedPairs, List.mem_filter]
          refine ⟨hy, ?_⟩
          rw [Option.mem_def.mp hb]
          exact hbi
        have := two_le_length_of_mem_ne _ x y hxm hym hxy
        omega
    simp only [rowToRecord, hfold]
  · intro pre post kv f hkv hpost
    rw [getField_rowToRecord, getField_foldl_rowStep_last P pre post kv f emptyForm hkv hpost]
  · intro row f hnone
    rw [getField_rowToRecord, getField_foldl_rowStep_of_ne P row emptyForm f hnone]
  · intro pre post kv n hkv hpost
    have hextra : (rowToRecord P (pre ++ kv :: post)).extra
        = ((pre ++ kv :: post).foldl (rowStep P) emptyForm).extra := rfl
    rw [hextra, List.foldl_append, List.foldl_cons, extra_foldl_rowStep_of_ne P post _ n hpost,
      rowStep_eq, hkv]
    simp only
    rw [mapGet_mapSet, if_pos rfl]

/-- Witness of the amended C15 on the reference platform: the sample row, whose
five headers resolve to five fields, and the same row with its first two pairs
exchanged are mapped to the same record; in the row with the headers `Server`
and `Host` the last of the two gives `serverName`; a row with the headers
`Constructor` and `constructor` keeps the value of the last under the inherited
property. -/
theorem row_order_independent_witness :
    ((sampleRow "srv-a" "10.0.0.1" "p" "o" "2025-01-01").filterMap
        (fun kv => resolveHeader refPlatform kv.1)).Nodup
    ∧ rowToRecord refPlatform (sampleRow "srv-a" "10.0.0.1" "p" "o" "2025-01-01")
      = rowToRecord refPlatform
          [("IP Address", Cell.text "10.0.0.1"), ("Server Name", Cell.text "srv-a"),
           ("Purpose", Cell.text "p"), ("Owner", Cell.text "o"),
           ("Allocated Date", Cell.text "2025-01-01")]
    ∧ (rowToRecord refPlatform
        ([("Server", Cell.text "a")] ++ ("Host", Cell.text " b ") :: [])).getField Field.serverName
      = "b"
    ∧ mapGet (rowToRecord refPlatform
        ([("Constructor", Cell.text "x")] ++ ("constructor", Cell.text "y") :: [])).extra
        "constructor" = some "y" :=
  ⟨by decide,
    (row_order_independent refPlatform).1 _ _ (List.Perm.swap _ _ _) (by decide) (by decide),
    (row_order_independent refPlatform).2.1 [("Server", Cell.text "a")] []
      ("Host", Cell.text " b ") Field.serverName (by decide) (by simp),
    (row_order_independent refPlatform).2.2.2 [("Constructor", Cell.text "x")] []
      ("constructor", Cell.text "y") "constructor" (by decide) (by simp)⟩

/-! ## Dates of accepted rows -/

theorem splitDate_cons_cases (s g : List Char) (gs : List (List Char))
    (h : splitDate s = g :: gs) :
    (gs = [] ∧ s = g)
    ∨ (∃ sep rest, s = g ++ sep :: rest ∧ (sep == '/' || sep == '-') = true
        ∧ splitDate rest = gs) := by
  induction s generalizing g gs with
  | nil =>
    simp only [splitDate, List.cons.injEq] at h
    exact Or.inl ⟨h.2.symm, h.1⟩
  | cons c s ih =>
    simp only [splitDate] at h
    split at h
    · rename_i hc
      simp only [List.cons.injEq] at h
      exact Or.inr ⟨c, s, by rw [← h.1]; rfl, hc, h.2⟩
    · cases hs : splitDate s with
      | nil => exact absurd hs (splitDate_ne_nil s)
      | cons g2 gs2 =>
        rw [hs] at h
        simp only [List.cons.injEq] at h
        obtain ⟨hg, hgs⟩ := h
        rcases ih g2 gs2 hs with ⟨h1, h2⟩ | ⟨sep, rest, h1, h2, h3⟩
        · left
          exact ⟨by rw [← hgs, h1], by rw [← hg, h2]⟩
        · right
          exact ⟨sep, rest, by rw [← hg, h1]; rfl, h2, by rw [h3, hgs]⟩

theorem splitDate_three_inv (s a b c : List Char) (h : splitDate s = [a, b, c]) :
    ∃ s1 s2, s = a ++ s1 :: (b ++ s2 :: c) ∧ (s1 == '/' || s1 == '-') = true
      ∧ (s2 == '/' || s2 == '-') = true := by
  rcases splitDate_cons_cases s a [b, c] h with ⟨h1, _⟩ | ⟨s1, r1, e1, hs1, h1⟩
  · exact absurd h1 (by simp)
  · rcases splitDate_cons_cases r1 b [c] h1 with ⟨h2, _⟩ | ⟨s2, r2, e2, hs2, h2⟩
    · exact absurd h2 (by simp)
    · rcases splitDate_cons_cases r2 c [] h2 with ⟨_, h3⟩ | ⟨s3, r3, _, _, h3⟩
      · exact ⟨s1, s2, by rw [e1, e2, h3], hs1, hs2⟩
      · exact absurd h3 (splitDate_ne_nil r3)

theorem len12_iff (g : List Char) :
    (g.length == 1 || g.length == 2) = true ↔ (g.length = 1 ∨ g.length = 2) := by
  simp

theorem isDayFirstDate_eq (s : List Char) : isDayFirstDate s = reDayFirst.run s List.isEmpty := by
  rw [Bool.eq_iff_iff, run_dayFirst_iff]
  constructor
  · intro h
    unfold isDayFirstDate at h
    split at h
    · rename_i d m y hs
      simp only [Bool.and_eq_true, len12_iff, beq_iff_eq] at h
      obtain ⟨s1, s2, e, hs1, hs2⟩ := splitDate_three_inv s d m y hs
      exact ⟨d, s1, m, s2, y, e, ⟨h.1.1.1.1.1, h.1.1.1.1.2⟩, hs1, ⟨h.1.1.1.2, h.1.1.2⟩, hs2,
        ⟨h.1.2, h.2⟩⟩
    · exact absurd h (by simp)
  · rintro ⟨g1, s1, g2, s2, g3, rfl, ⟨h1, l1⟩, hs1, ⟨h2, l2⟩, hs2, ⟨h3, l3⟩⟩
    simp only [isDayFirstDate, splitDate_three g1 g2 g3 s1 s2 h1 h2 h3 hs1 hs2, Bool.and_eq_true,
      len12_iff, beq_iff_eq]
    exact ⟨⟨⟨⟨⟨h1, l1⟩, h2⟩, l2⟩, h3⟩, l3⟩

theorem isYearFirstDate_eq (s : List Char) :
    isYearFirstDate s = reYearFirst.run s List.isEmpty := by
  rw [Bool.eq_iff_iff, run_yearFirst_iff]
  constructor
  · intro h
    unfold isYearFirstDate at h
    split at h
    · rename_i y m d hs
      simp only [Bool.and_eq_true, len12_iff, beq_iff_eq] at h
      obtain ⟨s1, s2, e, hs1, hs2⟩ := splitDate_three_inv s y m d hs
      exact ⟨y, s1, m, s2, d, e, ⟨h.1.1.1.1.1, h.1.1.1.1.2⟩, hs1, ⟨h.1.1.1.2, h.1.1.2⟩, hs2,
        ⟨h.1.2, h.2⟩⟩
    · exact absurd h (by simp)
  · rintro ⟨g1, s1, g2, s2, g3, rfl, ⟨h1, l1⟩, hs1, ⟨h2, l2⟩, hs2, ⟨h3, l3⟩⟩
    simp only [isYearFirstDate, splitDate_three g1 g2 g3 s1 s2 h1 h2 h3 hs1 hs2, Bool.and_eq_true,
      len12_iff, beq_iff_eq]
    exact ⟨⟨⟨⟨⟨h1, l1⟩, h2⟩, l2⟩, h3⟩, l3⟩

theorem startsWithIsoDate_eq (s : List Char) :
    startsWithIsoDate s = reIsoStart.run s (fun _ => true) := by
  rw [Bool.eq_iff_iff, run_isoStart_iff, startsWithIsoDate, isIsoDateShape_iff]
  constructor
  · rintro ⟨a, b, c, d, e, f, g, i, hs, ha, hb, hc, hd, he, hf, hg, hi⟩
    have htake : s.take 10 = [a, b, c, d, '-', e, f, '-', g, i] := by
      have := congrArg String.data hs
      simpa using this
    refine ⟨a, b, c, d, e, f, g, i, s.drop 10, ?_, ha, hb, hc, hd, he, hf, hg, hi⟩
    have := List.take_append_drop 10 s
    rw [htake] at this
    exact this.symm
  · rintro ⟨a, b, c, d, e, f, g, i, rest, rfl, ha, hb, hc, hd, he, hf, hg, hi⟩
    exact ⟨a, b, c, d, e, f, g, i, rfl, ha, hb, hc, hd, he, hf, hg, hi⟩

theorem isDateText_eq (str : String) :
    isDateText str = (reDayFirst.testFull (jsTrim str) || reYearFirst.testFull (jsTrim str)
      || reIsoStart.testStart (jsTrim str)) := by
  simp only [isDateText, isDayFirstDate_eq, isYearFirstDate_eq, startsWithIsoDate_eq, RE.testFull,
    RE.testStart]

theorem yearFirst_of_isoShape (s : String) (h : isIsoDateShape s = true) :
    reYearFirst.testFull s = true := by
  obtain ⟨a, b, c, d, e, f, g, i, rfl, ha, hb, hc, hd, he, hf, hg, hi⟩ :=
    (isIsoDateShape_iff s).mp h
  exact (run_yearFirst_iff _).mpr ⟨[a, b, c, d], '-', [e, f], '-', [g, i], rfl,
    ⟨by simp [isDigits, ha, hb, hc, hd], rfl⟩, by decide,
    ⟨by simp [isDigits, he, hf], Or.inr rfl⟩, by decide,
    ⟨by simp [isDigits, hg, hi], Or.inr rfl⟩⟩

theorem isIsoDateShape_toISODateText (str : String) :
    isIsoDateShape (toISODateText str) = isDateText str := by
  rw [isDateText_eq]
  rcases toISODateText_cases str with h | ⟨h0, h1, h2, h3⟩
  · rw [h]
    symm
    by_contra hne
    simp only [Bool.or_eq_true, not_or, Bool.not_eq_true] at hne
    obtain ⟨⟨t1, t2⟩, t3⟩ := hne
    have hres : toISODateText str = jsTrim str := by
      simp only [toISODateText, t1, t2, t3, Bool.false_eq_true, if_false]
    rw [hres] at h
    rw [yearFirst_of_isoShape _ h] at t2
    exact Bool.noConfusion t2
  · rw [h0, h1, h2, h3]
    simp only [Bool.or_self]
    cases hs : isIsoDateShape (jsTrim str) with
    | false => rfl
    | true =>
      rw [yearFirst_of_isoShape _ hs] at h2
      exact Bool.noConfusion h2

theorem toISODateText_of_not_date (str : String) (h : isDateText str = false) :
    toISODateText str = jsTrim str := by
  rw [isDateText_eq] at h
  simp only [Bool.or_eq_false_iff] at h
  simp only [toISODateText, h.1.1, h.1.2, h.2, Bool.false_eq_true, if_false]

theorem isIsoDateShape_toISODate (v : Cell) (hv : v.WellFormed) :
    isIsoDateShape (toISODate v) = v.isDate := by
  have hempty : isIsoDateShape "" = false := by decide
  cases v with
  | text s =>
    by_cases h0 : s = ""
    · subst h0
      decide
    · simp only [toISODate, h0, if_false, Cell.isDate]
      exact isIsoDateShape_toISODateText s
  | number str dateCode =>
    cases dateCode with
    | none => exact isIsoDateShape_toISODateText str
    | some d =>
      by_cases hd : d.y ≠ 0 ∧ d.m ≠ 0 ∧ d.d ≠ 0
      · have hres : toISODate (Cell.number str (some d))
            = natToString d.y ++ "-" ++ padStart2 (natToString d.m) ++ "-"
                ++ padStart2 (natToString d.d) := by
          show (if d.y ≠ 0 ∧ d.m ≠ 0 ∧ d.d ≠ 0 then _ else _) = _
          rw [if_pos hd]
        rw [hres, dateCode_text_isoShape d.y d.m d.d hv.1 hv.2.1 hv.2.2.1 hv.2.2.2]
        simp [Cell.isDate, hd.1, hd.2.1, hd.2.2]
      · have hres : toISODate (Cell.number str (some d)) = toISODateText str := by
          show (if d.y ≠ 0 ∧ d.m ≠ 0 ∧ d.d ≠ 0 then _ else _) = _
          rw [if_neg hd]
        have hz : (d.y != 0 && d.m != 0 && d.d != 0) = false := by
          rw [← Bool.not_eq_true]
          intro h
          simp only [Bool.and_eq_true, bne_iff_ne, ne_eq] at h
          exact hd ⟨h.1.1, h.1.2, h.2⟩
        rw [hres, isIsoDateShape_toISODateText]
        simp only [Cell.isDate, hz, Bool.false_or]
  | date iso str => rfl
  | invalidDate => decide
  | null => exact hempty
  | undefined => exact hempty

theorem exists_last_of_pred {α : Type} (p : α → Prop) [DecidablePred p] (l : List α) :
    (∀ x ∈ l, ¬ p x)
    ∨ ∃ pre x post, l = pre ++ x :: post ∧ p x ∧ ∀ y ∈ post, ¬ p y := by
  induction l with
  | nil => exact Or.inl (by simp)
  | cons a l ih =>
    rcases ih with h | ⟨pre, x, post, h1, h2, h3⟩
    · by_cases ha : p a
      · exact Or.inr ⟨[], a, l, rfl, ha, h⟩
      · left
        intro y hy
        rcases List.mem_cons.mp hy with h1 | h1
        · rw [h1]; exact ha
        · exact h y h1
    · exact Or.inr ⟨a :: pre, x, post, by rw [h1]; rfl, h2, h3⟩

theorem dateField_of_row (P : Platform) (row : RawRow) (f : Field)
    (hf : f = Field.allocatedDate ∨ f = Field.surrenderedDate)
    (hne : (rowToRecord P row).getField f ≠ "") :
    ∃ pre kv post, row = pre ++ kv :: post
      ∧ resolveHeader P kv.1 = some (AliasValue.field f)
      ∧ (∀ x ∈ post, resolveHeader P x.1 ≠ some (AliasValue.field f))
      ∧ (rowToRecord P row).getField f = toISODate kv.2
      ∧ (kv.2.WellFormed → isIsoDateShape ((rowToRecord P row).getField f) = kv.2.isDate) := by
  have hco : ∀ s, coerceField P f s = s := by
    intro s
    rcases hf with rfl | rfl <;> rfl
  have hcv : ∀ v, cellValue f v = toISODate v := by
    intro v
    simp only [cellValue, hf, if_true]
  rcases exists_last_of_pred (fun kv : String × Cell =>
      resolveHeader P kv.1 = some (AliasValue.field f)) row with h | ⟨pre, kv, post, h1, h2, h3⟩
  · exfalso
    apply hne
    rw [getField_rowToRecord, getField_foldl_rowStep_of_ne P row emptyForm f h, hco]
    rcases hf with rfl | rfl <;> rfl
  · have hval : (rowToRecord P row).getField f = toISODate kv.2 := by
      rw [h1, getField_rowToRecord, getField_foldl_rowStep_last P pre post kv f emptyForm h2 h3,
        hco, hcv]
    refine ⟨pre, kv, post, h1, h2, h3, hval, ?_⟩
    intro hw
    rw [hval]
    exact isIsoDateShape_toISODate kv.2 hw

/-- C18, as stated, fails: the row whose `Allocated Date` cell is the text
`1999` is mapped to a record that passes `validate` on the reference platform,
and its `allocatedDate` is `1999`, which has not the form `YYYY-MM-DD`. -/
theorem accepted_date_not_iso_counterexample :
    validate refPlatform (rowToRecord refPlatform
        (sampleRow "srv-a" "10.0.0.1" "p" "o" "1999")) = []
    ∧ (rowToRecord refPlatform (sampleRow "srv-a" "10.0.0.1" "p" "o" "1999")).allocatedDate
        = "1999"
    ∧ isIsoDateShape (rowToRecord refPlatform
        (sampleRow "srv-a" "10.0.0.1" "p" "o" "1999")).allocatedDate = false := by
  refine ⟨by decide, by decide, by decide⟩

/-- C18, amended.  (1) For every raw row whose mapped record passes `validate`,
`allocatedDate` is `toISODate` of the cell under the last header that resolves
to `allocatedDate`, and it has the form `YYYY-MM-DD` exactly when that cell
holds a date in one of the forms the code reformats (`Cell.isDate`).  (2) The
same holds for `surrenderedDate` whenever it is non-empty.  (3) For every cell,
`toISODate` returns a string of the form `YYYY-MM-DD` exactly when the cell
holds such a date.  (4) A text that is no such date is returned as its trimmed
text. -/
theorem accepted_dates_iso :
    (∀ (P : Platform) (row : RawRow), validate P (rowToRecord P row) = [] →
      ∃ pre kv post, row = pre ++ kv :: post
        ∧ resolveHeader P kv.1 = some (AliasValue.field Field.allocatedDate)
        ∧ (∀ x ∈ post, resolveHeader P x.1 ≠ some (AliasValue.field Field.allocatedDate))
        ∧ (rowToRecord P row).allocatedDate = toISODate kv.2
        ∧ (kv.2.WellFormed →
            isIsoDateShape (rowToRecord P row).allocatedDate = kv.2.isDate))
    ∧ (∀ (P : Platform) (row : RawRow), (rowToRecord P row).surrenderedDate ≠ "" →
      ∃ pre kv post, row = pre ++ kv :: post
        ∧ resolveHeader P kv.1 = some (AliasValue.field Field.surrenderedDate)
        ∧ (∀ x ∈ post, resolveHeader P x.1 ≠ some (AliasValue.field Field.surrenderedDate))
        ∧ (rowToRecord P row).surrenderedDate = toISODate kv.2
        ∧ (kv.2.WellFormed →
            isIsoDateShape (rowToRecord P row).surrenderedDate = kv.2.isDate))
    ∧ (∀ v : Cell, v.WellFormed → isIsoDateShape (toISODate v) = v.isDate)
    ∧ (∀ s : String, isDateText s = false → toISODate (Cell.text s) = jsTrim s) := by
  refine ⟨?_, ?_, isIsoDateShape_toISODate, ?_⟩
  · intro P row hvalid
    have hne : ¬ (rowToRecord P row).allocatedDate = "" :=
      ((validate_eq_nil_iff P _).mp hvalid).2.2.2.2.1
    exact dateField_of_row P row Field.allocatedDate (Or.inl rfl) hne
  · intro P row hne
    exact dateField_of_row P row Field.surrenderedDate (Or.inr rfl) hne
  · intro s h
    by_cases h0 : s = ""
    · subst h0
      decide
    · simp only [toISODate, h0, if_false]
      exact toISODateText_of_not_date s h

/-- Witness of the amended C18 on the reference platform: the sample row with
the text `1/2/2025` under `Allocated Date` passes `validate`; its last pair is
the one that resolves to `allocatedDate`, the cell holds a date, and
`allocatedDate` is `2025-02-01`, of the form `YYYY-MM-DD`. -/
theorem accepted_dates_iso_witness :
    validate refPlatform (rowToRecord refPlatform
        (sampleRow "srv-a" "10.0.0.1" "p" "o" "1/2/2025")) = []
    ∧ (∃ pre kv post, sampleRow "srv-a" "10.0.0.1" "p" "o" "1/2/2025" = pre ++ kv :: post
        ∧ resolveHeader refPlatform kv.1 = some (AliasValue.field Field.allocatedDate)
        ∧ (∀ x ∈ post, resolveHeader refPlatform x.1
            ≠ some (AliasValue.field Field.allocatedDate))
        ∧ (rowToRecord refPlatform (sampleRow "srv-a" "10.0.0.1" "p" "o" "1/2/2025")).allocatedDate
            = toISODate kv.2
        ∧ (kv.2.WellFormed →
            isIsoDateShape (rowToRecord refPlatform
              (sampleRow "srv-a" "10.0.0.1" "p" "o" "1/2/2025")).allocatedDate = kv.2.isDate))
    ∧ (rowToRecord refPlatform (sampleRow "srv-a" "10.0.0.1" "p" "o" "1/2/2025")).allocatedDate
        = "2025-02-01"
    ∧ (Cell.text "1/2/2025").isDate = true
    ∧ isIsoDateShape (toISODate (Cell.text "1/2/2025")) = (Cell.text "1/2/2025").isDate :=
  ⟨by decide,
    accepted_dates_iso.1 refPlatform (sampleRow "srv-a" "10.0.0.1" "p" "o" "1/2/2025") (by decide),
    by decide, by decide,
    accepted_dates_iso.2.2.1 (Cell.text "1/2/2025") trivial⟩

end ServerInventory
